import Mathlib

/-!
Shallow embedding of the PMX codec (`pypmx.py`) and merge engine
(`pmxmerge.py`) of the mmd_helper repository, with theorems settling the
frozen specification claims.

The binary file is modelled as a list of typed tokens (`Tok`): every
primitive the Python `FileReadStream`/`FileWriteStream` pair reads or
writes becomes one token, and a vector of n floats is n consecutive
`float` tokens (matching the byte layout, where a vector is just n
consecutive 4-byte floats).  Python floats become `Rat` (exact in the
token model); decode failures (`struct.error`) become `PErr.structError`,
raised whenever the stream is exhausted or misaligned.  Fallible Python
code (exceptions) is embedded in the `Except PErr` monad.

Object identity of `Vertex` instances (Python references vertices by
object, not index) is modelled by a numeric `id` field; models are
well-formed when those ids are pairwise distinct, which is always true of
Python object identities.
-/

namespace Pmx

abbrev Vec := List Rat

inductive Tok where
  | int (v : Int)
  | short (v : Int)
  | ushort (v : Nat)
  | byte (v : Nat)
  | sbyte (v : Int)
  | float (v : Rat)
  | str (s : String)
  | sidx (v : Int)
  | uidx (v : Nat)
  | sign (s : String)
  deriving DecidableEq, Repr

inductive PErr where
  | structError
  | valueError (msg : String)
  | keyError
  | indexError
  | invalidFile
  | unsupportedVersion
  deriving DecidableEq, Repr

abbrev P (α : Type) := Except PErr α

/-- FileReadStream.readInt -/
def readInt : List Tok → P (Int × List Tok)
  | .int v :: ts => .ok (v, ts)
  | _ => .error .structError

/-- FileReadStream.readShort -/
def readShort : List Tok → P (Int × List Tok)
  | .short v :: ts => .ok (v, ts)
  | _ => .error .structError

/-- FileReadStream.readUnsignedShort -/
def readUnsignedShort : List Tok → P (Nat × List Tok)
  | .ushort v :: ts => .ok (v, ts)
  | _ => .error .structError

/-- FileReadStream.readByte -/
def readByte : List Tok → P (Nat × List Tok)
  | .byte v :: ts => .ok (v, ts)
  | _ => .error .structError

/-- FileReadStream.readSignedByte -/
def readSignedByte : List Tok → P (Int × List Tok)
  | .sbyte v :: ts => .ok (v, ts)
  | _ => .error .structError

/-- FileReadStream.readFloat -/
def readFloat : List Tok → P (Rat × List Tok)
  | .float v :: ts => .ok (v, ts)
  | _ => .error .structError

/-- FileReadStream.readStr (the 4-byte length prefix is bundled into the token) -/
def readStr : List Tok → P (String × List Tok)
  | .str s :: ts => .ok (s, ts)
  | _ => .error .structError

/-- FileReadStream.readVector: a vector of size n is n consecutive floats on disk -/
def readVector : Nat → List Tok → P (Vec × List Tok)
  | 0, ts => .ok ([], ts)
  | n + 1, .float v :: ts =>
    match readVector n ts with
    | .ok (vs, r) => .ok (v :: vs, r)
    | .error e => .error e
  | _ + 1, _ => .error .structError

/-- FileReadStream signed index readers (bone/texture/material/morph/rigid) -/
def readSIdx : List Tok → P (Int × List Tok)
  | .sidx v :: ts => .ok (v, ts)
  | _ => .error .structError

/-- FileReadStream.readVertexIndex (unsigned) -/
def readUIdx : List Tok → P (Nat × List Tok)
  | .uidx v :: ts => .ok (v, ts)
  | _ => .error .structError

/-- FileReadStream.readBytes 4 (header signature) -/
def readSign : List Tok → P (String × List Tok)
  | .sign s :: ts => .ok (s, ts)
  | _ => .error .structError

def writeInt (v : Int) : List Tok := [.int v]
def writeShort (v : Int) : List Tok := [.short v]
def writeUnsignedShort (v : Nat) : List Tok := [.ushort v]
def writeByte (v : Nat) : List Tok := [.byte v]
def writeSignedByte (v : Int) : List Tok := [.sbyte v]
def writeFloat (v : Rat) : List Tok := [.float v]
def writeStr (s : String) : List Tok := [.str s]
def writeVector (v : Vec) : List Tok := v.map Tok.float
def writeSIdx (v : Int) : List Tok := [.sidx v]
def writeUIdx (v : Nat) : List Tok := [.uidx v]
def writeSign (s : String) : List Tok := [.sign s]

/-!
NamedElements (pypmx.py lines 23-159).  The Python class is a `list`
subclass with a name→(index, element) dict cache rebuilt after every
structural mutation; since the dict is built by enumeration with later
entries overwriting earlier ones, a name maps to its LAST occurrence.
We model the cache by direct search.  Element names are accessed through
`PyName.pyname`, an `Option String`: ordinary elements have `some name`,
`DisplayItem` can carry a `none` (Python `None`) name.
-/

class PyName (α : Type) where
  pyname : α → Option String

export PyName (pyname)

/-- Cache entry for a key: last (index, element) whose name equals the key. -/
def neLast {α : Type} [PyName α] (xs : List α) (k : Option String) : Option (Nat × α) :=
  xs.enum.foldl (fun acc p => if pyname p.2 = k then some p else acc) none

/-- NamedElements.__contains__ (by cache key). -/
def neContainsKey {α : Type} [PyName α] (xs : List α) (k : Option String) : Bool :=
  (neLast xs k).isSome

/-- NamedElements._validate_item: rejects a missing (None) or empty name.
Uniqueness is NOT checked here (mirroring the source). -/
def neValidate {α : Type} [PyName α] (x : α) : P Unit :=
  match pyname x with
  | none => .error (.valueError "Empty name is not allowed.")
  | some s => if s = "" then .error (.valueError "Empty name is not allowed.") else .ok ()

/-- NamedElements.append -/
def neAppend {α : Type} [PyName α] (xs : List α) (x : α) : P (List α) := do
  neValidate x
  pure (xs ++ [x])

/-- NamedElements.insert (Python list.insert clamps the position). -/
def neInsert {α : Type} [PyName α] (xs : List α) (i : Nat) (x : α) : P (List α) := do
  neValidate x
  pure (xs.take i ++ x :: xs.drop i)

/-- Validation loop of NamedElements.extend. -/
def validateAll {α : Type} [PyName α] : List α → P Unit
  | [] => .ok ()
  | y :: ys => do
    neValidate y
    validateAll ys

/-- NamedElements.extend (validates every new item, then extends). -/
def neExtend {α : Type} [PyName α] (xs : List α) (ys : List α) : P (List α) := do
  validateAll ys
  pure (xs ++ ys)

/-- NamedElements.get (name lookup with default None). -/
def neGet {α : Type} [PyName α] (xs : List α) (n : String) : Option α :=
  (neLast xs (some n)).map (·.2)

/-- NamedElements.name_by_index -/
def neNameByIndex {α : Type} [PyName α] (xs : List α) (i : Int) : Option String :=
  if h : 0 ≤ i ∧ i < xs.length then
    pyname (xs.get ⟨i.toNat, by omega⟩)
  else
    none

/-- NamedElements.index on a string key: last index with that name, else -1. -/
def neIndexStr {α : Type} [PyName α] (xs : List α) (n : String) : Int :=
  match neLast xs (some n) with
  | some (i, _) => (i : Int)
  | none => -1

/-- NamedElements.index on a name-reference field (Python passes either a
str or None; None never equals any element, yielding -1). -/
def neIndexRef {α : Type} [PyName α] (xs : List α) : Option String → Int
  | some n => neIndexStr xs n
  | none => -1

/-- Replace the element at the cache position of a name by a mutated copy
(models in-place mutation of the object returned by `self[name]`). -/
def neModifyLast {α : Type} [PyName α] (xs : List α) (n : String) (f : α → α) : List α :=
  match neLast xs (some n) with
  | some (i, x) => xs.set i (f x)
  | none => xs

/-- NamedElements.__setitem__ with an int index (validates, then sets;
negative indices wrap as in Python, out of range raises IndexError). -/
def neSetIdx {α : Type} [PyName α] (xs : List α) (i : Int) (x : α) : P (List α) := do
  neValidate x
  let j := if i < 0 then i + xs.length else i
  if 0 ≤ j ∧ j < xs.length then
    pure (xs.set j.toNat x)
  else
    .error .indexError

/-- NamedElements.__setitem__ with a string key (validates, replaces at the
cached position, KeyError when absent). -/
def neSetStr {α : Type} [PyName α] (xs : List α) (n : String) (x : α) : P (List α) := do
  neValidate x
  match neLast xs (some n) with
  | some (i, _) => pure (xs.set i x)
  | none => .error .keyError

/-- Header.__getIndexSize (pypmx.py lines 420-430); Python's float division
`(1<<8)/s` is exact for s ∈ {1,2}, so Nat division is faithful. -/
def getIndexSize (num : Nat) (signed : Bool) : Nat :=
  let s := if signed then 2 else 1
  if num < (1 <<< 8) / s then 1
  else if num < (1 <<< 16) / s then 2
  else 4

/-!
Entity records, in their post-load shape: raw integer index fields that
the loader deletes after resolution are kept only where the running code
still uses them (the misspelled `disp_conection_bone_index`, which is the
field `Bone.resolve_bone_references` actually assigns the resolved name to
and `Bone.save` reads back — the declared `disp_connection_bone` stays at
its `""` initial value forever).  Fields typed `str` in Python but
assigned `name_by_index(...)` (which returns `None` or a name) are
`Option String`; their `""` initial value is `some ""`.
-/

structure BoneWeightSDEF where
  weight : Rat
  c : Vec
  r0 : Vec
  r1 : Vec
  deriving DecidableEq, Repr

/-- BoneWeight.weights is dynamically either a list of floats or a
BoneWeightSDEF instance. -/
inductive Weights where
  | floats (ws : List Rat)
  | sdef (s : BoneWeightSDEF)
  deriving DecidableEq, Repr

/-- BoneWeight after resolve_bone_references (indices replaced by names). -/
structure BoneWeight where
  type : Nat
  bones : List (Option String)
  weights : Weights
  deriving DecidableEq, Repr

/-- BoneWeight as loaded, before the name-resolution pass. -/
structure RawBoneWeight where
  type : Nat
  bone_indices : List Int
  weights : Weights
  deriving DecidableEq, Repr

/-- Vertex; `id` models Python object identity. -/
structure Vertex where
  id : Nat
  co : Vec
  normal : Vec
  uv : Vec
  additional_uvs : List Vec
  weight : BoneWeight
  edge_scale : Rat
  deriving DecidableEq, Repr

structure RawVertex where
  co : Vec
  normal : Vec
  uv : Vec
  additional_uvs : List Vec
  weight : RawBoneWeight
  edge_scale : Rat
  deriving DecidableEq, Repr

/-- Face.verts, holding the ids of the three referenced vertices. -/
structure Face where
  v1 : Nat
  v2 : Nat
  v3 : Nat
  deriving DecidableEq, Repr

structure Material where
  name : String
  name_e : String
  diffuse : Vec
  specular : Vec
  shininess : Rat
  ambient : Vec
  is_double_sided : Bool
  enabled_drop_shadow : Bool
  enabled_self_shadow_map : Bool
  enabled_self_shadow : Bool
  enabled_toon_edge : Bool
  edge_color : Vec
  edge_size : Rat
  texture : Option String
  sphere_texture : Option String
  sphere_texture_mode : Int
  is_shared_toon_texture : Bool
  shared_toon_texture_index : Int
  toon_texture : Option String
  comment : String
  vertex_count : Int
  faces : List Face
  deriving DecidableEq, Repr

structure Coordinate where
  x_axis : Vec
  z_axis : Vec
  deriving DecidableEq, Repr

/-- IKLink after resolve_bone_references. -/
structure IKLink where
  target : Option String
  max_angle : Option Vec
  min_angle : Option Vec
  deriving DecidableEq, Repr

structure RawIKLink where
  target_index : Int
  max_angle : Option Vec
  min_angle : Option Vec
  deriving DecidableEq, Repr

/-- Bone after resolve_bone_references. -/
structure Bone where
  name : String
  name_e : String
  location : Vec
  parent : Option String
  trans_order : Int
  trans_after_physics : Bool
  disp_connection_type : Nat
  disp_connection_bone : String
  disp_conection_bone_index : Option String
  disp_connection_vector : Vec
  is_rotatable : Bool
  is_movable : Bool
  is_visible : Bool
  is_controllable : Bool
  has_add_rot : Bool
  has_add_loc : Bool
  add_trans_bone : Option String
  add_trans_value : Rat
  fixed_axis : Option Vec
  local_coord : Option Coordinate
  ext_trans_key : Option Int
  is_ik : Bool
  ik_target : Option String
  loop_count : Int
  rotation_unit : Rat
  ik_links : List IKLink
  deriving DecidableEq, Repr

structure RawBone where
  name : String
  name_e : String
  location : Vec
  parent_index : Int
  trans_order : Int
  trans_after_physics : Bool
  disp_connection_type : Nat
  disp_connection_bone_index : Int
  disp_connection_vector : Vec
  is_rotatable : Bool
  is_movable : Bool
  is_visible : Bool
  is_controllable : Bool
  has_add_rot : Bool
  has_add_loc : Bool
  add_trans_bone_index : Int
  add_trans_value : Rat
  fixed_axis : Option Vec
  local_coord : Option Coordinate
  ext_trans_key : Option Int
  is_ik : Bool
  ik_target_index : Int
  loop_count : Int
  rotation_unit : Rat
  ik_links : List RawIKLink
  deriving DecidableEq, Repr

/-- MorphOffset (vertex/UV), referencing a vertex by id. -/
structure MorphOffset where
  vertex : Nat
  offset : Vec
  deriving DecidableEq, Repr

structure BoneMorphOffset where
  owner : String
  bone : Option String
  location_offset : Vec
  rotation_offset : Vec
  deriving DecidableEq, Repr

structure MaterialMorphOffset where
  material : Option String
  offset_type : Int
  diffuse_offset : Vec
  specular_offset : Vec
  shininess_offset : Rat
  ambient_offset : Vec
  edge_color_offset : Vec
  edge_size_offset : Rat
  texture_factor : Vec
  sphere_texture_factor : Vec
  toon_texture_factor : Vec
  deriving DecidableEq, Repr

structure GroupMorphOffset where
  morph : Option String
  factor : Rat
  deriving DecidableEq, Repr

/-- Concrete morph class plus its homogeneous offsets list; the UV payload
keeps its uv_index (type_index - 3). -/
inductive MorphKind where
  | group (offsets : List GroupMorphOffset)
  | vertex (offsets : List MorphOffset)
  | bone (offsets : List BoneMorphOffset)
  | uv (uv_index : Int) (offsets : List MorphOffset)
  | material (offsets : List MaterialMorphOffset)
  deriving DecidableEq, Repr

structure Morph where
  name : String
  name_e : String
  category : Int
  kind : MorphKind
  deriving DecidableEq, Repr

/-- Morph.type_index (0=Group, 1=Vertex, 2=Bone, 3..7=UV0..4, 8=Material). -/
def Morph.type_index (m : Morph) : Int :=
  match m.kind with
  | .group _ => 0
  | .vertex _ => 1
  | .bone _ => 2
  | .uv i _ => i + 3
  | .material _ => 8

/-- Python class identity of a morph (the five concrete classes; every
UVMorph shares one class whatever its uv_index). -/
def Morph.pyClass (m : Morph) : Nat :=
  match m.kind with
  | .group _ => 0
  | .vertex _ => 1
  | .bone _ => 2
  | .uv _ _ => 3
  | .material _ => 4

/-- isinstance(m, (VertexMorph, UVMorph)) -/
def Morph.isVertexOrUV (m : Morph) : Bool :=
  match m.kind with
  | .vertex _ => true
  | .uv _ _ => true
  | _ => false

structure DisplayItem where
  disp_type : Nat
  name : Option String
  deriving DecidableEq, Repr

structure DisplaySlot where
  name : String
  name_e : String
  isSpecial : Bool
  items : List DisplayItem
  deriving DecidableEq, Repr

structure RigidBody where
  name : String
  name_e : String
  bone : Option String
  collision_group_number : Int
  collision_group_mask : Nat
  type : Int
  size : Vec
  location : Vec
  rotation : Vec
  mass : Rat
  velocity_attenuation : Rat
  rotation_attenuation : Rat
  bounce : Rat
  friction : Rat
  mode : Int
  deriving DecidableEq, Repr

structure Joint where
  name : String
  name_e : String
  mode : Int
  src_rigid : Option String
  dst_rigid : Option String
  location : Vec
  rotation : Vec
  maximum_location : Vec
  minimum_location : Vec
  maximum_rotation : Vec
  minimum_rotation : Vec
  spring_constant : Vec
  spring_rotation_constant : Vec
  deriving DecidableEq, Repr

/-- Joint.__init__ state (src/dst rigid start as the empty STRING, not None
— this is what makes the truncation guard in Joint.load vacuous before the
rigid references are read). -/
def Joint.init : Joint :=
  { name := "", name_e := "", mode := 0
    src_rigid := some "", dst_rigid := some ""
    location := [], rotation := []
    maximum_location := [], minimum_location := []
    maximum_rotation := [], minimum_rotation := []
    spring_constant := [], spring_rotation_constant := [] }

instance : PyName Material := ⟨fun m => some m.name⟩
instance : PyName Bone := ⟨fun b => some b.name⟩
instance : PyName RawBone := ⟨fun b => some b.name⟩
instance : PyName Morph := ⟨fun m => some m.name⟩
instance : PyName DisplaySlot := ⟨fun d => some d.name⟩
instance : PyName DisplayItem := ⟨fun i => i.name⟩
instance : PyName RigidBody := ⟨fun r => some r.name⟩
instance : PyName Joint := ⟨fun j => some j.name⟩

/-- Model root (post-load shape: no flat face list — materials own faces). -/
structure Model where
  name : String
  name_e : String
  comment : String
  comment_e : String
  vertices : List Vertex
  textures : List String
  materials : List Material
  bones : List Bone
  morphs : List Morph
  display_slots : List DisplaySlot
  rigids : List RigidBody
  joints : List Joint
  additional_uvs : Nat
  deriving DecidableEq, Repr

structure Header where
  encoding_index : Nat
  additional_uvs : Nat
  vertex_index_size : Nat
  texture_index_size : Nat
  material_index_size : Nat
  bone_index_size : Nat
  morph_index_size : Nat
  rigid_index_size : Nat
  deriving DecidableEq, Repr

/-- Header.updateIndexSizes composed with Header.__init__(model). -/
def mkHeader (m : Model) : Header :=
  { encoding_index := 0
    additional_uvs := m.additional_uvs
    vertex_index_size := getIndexSize m.vertices.length false
    texture_index_size := getIndexSize m.textures.length true
    material_index_size := getIndexSize m.materials.length true
    bone_index_size := getIndexSize m.bones.length true
    morph_index_size := getIndexSize m.morphs.length true
    rigid_index_size := getIndexSize m.rigids.length true }

/-!
Codec combinators and per-entity load/save, mirroring pypmx.py.
The loaded vertex objects are modelled with `id` equal to their position
in the freshly built vertex list (fresh Python objects in load order).
-/

/-- Python list indexing `l[i]` for a non-negative index (IndexError out of range). -/
def pyGet {α : Type} (l : List α) (i : Nat) : P α :=
  match l.get? i with
  | some x => .ok x
  | none => .error .indexError

/-- Read n items with a fixed item loader (`for i in range(n)` loops). -/
def loadList {α : Type} (ld : List Tok → P (α × List Tok)) : Nat → List Tok → P (List α × List Tok)
  | 0, ts => .ok ([], ts)
  | n + 1, ts => do
    let (x, ts) ← ld ts
    let (xs, ts) ← loadList ld n ts
    pure (x :: xs, ts)

/-- Load n elements into a NamedElements collection: each loaded element is
appended through the validating `append` (Model.load does
`collection.append(elem)` per iteration); the loader may consult the
partially built collection (group morph offsets do). -/
def loadNamed {α : Type} [PyName α] (ld : List α → List Tok → P (α × List Tok)) :
    Nat → List α → List Tok → P (List α × List Tok)
  | 0, acc, ts => .ok (acc, ts)
  | n + 1, acc, ts => do
    let (x, ts) ← ld acc ts
    let acc ← neAppend acc x
    loadNamed ld n acc ts

def saveList {α : Type} (sv : α → P (List Tok)) : List α → P (List Tok)
  | [] => .ok []
  | x :: xs => do
    let w ← sv x
    let ws ← saveList sv xs
    pure (w ++ ws)

/-- Model.ensure_lookup_table: vert_index dict (id → position, later
occurrences overwrite earlier ones as in a dict comprehension). -/
def vertIndexMap (verts : List Vertex) (i : Nat) : Option Nat :=
  verts.enum.foldl (fun acc p => if p.2.id = i then some p.1 else acc) none

/-- TextureList.__getitem__: None when out of range (also for negatives). -/
def txGet (txs : List String) (i : Int) : Option String :=
  if h : 0 ≤ i ∧ i < txs.length then some (txs.get ⟨i.toNat, by omega⟩) else none

/-- TextureList.index: first occurrence by value, -1 when absent; a None
argument never equals any texture, giving -1. -/
def txIndex (txs : List String) : Option String → Int
  | some t =>
    match txs.findIdx? (· = t) with
    | some i => (i : Int)
    | none => -1
  | none => -1

/-- BoneWeight.load -/
def boneWeightLoad (ts : List Tok) : P (RawBoneWeight × List Tok) := do
  let (ty, ts) ← readByte ts
  if ty = 0 then
    let (i, ts) ← readSIdx ts
    pure ({ type := ty, bone_indices := [i], weights := .floats [] }, ts)
  else if ty = 1 then
    let (i1, ts) ← readSIdx ts
    let (i2, ts) ← readSIdx ts
    let (w, ts) ← readFloat ts
    pure ({ type := ty, bone_indices := [i1, i2], weights := .floats [w] }, ts)
  else if ty = 2 then
    let (i1, ts) ← readSIdx ts
    let (i2, ts) ← readSIdx ts
    let (i3, ts) ← readSIdx ts
    let (i4, ts) ← readSIdx ts
    let (ws, ts) ← readVector 4 ts
    pure ({ type := ty, bone_indices := [i1, i2, i3, i4], weights := .floats ws }, ts)
  else if ty = 3 then
    let (i1, ts) ← readSIdx ts
    let (i2, ts) ← readSIdx ts
    let (w, ts) ← readFloat ts
    let (c, ts) ← readVector 3 ts
    let (r0, ts) ← readVector 3 ts
    let (r1, ts) ← readVector 3 ts
    pure ({ type := ty, bone_indices := [i1, i2]
            weights := .sdef { weight := w, c := c, r0 := r0, r1 := r1 } }, ts)
  else
    .error (.valueError "invalid weight type")

/-- BoneWeight.resolve_bone_references -/
def resolveBoneWeight (bones : List Bone) (w : RawBoneWeight) : BoneWeight :=
  { type := w.type
    bones := w.bone_indices.map (neNameByIndex bones)
    weights := w.weights }

/-- BoneWeight.save -/
def boneWeightSave (bones : List Bone) (w : BoneWeight) : P (List Tok) := do
  let head := writeByte w.type
  if w.type = 0 then
    let b0 ← pyGet w.bones 0
    pure (head ++ writeSIdx (neIndexRef bones b0))
  else if w.type = 1 then
    let b0 ← pyGet w.bones 0
    let b1 ← pyGet w.bones 1
    match w.weights with
    | .floats ws => do
      let w0 ← pyGet ws 0
      pure (head ++ writeSIdx (neIndexRef bones b0) ++ writeSIdx (neIndexRef bones b1) ++ writeFloat w0)
    | .sdef _ => .error (.valueError "weights is not subscriptable")
  else if w.type = 2 then
    let b0 ← pyGet w.bones 0
    let b1 ← pyGet w.bones 1
    let b2 ← pyGet w.bones 2
    let b3 ← pyGet w.bones 3
    match w.weights with
    | .floats ws => do
      let w0 ← pyGet ws 0
      let w1 ← pyGet ws 1
      let w2 ← pyGet ws 2
      let w3 ← pyGet ws 3
      pure (head ++ writeSIdx (neIndexRef bones b0) ++ writeSIdx (neIndexRef bones b1)
        ++ writeSIdx (neIndexRef bones b2) ++ writeSIdx (neIndexRef bones b3)
        ++ writeFloat w0 ++ writeFloat w1 ++ writeFloat w2 ++ writeFloat w3)
    | .sdef _ => .error (.valueError "weights is not subscriptable")
  else if w.type = 3 then
    let b0 ← pyGet w.bones 0
    let b1 ← pyGet w.bones 1
    match w.weights with
    | .sdef s =>
      pure (head ++ writeSIdx (neIndexRef bones b0) ++ writeSIdx (neIndexRef bones b1)
        ++ writeFloat s.weight ++ writeVector s.c ++ writeVector s.r0 ++ writeVector s.r1)
    | .floats _ => .error (.valueError "weights should be BoneWeightSDEF for SDEF type")
  else
    .error (.valueError "invalid weight type")

/-- Vertex.load -/
def vertexLoad (auvs : Nat) (ts : List Tok) : P (RawVertex × List Tok) := do
  let (co, ts) ← readVector 3 ts
  let (normal, ts) ← readVector 3 ts
  let (uv, ts) ← readVector 2 ts
  let (adds, ts) ← loadList (readVector 4) auvs ts
  let (w, ts) ← boneWeightLoad ts
  let (es, ts) ← readFloat ts
  pure ({ co := co, normal := normal, uv := uv, additional_uvs := adds
          weight := w, edge_scale := es }, ts)

/-- Vertex.save: own additional UVs, then zero padding up to the header's
additional-UV count (a negative Python range writes nothing). -/
def vertexSave (bones : List Bone) (auvs : Nat) (v : Vertex) : P (List Tok) := do
  let ws ← boneWeightSave bones v.weight
  pure (writeVector v.co ++ writeVector v.normal ++ writeVector v.uv
    ++ (v.additional_uvs.map writeVector).flatten
    ++ (List.replicate (auvs - v.additional_uvs.length) (writeVector [0, 0, 0, 0])).flatten
    ++ ws ++ writeFloat v.edge_scale)

/-- Face.load: reads three vertex indices stored in reverse order; the
referenced loaded vertices have id = position, so the face keeps the read
indices as ids (out of range raises IndexError as `model.vertices[i]` does). -/
def faceLoad (nverts : Nat) (ts : List Tok) : P (Face × List Tok) := do
  let (i3, ts) ← readUIdx ts
  if i3 < nverts then
    let (i2, ts) ← readUIdx ts
    if i2 < nverts then
      let (i1, ts) ← readUIdx ts
      if i1 < nverts then
        pure ({ v1 := i1, v2 := i2, v3 := i3 }, ts)
      else .error .indexError
    else .error .indexError
  else .error .indexError

/-- Face.save (reverse order, via the vert_index lookup table). -/
def faceSave (vi : Nat → Option Nat) (f : Face) : P (List Tok) := do
  match vi f.v3, vi f.v2, vi f.v1 with
  | some p3, some p2, some p1 =>
    pure (writeUIdx p3 ++ writeUIdx p2 ++ writeUIdx p1)
  | _, _, _ => .error .keyError

/-- Material.load -/
def materialLoad (txs : List String) (ts : List Tok) : P (Material × List Tok) := do
  let (name, ts) ← readStr ts
  let (name_e, ts) ← readStr ts
  let (diffuse, ts) ← readVector 4 ts
  let (specular, ts) ← readVector 3 ts
  let (shininess, ts) ← readFloat ts
  let (ambient, ts) ← readVector 3 ts
  let (flags, ts) ← readByte ts
  let (edge_color, ts) ← readVector 4 ts
  let (edge_size, ts) ← readFloat ts
  let (ti, ts) ← readSIdx ts
  let (si, ts) ← readSIdx ts
  let (sm, ts) ← readSignedByte ts
  let (sh, ts) ← readSignedByte ts
  let (sti, toon, ts) ←
    if sh = 1 then do
      let (sti, ts) ← readSignedByte ts
      pure (sti, (none : Option String), ts)
    else do
      let (toi, ts) ← readSIdx ts
      pure ((0 : Int), txGet txs toi, ts)
  let (comment, ts) ← readStr ts
  let (vc, ts) ← readInt ts
  pure ({ name := name, name_e := name_e, diffuse := diffuse, specular := specular
          shininess := shininess, ambient := ambient
          is_double_sided := (flags &&& 1) != 0
          enabled_drop_shadow := (flags &&& 2) != 0
          enabled_self_shadow_map := (flags &&& 4) != 0
          enabled_self_shadow := (flags &&& 8) != 0
          enabled_toon_edge := (flags &&& 16) != 0
          edge_color := edge_color, edge_size := edge_size
          texture := txGet txs ti, sphere_texture := txGet txs si
          sphere_texture_mode := sm
          is_shared_toon_texture := sh = 1
          shared_toon_texture_index := sti
          toon_texture := toon
          comment := comment, vertex_count := vc, faces := [] }, ts)

/-- Material.save flag byte. -/
def materialFlags (m : Material) : Nat :=
  (if m.is_double_sided then 1 else 0)
  ||| (if m.enabled_drop_shadow then 1 else 0) <<< 1
  ||| (if m.enabled_self_shadow_map then 1 else 0) <<< 2
  ||| (if m.enabled_self_shadow then 1 else 0) <<< 3
  ||| (if m.enabled_toon_edge then 1 else 0) <<< 4

/-- Material.save (the trailing int is `len(faces) * 3`, not the stored
vertex_count). -/
def materialSave (txs : List String) (m : Material) : List Tok :=
  writeStr m.name ++ writeStr m.name_e
  ++ writeVector m.diffuse ++ writeVector m.specular ++ writeFloat m.shininess
  ++ writeVector m.ambient
  ++ writeByte (materialFlags m)
  ++ writeVector m.edge_color ++ writeFloat m.edge_size
  ++ writeSIdx (txIndex txs m.texture) ++ writeSIdx (txIndex txs m.sphere_texture)
  ++ writeSignedByte m.sphere_texture_mode
  ++ (if m.is_shared_toon_texture then
        writeSignedByte 1 ++ writeSignedByte m.shared_toon_texture_index
      else
        writeSignedByte 0 ++ writeSIdx (txIndex txs m.toon_texture))
  ++ writeStr m.comment
  ++ writeInt (m.faces.length * 3)

/-- IKLink.load -/
def ikLinkLoad (ts : List Tok) : P (RawIKLink × List Tok) := do
  let (ti, ts) ← readSIdx ts
  let (flag, ts) ← readByte ts
  if flag = 1 then
    let (mn, ts) ← readVector 3 ts
    let (mx, ts) ← readVector 3 ts
    pure ({ target_index := ti, min_angle := some mn, max_angle := some mx }, ts)
  else
    pure ({ target_index := ti, min_angle := none, max_angle := none }, ts)

/-- IKLink.save -/
def ikLinkSave (bones : List Bone) (l : IKLink) : List Tok :=
  writeSIdx (neIndexRef bones l.target) ++
  (match l.min_angle, l.max_angle with
   | some mn, some mx => writeByte 1 ++ writeVector mn ++ writeVector mx
   | _, _ => writeByte 0)

/-- Bone.load; flag bits are tested as in the source (`flags & k`), on the
Nat value of the short (the saved flag word is non-negative). -/
def boneLoad (ts : List Tok) : P (RawBone × List Tok) := do
  let (name, ts) ← readStr ts
  let (name_e, ts) ← readStr ts
  let (location, ts) ← readVector 3 ts
  let (pi, ts) ← readSIdx ts
  let (tro, ts) ← readInt ts
  let (flagsI, ts) ← readShort ts
  let flags := flagsI.toNat
  let (dct, dcbi, dcv, ts) ←
    if flags &&& 0x0001 ≠ 0 then do
      let (i, ts) ← readSIdx ts
      pure ((1 : Nat), i, ([] : Vec), ts)
    else do
      let (v, ts) ← readVector 3 ts
      pure ((0 : Nat), (-1 : Int), v, ts)
  let has_add_rot := (flags &&& 0x0100) != 0
  let has_add_loc := (flags &&& 0x0200) != 0
  let (atbi, atv, ts) ←
    if has_add_rot || has_add_loc then do
      let (i, ts) ← readSIdx ts
      let (v, ts) ← readFloat ts
      pure (i, v, ts)
    else
      pure ((-1 : Int), (0 : Rat), ts)
  let (fixed, ts) ←
    if flags &&& 0x0400 ≠ 0 then do
      let (v, ts) ← readVector 3 ts
      pure (some v, ts)
    else
      pure ((none : Option Vec), ts)
  let (lc, ts) ←
    if flags &&& 0x0800 ≠ 0 then do
      let (xa, ts) ← readVector 3 ts
      let (za, ts) ← readVector 3 ts
      pure (some { x_axis := xa, z_axis := za }, ts)
    else
      pure ((none : Option Coordinate), ts)
  let (etk, ts) ←
    if flags &&& 0x2000 ≠ 0 then do
      let (v, ts) ← readInt ts
      pure (some v, ts)
    else
      pure ((none : Option Int), ts)
  let is_ik := (flags &&& 0x0020) != 0
  let (iti, lc2, ru, links, ts) ←
    if is_ik then do
      let (iti, ts) ← readSIdx ts
      let (lcnt, ts) ← readInt ts
      let (ru, ts) ← readFloat ts
      let (n, ts) ← readInt ts
      let (links, ts) ← loadList ikLinkLoad n.toNat ts
      pure (iti, lcnt, ru, links, ts)
    else
      pure ((-1 : Int), (8 : Int), (mkRat 3 100), ([] : List RawIKLink), ts)
  pure ({ name := name, name_e := name_e, location := location
          parent_index := pi, trans_order := tro
          trans_after_physics := (flags &&& 0x1000) != 0
          disp_connection_type := dct, disp_connection_bone_index := dcbi
          disp_connection_vector := dcv
          is_rotatable := (flags &&& 0x0002) != 0
          is_movable := (flags &&& 0x0004) != 0
          is_visible := (flags &&& 0x0008) != 0
          is_controllable := (flags &&& 0x0010) != 0
          has_add_rot := has_add_rot, has_add_loc := has_add_loc
          add_trans_bone_index := atbi, add_trans_value := atv
          fixed_axis := fixed, local_coord := lc, ext_trans_key := etk
          is_ik := is_ik, ik_target_index := iti
          loop_count := lc2, rotation_unit := ru, ik_links := links }, ts)

/-- IKLink.resolve_bone_references -/
def resolveIKLink {α : Type} [PyName α] (bones : List α) (l : RawIKLink) : IKLink :=
  { target := neNameByIndex bones l.target_index
    max_angle := l.max_angle, min_angle := l.min_angle }

/-- Bone.resolve_bone_references.  The resolved display-connection name is
assigned to the misspelled attribute `disp_conection_bone_index` (the
declared `disp_connection_bone` keeps its `""` initial value), exactly as
the source does; ik_target is only resolved for IK bones, otherwise it
keeps the `""` from Bone.__init__. -/
def resolveBone {α : Type} [PyName α] (bones : List α) (b : RawBone) : Bone :=
  { name := b.name, name_e := b.name_e, location := b.location
    parent := neNameByIndex bones b.parent_index
    trans_order := b.trans_order, trans_after_physics := b.trans_after_physics
    disp_connection_type := b.disp_connection_type
    disp_connection_bone := ""
    disp_conection_bone_index := neNameByIndex bones b.disp_connection_bone_index
    disp_connection_vector := b.disp_connection_vector
    is_rotatable := b.is_rotatable, is_movable := b.is_movable
    is_visible := b.is_visible, is_controllable := b.is_controllable
    has_add_rot := b.has_add_rot, has_add_loc := b.has_add_loc
    add_trans_bone := neNameByIndex bones b.add_trans_bone_index
    add_trans_value := b.add_trans_value
    fixed_axis := b.fixed_axis, local_coord := b.local_coord
    ext_trans_key := b.ext_trans_key
    is_ik := b.is_ik
    ik_target := if b.is_ik then neNameByIndex bones b.ik_target_index else some ""
    loop_count := b.loop_count, rotation_unit := b.rotation_unit
    ik_links := b.ik_links.map (resolveIKLink bones) }

/-- Bone.save flag word. -/
def boneFlags (b : Bone) : Nat :=
  (if b.disp_connection_type = 1 then 1 else 0)
  ||| (if b.is_rotatable then 1 else 0) <<< 1
  ||| (if b.is_movable then 1 else 0) <<< 2
  ||| (if b.is_visible then 1 else 0) <<< 3
  ||| (if b.is_controllable then 1 else 0) <<< 4
  ||| (if b.is_ik then 1 else 0) <<< 5
  ||| (if b.has_add_rot then 1 else 0) <<< 8
  ||| (if b.has_add_loc then 1 else 0) <<< 9
  ||| (if b.fixed_axis.isSome then 1 else 0) <<< 10
  ||| (if b.local_coord.isSome then 1 else 0) <<< 11
  ||| (if b.trans_after_physics then 1 else 0) <<< 12
  ||| (if b.ext_trans_key.isSome then 1 else 0) <<< 13

/-- Bone.save (reads the display-connection reference back from the
misspelled `disp_conection_bone_index` attribute). -/
def boneSave (bones : List Bone) (b : Bone) : P (List Tok) := do
  let flags := boneFlags b
  let p1 := writeStr b.name ++ writeStr b.name_e ++ writeVector b.location
    ++ writeSIdx (neIndexRef bones b.parent) ++ writeInt b.trans_order
    ++ writeShort flags
  let p2 :=
    if flags &&& 0x0001 ≠ 0 then
      writeSIdx (neIndexRef bones b.disp_conection_bone_index)
    else
      writeVector b.disp_connection_vector
  let p3 :=
    if b.has_add_rot || b.has_add_loc then
      writeSIdx (neIndexRef bones b.add_trans_bone) ++ writeFloat b.add_trans_value
    else []
  let p4 ←
    if flags &&& 0x0400 ≠ 0 then
      match b.fixed_axis with
      | some v => pure (writeVector v)
      | none => .error (.valueError "fixed_axis is None")
    else pure []
  let p5 ←
    if flags &&& 0x0800 ≠ 0 then
      match b.local_coord with
      | some c => pure (writeVector c.x_axis ++ writeVector c.z_axis)
      | none => .error (.valueError "local_coord is None")
    else pure []
  let p6 ←
    if flags &&& 0x2000 ≠ 0 then
      match b.ext_trans_key with
      | some v => pure (writeInt v)
      | none => .error (.valueError "ext_trans_key is None")
    else pure []
  let p7 :=
    if b.is_ik then
      writeSIdx (neIndexRef bones b.ik_target) ++ writeInt b.loop_count
      ++ writeFloat b.rotation_unit ++ writeInt b.ik_links.length
      ++ (b.ik_links.map (ikLinkSave bones)).flatten
    else []
  pure (p1 ++ p2 ++ p3 ++ p4 ++ p5 ++ p6 ++ p7)

/-- MorphOffset.load (size 3 for vertex morphs, 4 for UV morphs). -/
def morphOffsetLoad (nverts : Nat) (size : Nat) (ts : List Tok) : P (MorphOffset × List Tok) := do
  let (i, ts) ← readUIdx ts
  if i < nverts then
    let (off, ts) ← readVector size ts
    pure ({ vertex := i, offset := off }, ts)
  else .error .indexError

/-- MorphOffset.save -/
def morphOffsetSave (vi : Nat → Option Nat) (o : MorphOffset) : P (List Tok) := do
  match vi o.vertex with
  | some p => pure (writeUIdx p ++ writeVector o.offset)
  | none => .error .keyError

/-- BoneMorphOffset.load (an all-zero rotation quaternion is replaced by
(0,0,0,1)). -/
def boneMorphOffsetLoad (bones : List Bone) (owner : String) (ts : List Tok) :
    P (BoneMorphOffset × List Tok) := do
  let (bi, ts) ← readSIdx ts
  let (lo, ts) ← readVector 3 ts
  let (ro, ts) ← readVector 4 ts
  let ro := if ro.any (fun c => c != 0) then ro else [0, 0, 0, 1]
  pure ({ owner := owner, bone := neNameByIndex bones bi
          location_offset := lo, rotation_offset := ro }, ts)

/-- BoneMorphOffset.save -/
def boneMorphOffsetSave (bones : List Bone) (o : BoneMorphOffset) : List Tok :=
  writeSIdx (neIndexRef bones o.bone) ++ writeVector o.location_offset
  ++ writeVector o.rotation_offset

/-- MaterialMorphOffset.load -/
def materialMorphOffsetLoad (mats : List Material) (ts : List Tok) :
    P (MaterialMorphOffset × List Tok) := do
  let (mi, ts) ← readSIdx ts
  let (ot, ts) ← readSignedByte ts
  let (dif, ts) ← readVector 4 ts
  let (spc, ts) ← readVector 3 ts
  let (shn, ts) ← readFloat ts
  let (amb, ts) ← readVector 3 ts
  let (ec, ts) ← readVector 4 ts
  let (es, ts) ← readFloat ts
  let (tf, ts) ← readVector 4 ts
  let (sf, ts) ← readVector 4 ts
  let (tof, ts) ← readVector 4 ts
  pure ({ material := neNameByIndex mats mi, offset_type := ot
          diffuse_offset := dif, specular_offset := spc, shininess_offset := shn
          ambient_offset := amb, edge_color_offset := ec, edge_size_offset := es
          texture_factor := tf, sphere_texture_factor := sf
          toon_texture_factor := tof }, ts)

/-- MaterialMorphOffset.save -/
def materialMorphOffsetSave (mats : List Material) (o : MaterialMorphOffset) : List Tok :=
  writeSIdx (neIndexRef mats o.material) ++ writeSignedByte o.offset_type
  ++ writeVector o.diffuse_offset ++ writeVector o.specular_offset
  ++ writeFloat o.shininess_offset ++ writeVector o.ambient_offset
  ++ writeVector o.edge_color_offset ++ writeFloat o.edge_size_offset
  ++ writeVector o.texture_factor ++ writeVector o.sphere_texture_factor
  ++ writeVector o.toon_texture_factor

/-- GroupMorphOffset.load: resolved against the morph collection AS LOADED
SO FAR — a sub-morph index pointing at or past the current morph yields
None, because Model.load appends morphs one by one while they load. -/
def groupMorphOffsetLoad (morphs : List Morph) (ts : List Tok) :
    P (GroupMorphOffset × List Tok) := do
  let (mi, ts) ← readSIdx ts
  let (f, ts) ← readFloat ts
  pure ({ morph := neNameByIndex morphs mi, factor := f }, ts)

/-- GroupMorphOffset.save -/
def groupMorphOffsetSave (morphs : List Morph) (o : GroupMorphOffset) : List Tok :=
  writeSIdx (neIndexRef morphs o.morph) ++ writeFloat o.factor

/-- Morph.create: dispatch on the type discriminant
(0=Group, 1=Vertex, 2=Bone, 3..7=UV, 8=Material; other values KeyError). -/
def morphCreate (nverts : Nat) (mats : List Material) (bones : List Bone)
    (morphs : List Morph) (ts : List Tok) : P (Morph × List Tok) := do
  let (name, ts) ← readStr ts
  let (name_e, ts) ← readStr ts
  let (cat, ts) ← readSignedByte ts
  let (ti, ts) ← readSignedByte ts
  if ti = 0 then
    let (num, ts) ← readInt ts
    let (offs, ts) ← loadList (groupMorphOffsetLoad morphs) num.toNat ts
    pure ({ name := name, name_e := name_e, category := cat, kind := .group offs }, ts)
  else if ti = 1 then
    let (num, ts) ← readInt ts
    let (offs, ts) ← loadList (morphOffsetLoad nverts 3) num.toNat ts
    pure ({ name := name, name_e := name_e, category := cat, kind := .vertex offs }, ts)
  else if ti = 2 then
    let (num, ts) ← readInt ts
    let (offs, ts) ← loadList (boneMorphOffsetLoad bones name) num.toNat ts
    pure ({ name := name, name_e := name_e, category := cat, kind := .bone offs }, ts)
  else if 3 ≤ ti ∧ ti ≤ 7 then
    let (num, ts) ← readInt ts
    let (offs, ts) ← loadList (morphOffsetLoad nverts 4) num.toNat ts
    pure ({ name := name, name_e := name_e, category := cat, kind := .uv (ti - 3) offs }, ts)
  else if ti = 8 then
    let (num, ts) ← readInt ts
    let (offs, ts) ← loadList (materialMorphOffsetLoad mats) num.toNat ts
    pure ({ name := name, name_e := name_e, category := cat, kind := .material offs }, ts)
  else
    .error .keyError

/-- Morph.save (header from the base class, then the per-kind offsets). -/
def morphSave (vi : Nat → Option Nat) (mats : List Material) (bones : List Bone)
    (morphs : List Morph) (m : Morph) : P (List Tok) := do
  let head := writeStr m.name ++ writeStr m.name_e
    ++ writeSignedByte m.category ++ writeSignedByte m.type_index
  match m.kind with
  | .group offs =>
    pure (head ++ writeInt offs.length ++ (offs.map (groupMorphOffsetSave morphs)).flatten)
  | .vertex offs => do
    let w ← saveList (morphOffsetSave vi) offs
    pure (head ++ writeInt offs.length ++ w)
  | .bone offs =>
    pure (head ++ writeInt offs.length ++ (offs.map (boneMorphOffsetSave bones)).flatten)
  | .uv _ offs => do
    let w ← saveList (morphOffsetSave vi) offs
    pure (head ++ writeInt offs.length ++ w)
  | .material offs =>
    pure (head ++ writeInt offs.length ++ (offs.map (materialMorphOffsetSave mats)).flatten)

/-- DisplayItem.load (type 0 = bone reference, 1 = morph reference, others
raise). -/
def displayItemLoad (bones : List Bone) (morphs : List Morph) (ts : List Tok) :
    P (DisplayItem × List Tok) := do
  let (dt, ts) ← readByte ts
  if dt = 0 then
    let (i, ts) ← readSIdx ts
    pure ({ disp_type := dt, name := neNameByIndex bones i }, ts)
  else if dt = 1 then
    let (i, ts) ← readSIdx ts
    pure ({ disp_type := dt, name := neNameByIndex morphs i }, ts)
  else
    .error (.valueError "invalid display item type value")

/-- DisplayItem.save -/
def displayItemSave (bones : List Bone) (morphs : List Morph) (i : DisplayItem) :
    P (List Tok) := do
  if i.disp_type = 0 then
    pure (writeByte i.disp_type ++ writeSIdx (neIndexRef bones i.name))
  else if i.disp_type = 1 then
    pure (writeByte i.disp_type ++ writeSIdx (neIndexRef morphs i.name))
  else
    .error (.valueError "invalid display item type value")

/-- DisplaySlot.load (items are appended into a NamedElements, validating
each item's possibly-None name). -/
def displaySlotLoad (bones : List Bone) (morphs : List Morph) (ts : List Tok) :
    P (DisplaySlot × List Tok) := do
  let (name, ts) ← readStr ts
  let (name_e, ts) ← readStr ts
  let (sp, ts) ← readByte ts
  let (num, ts) ← readInt ts
  let (items, ts) ← loadNamed (fun _ => displayItemLoad bones morphs) num.toNat [] ts
  pure ({ name := name, name_e := name_e, isSpecial := sp = 1, items := items }, ts)

/-- DisplaySlot.save -/
def displaySlotSave (bones : List Bone) (morphs : List Morph) (d : DisplaySlot) :
    P (List Tok) := do
  let w ← saveList (displayItemSave bones morphs) d.items
  pure (writeStr d.name ++ writeStr d.name_e
    ++ writeByte (if d.isSpecial then 1 else 0) ++ writeInt d.items.length ++ w)

/-- RigidBody.load -/
def rigidLoad (bones : List Bone) (ts : List Tok) : P (RigidBody × List Tok) := do
  let (name, ts) ← readStr ts
  let (name_e, ts) ← readStr ts
  let (bi, ts) ← readSIdx ts
  let (cgn, ts) ← readSignedByte ts
  let (cgm, ts) ← readUnsignedShort ts
  let (ty, ts) ← readSignedByte ts
  let (size, ts) ← readVector 3 ts
  let (loc, ts) ← readVector 3 ts
  let (rot, ts) ← readVector 3 ts
  let (mass, ts) ← readFloat ts
  let (va, ts) ← readFloat ts
  let (ra, ts) ← readFloat ts
  let (bo, ts) ← readFloat ts
  let (fr, ts) ← readFloat ts
  let (mode, ts) ← readSignedByte ts
  pure ({ name := name, name_e := name_e, bone := neNameByIndex bones bi
          collision_group_number := cgn, collision_group_mask := cgm
          type := ty, size := size, location := loc, rotation := rot
          mass := mass, velocity_attenuation := va, rotation_attenuation := ra
          bounce := bo, friction := fr, mode := mode }, ts)

/-- RigidBody.save -/
def rigidSave (bones : List Bone) (r : RigidBody) : List Tok :=
  writeStr r.name ++ writeStr r.name_e
  ++ writeSIdx (neIndexRef bones r.bone)
  ++ writeSignedByte r.collision_group_number ++ writeUnsignedShort r.collision_group_mask
  ++ writeSignedByte r.type ++ writeVector r.size
  ++ writeVector r.location ++ writeVector r.rotation
  ++ writeFloat r.mass ++ writeFloat r.velocity_attenuation
  ++ writeFloat r.rotation_attenuation ++ writeFloat r.bounce ++ writeFloat r.friction
  ++ writeSignedByte r.mode

/-- Joint._load: sequential reads, mutating the joint record as it goes;
on error the partially assigned record and remaining stream are returned
(Python leaves the mutated self and the advanced file position). -/
def joint_Load (rigids : List RigidBody) (j : Joint) (ts : List Tok) :
    Except (PErr × Joint × List Tok) (Joint × List Tok) :=
  match readStr ts with
  | .error e => .error (e, j, ts)
  | .ok (name, ts) =>
    let j := { j with name := name }
    match readStr ts with
    | .error e => .error (e, j, ts)
    | .ok (name_e, ts) =>
      let j := { j with name_e := name_e }
      match readSignedByte ts with
      | .error e => .error (e, j, ts)
      | .ok (mode, ts) =>
        let j := { j with mode := mode }
        match readSIdx ts with
        | .error e => .error (e, j, ts)
        | .ok (si, ts) =>
          let j := { j with src_rigid := neNameByIndex rigids si }
          match readSIdx ts with
          | .error e => .error (e, j, ts)
          | .ok (di, ts) =>
            let j := { j with dst_rigid := neNameByIndex rigids di }
            match readVector 3 ts with
            | .error e => .error (e, j, ts)
            | .ok (loc, ts) =>
              let j := { j with location := loc }
              match readVector 3 ts with
              | .error e => .error (e, j, ts)
              | .ok (rot, ts) =>
                let j := { j with rotation := rot }
                match readVector 3 ts with
                | .error e => .error (e, j, ts)
                | .ok (mnl, ts) =>
                  let j := { j with minimum_location := mnl }
                  match readVector 3 ts with
                  | .error e => .error (e, j, ts)
                  | .ok (mxl, ts) =>
                    let j := { j with maximum_location := mxl }
                    match readVector 3 ts with
                    | .error e => .error (e, j, ts)
                    | .ok (mnr, ts) =>
                      let j := { j with minimum_rotation := mnr }
                      match readVector 3 ts with
                      | .error e => .error (e, j, ts)
                      | .ok (mxr, ts) =>
                        let j := { j with maximum_rotation := mxr }
                        match readVector 3 ts with
                        | .error e => .error (e, j, ts)
                        | .ok (sc, ts) =>
                          let j := { j with spring_constant := sc }
                          match readVector 3 ts with
                          | .error e => .error (e, j, ts)
                          | .ok (src, ts) =>
                            .ok ({ j with spring_rotation_constant := src }, ts)

/-- Python `x or (0,0,0)` on a list field: the default kicks in when the
list is empty (falsy). -/
def orZero3 (v : Vec) : Vec := if v = [] then [0, 0, 0] else v

/-- Joint.load: catches a struct.error from _load and synthesizes defaults
UNLESS src_rigid or dst_rigid is None; since Joint.__init__ sets them to
the empty string (not None), the guard only fires when a rigid index was
read but resolved to no rigid. -/
def jointLoad (rigids : List RigidBody) (ts : List Tok) : P (Joint × List Tok) :=
  match joint_Load rigids Joint.init ts with
  | .ok r => .ok r
  | .error (e, j, ts') =>
    if e = .structError then
      if j.src_rigid = none ∨ j.dst_rigid = none then .error e
      else
        .ok ({ j with
                location := orZero3 j.location
                rotation := orZero3 j.rotation
                maximum_location := orZero3 j.maximum_location
                minimum_location := orZero3 j.minimum_location
                maximum_rotation := orZero3 j.maximum_rotation
                minimum_rotation := orZero3 j.minimum_rotation
                spring_constant := orZero3 j.spring_constant
                spring_rotation_constant := orZero3 j.spring_rotation_constant }, ts')
    else .error e

/-- Joint.save -/
def jointSave (rigids : List RigidBody) (j : Joint) : List Tok :=
  writeStr j.name ++ writeStr j.name_e
  ++ writeSignedByte j.mode
  ++ writeSIdx (neIndexRef rigids j.src_rigid) ++ writeSIdx (neIndexRef rigids j.dst_rigid)
  ++ writeVector j.location ++ writeVector j.rotation
  ++ writeVector j.minimum_location ++ writeVector j.maximum_location
  ++ writeVector j.minimum_rotation ++ writeVector j.maximum_rotation
  ++ writeVector j.spring_constant ++ writeVector j.spring_rotation_constant

/-!
Document loader/saver (Model.load / Model.save plus the module-level
load/save wrappers) and the vertex/texture purge.
-/

/-- Python slice-bound normalization (negative wraps, then clamp to [0,len]). -/
def pySliceBound (len : Nat) (i : Int) : Nat :=
  ((if i < 0 then i + len else i).toNat).min len

/-- Python `l[a:b]`. -/
def pyslice {α : Type} (l : List α) (a b : Int) : List α :=
  (l.take (pySliceBound l.length b)).drop (pySliceBound l.length a)

/-- Model.load face segmentation: each material takes `vertex_count // 3`
faces off the flat face list (Python floor division). -/
def assignFaces (faces : List Face) : Int → List Material → List Material
  | _, [] => []
  | start, m :: ms =>
    let send := start + Int.fdiv m.vertex_count 3
    { m with faces := pyslice faces start send } :: assignFaces faces send ms

/-- Model.load after the header (reads all sections in order, resolves
bone references once bones are loaded, then vertex weights, distributes
faces to materials and drops the flat list). -/
def modelBodyLoad (hdr : Header) (ts : List Tok) : P Model := do
  let (name, ts) ← readStr ts
  let (name_e, ts) ← readStr ts
  let (comment, ts) ← readStr ts
  let (comment_e, ts) ← readStr ts
  let (nv, ts) ← readInt ts
  let (rawVerts, ts) ← loadList (vertexLoad hdr.additional_uvs) nv.toNat ts
  let (nf, ts) ← readInt ts
  let (faces, ts) ← loadList (faceLoad rawVerts.length) (nf / 3).toNat ts
  let (nt, ts) ← readInt ts
  let (txs, ts) ← loadList readStr nt.toNat ts
  let (nm, ts) ← readInt ts
  let (mats0, ts) ← loadNamed (fun _ => materialLoad txs) nm.toNat [] ts
  let mats := assignFaces faces 0 mats0
  let (nb, ts) ← readInt ts
  let (rawBones, ts) ← loadNamed (fun _ => boneLoad) nb.toNat [] ts
  let bones := rawBones.map (resolveBone rawBones)
  let vertices := rawVerts.enum.map (fun p =>
    { id := p.1, co := p.2.co, normal := p.2.normal, uv := p.2.uv
      additional_uvs := p.2.additional_uvs
      weight := resolveBoneWeight bones p.2.weight
      edge_scale := p.2.edge_scale : Vertex })
  let (nmo, ts) ← readInt ts
  let (morphs, ts) ← loadNamed (morphCreate rawVerts.length mats bones) nmo.toNat [] ts
  let (nd, ts) ← readInt ts
  let (slots, ts) ← loadNamed (fun _ => displaySlotLoad bones morphs) nd.toNat [] ts
  let (nr, ts) ← readInt ts
  let (rigids, ts) ← loadNamed (fun _ => rigidLoad bones) nr.toNat [] ts
  let (nj, ts) ← readInt ts
  let (joints, _) ← loadNamed (fun _ => jointLoad rigids) nj.toNat [] ts
  pure { name := name, name_e := name_e, comment := comment, comment_e := comment_e
         vertices := vertices, textures := txs, materials := mats, bones := bones
         morphs := morphs, display_slots := slots, rigids := rigids, joints := joints
         additional_uvs := hdr.additional_uvs }

/-- Model.purge_unused_textures texture-reference collector (a falsy —
None or empty — reference is not collected). -/
def addTexRef (s : List String) : Option String → List String
  | some t => if t ≠ "" then s ++ [t] else s
  | none => s

/-- Model.purge_unused_textures -/
def purge_unused_textures (m : Model) : Model :=
  let tex_used := m.materials.foldl (fun s mat =>
    addTexRef (addTexRef (addTexRef s mat.texture) mat.sphere_texture) mat.toon_texture) []
  { m with textures := m.textures.filter (fun t => t ∈ tex_used) }

/-- Set insertion for the used-vertex set (cardinality matters, so dedup). -/
def addUsed (s : List Nat) (i : Nat) : List Nat := if i ∈ s then s else s ++ [i]

/-- Vertices referenced by any material face. -/
def vertsUsed (m : Model) : List Nat :=
  m.materials.foldl (fun s mat =>
    mat.faces.foldl (fun s f => addUsed (addUsed (addUsed s f.v1) f.v2) f.v3) s) []

/-- Drop vertex/UV morph offsets whose vertex was purged. -/
def filterVUVOffsets (used : List Nat) (mo : Morph) : Morph :=
  match mo.kind with
  | .vertex offs => { mo with kind := .vertex (offs.filter (fun o => o.vertex ∈ used)) }
  | .uv i offs => { mo with kind := .uv i (offs.filter (fun o => o.vertex ∈ used)) }
  | _ => mo

/-- Model.purge_unused_vertices (skips entirely — including the morph
offset cleanup — when every vertex is used). -/
def purge_unused_vertices (m : Model) : Model :=
  let used := vertsUsed m
  if used.length = m.vertices.length then m
  else
    { m with vertices := m.vertices.filter (fun v => v.id ∈ used)
             morphs := m.morphs.map (filterVUVOffsets used) }

/-- Model.save after the header: four document strings (written before the
purge in the source, and first in the stream either way), then purge, then
all sections; the face count written is the sum over materials and each
material's trailing count field is freshly computed from its face list. -/
def modelSaveBody (hdr : Header) (m0 : Model) : P (List Tok) := do
  let head := writeStr m0.name ++ writeStr m0.name_e
    ++ writeStr m0.comment ++ writeStr m0.comment_e
  let m := purge_unused_vertices (purge_unused_textures m0)
  let vi := vertIndexMap m.vertices
  let vs ← saveList (vertexSave m.bones hdr.additional_uvs) m.vertices
  let num_faces : Nat := m.materials.foldl (fun n mat => n + mat.faces.length) 0
  let fcs ← saveList (fun mat => saveList (faceSave vi) mat.faces) m.materials
  let bns ← saveList (boneSave m.bones) m.bones
  let mos ← saveList (morphSave vi m.materials m.bones m.morphs) m.morphs
  let dss ← saveList (displaySlotSave m.bones m.morphs) m.display_slots
  pure (head
    ++ writeInt m.vertices.length ++ vs
    ++ writeInt (num_faces * 3) ++ fcs
    ++ writeInt m.textures.length ++ (m.textures.map writeStr).flatten
    ++ writeInt m.materials.length ++ (m.materials.map (materialSave m.textures)).flatten
    ++ writeInt m.bones.length ++ bns
    ++ writeInt m.morphs.length ++ mos
    ++ writeInt m.display_slots.length ++ dss
    ++ writeInt m.rigids.length ++ (m.rigids.map (rigidSave m.bones)).flatten
    ++ writeInt m.joints.length ++ (m.joints.map (jointSave m.rigids)).flatten)

/-- Header.save -/
def headerSave (h : Header) : List Tok :=
  writeSign "PMX " ++ writeFloat 2 ++ writeByte 8
  ++ writeByte h.encoding_index ++ writeByte h.additional_uvs
  ++ writeByte h.vertex_index_size ++ writeByte h.texture_index_size
  ++ writeByte h.material_index_size ++ writeByte h.bone_index_size
  ++ writeByte h.morph_index_size ++ writeByte h.rigid_index_size

/-- Header.load -/
def headerLoad (ts : List Tok) : P (Header × List Tok) := do
  let (sg, ts) ← readSign ts
  if (sg.take 3) ≠ "PMX" then .error .invalidFile
  else do
    let (ver, ts) ← readFloat ts
    if ver ≠ 2 then .error .unsupportedVersion
    else do
      let (hl, ts) ← readByte ts
      if hl ≠ 8 ∨ (sg.drop 3) ≠ " " then .error .invalidFile
      else do
        let (enc, ts) ← readByte ts
        if enc ≠ 0 ∧ enc ≠ 1 then .error (.valueError "invalid encoding index")
        else do
          let (auvs, ts) ← readByte ts
          let (vis, ts) ← readByte ts
          let (tis, ts) ← readByte ts
          let (mis, ts) ← readByte ts
          let (bis, ts) ← readByte ts
          let (mois, ts) ← readByte ts
          let (ris, ts) ← readByte ts
          pure ({ encoding_index := enc, additional_uvs := auvs
                  vertex_index_size := vis, texture_index_size := tis
                  material_index_size := mis, bone_index_size := bis
                  morph_index_size := mois, rigid_index_size := ris }, ts)

/-- Module-level pypmx.load: header, then body with struct.error converted
to a "Corrupted file" ValueError. -/
def pmxLoad (ts : List Tok) : P Model := do
  let (hdr, ts) ← headerLoad ts
  match modelBodyLoad hdr ts with
  | .ok m => .ok m
  | .error .structError => .error (.valueError "Corrupted file")
  | .error e => .error e

/-- Module-level pypmx.save: Header(model) (index sizes from the pre-purge
cardinalities), header bytes, then the body. -/
def pmxSave (m : Model) : P (List Tok) := do
  let hdr := mkHeader m
  let body ← modelSaveBody hdr m
  pure (headerSave hdr ++ body)

/-!
Merge engine (pmxmerge.py).  The category sets are modelled as lists used
only through membership.  All functions thread `Except PErr` because
NamedElements operations can raise.
-/

/-- pmxmerge.validate_elements' inner check: duplicate or unnamed items. -/
def checkDupUnnamed (names : List String) : Bool :=
  let st := names.foldl (fun (st : List String × Bool × Bool) n =>
    let (seen, dup, unn) := st
    if n = "" then (seen, dup, true)
    else if n ∈ seen then (seen, true, unn)
    else (n :: seen, dup, unn)) ([], false, false)
  st.2.1 || st.2.2

/-- pmxmerge.validate_elements (true when any duplicate or unnamed element
exists in bones/materials/morphs/display slots/rigids/joints). -/
def validate_elements (m : Model) : Bool :=
  checkDupUnnamed (m.bones.map (·.name))
  || checkDupUnnamed (m.materials.map (·.name))
  || checkDupUnnamed (m.morphs.map (·.name))
  || checkDupUnnamed (m.display_slots.map (·.name))
  || checkDupUnnamed (m.rigids.map (·.name))
  || checkDupUnnamed (m.joints.map (·.name))

/-- BONE_LOC attribute copy (location, disp_connection_type,
disp_connection_bone, disp_connection_vector). -/
def copyBoneLoc (b src : Bone) : Bone :=
  { b with location := src.location
           disp_connection_type := src.disp_connection_type
           disp_connection_bone := src.disp_connection_bone
           disp_connection_vector := src.disp_connection_vector }

/-- BONE_SETTING attribute copy. -/
def copyBoneSetting (b src : Bone) : Bone :=
  { b with parent := src.parent, trans_order := src.trans_order
           trans_after_physics := src.trans_after_physics
           is_rotatable := src.is_rotatable, is_movable := src.is_movable
           is_visible := src.is_visible, is_controllable := src.is_controllable
           has_add_rot := src.has_add_rot, has_add_loc := src.has_add_loc
           add_trans_bone := src.add_trans_bone, add_trans_value := src.add_trans_value
           fixed_axis := src.fixed_axis, local_coord := src.local_coord
           is_ik := src.is_ik, ik_target := src.ik_target
           loop_count := src.loop_count, rotation_unit := src.rotation_unit
           ik_links := src.ik_links }

/-- One iteration of the bone update loop: name_e is copied
unconditionally, then the selected attribute groups. -/
def updateBoneWith (upd : List String) (b src : Bone) : Bone :=
  let b := { b with name_e := src.name_e }
  let b := if "BONE_LOC" ∈ upd then copyBoneLoc b src else b
  if "BONE_SETTING" ∈ upd then copyBoneSetting b src else b

/-- pmxmerge.append_update_bones -/
def append_update_bones (base patch : Model) (app upd : List String) : P Model :=
  if "BONE" ∉ app ∧ ("BONE_LOC" ∉ upd ∧ "BONE_SETTING" ∉ upd) then pure base
  else do
    let base ←
      if "BONE" ∈ app then do
        let bones ← patch.bones.foldlM (fun bs b =>
          if ¬ neContainsKey bs (some b.name) then neAppend bs b else pure bs) base.bones
        pure { base with bones := bones }
      else pure base
    if "BONE_LOC" ∈ upd ∨ "BONE_SETTING" ∈ upd then
      let bones := patch.bones.foldl (fun bs b =>
        if neContainsKey bs (some b.name) then
          neModifyLast bs b.name (fun t => updateBoneWith upd t b)
        else bs) base.bones
      pure { base with bones := bones }
    else pure base

/-- Model.ensure_texture (append when the path is not in the pool). -/
def ensure_texture (txs : List String) (t : String) : List String :=
  if t ∈ txs then txs else txs ++ [t]

/-- Model.replace_material_faces, applied at a name's cache position. -/
def replaceMaterialFacesAt (ms : List Material) (n : String) (fs : List Face) : P (List Material) :=
  if ¬ neContainsKey ms (some n) then .error (.valueError "Material not found in model.")
  else pure (neModifyLast ms n (fun m => { m with faces := fs }))

/-- Concatenate patch offsets onto a base morph of the same Python class
(base_morph.offsets.extend(morph.offsets)). -/
def extendOffsets : MorphKind → MorphKind → MorphKind
  | .vertex a, .vertex b => .vertex (a ++ b)
  | .uv i a, .uv _ b => .uv i (a ++ b)
  | .group a, .group b => .group (a ++ b)
  | .bone a, .bone b => .bone (a ++ b)
  | .material a, .material b => .material (a ++ b)
  | k, _ => k

/-- One iteration of the vertex/UV morph merge in append_update_material:
append when new; replace outright on a class mismatch; otherwise
concatenate offsets. -/
def mergeVertexUVMorph (ms : List Morph) (m : Morph) : P (List Morph) :=
  if ¬ neContainsKey ms (some m.name) then neAppend ms m
  else
    match neLast ms (some m.name) with
    | some (i, bm) =>
      if bm.pyClass ≠ m.pyClass then neSetStr ms m.name m
      else pure (ms.set i { bm with kind := extendOffsets bm.kind m.kind })
    | none => pure ms

/-- pmxmerge.append_update_material -/
def append_update_material (base patch : Model) (app upd : List String) : P Model :=
  if "MATERIAL" ∉ app ∧ ("MAT_GEOM" ∉ upd ∧ "MAT_SETTING" ∉ upd) then pure base
  else do
    let base :=
      if "MATERIAL" ∈ app ∨ "MAT_GEOM" ∈ upd then
        { base with vertices := base.vertices ++ patch.vertices }
      else base
    let base := { base with textures := patch.textures.foldl ensure_texture base.textures }
    let base ←
      if "MATERIAL" ∈ app then do
        let mats ← patch.materials.foldlM (fun ms m =>
          if ¬ neContainsKey ms (some m.name) then neAppend ms m else pure ms) base.materials
        pure { base with materials := mats }
      else pure base
    let base ←
      if "MAT_GEOM" ∈ upd then do
        let mats ← patch.materials.foldlM (fun ms m =>
          if neContainsKey ms (some m.name) then replaceMaterialFacesAt ms m.name m.faces
          else pure ms) base.materials
        pure { base with materials := mats }
      else pure base
    let morphs ← (patch.morphs.filter (·.isVertexOrUV)).foldlM mergeVertexUVMorph base.morphs
    let base := { base with morphs := morphs }
    if "MAT_SETTING" ∈ upd then do
      let mats ← patch.materials.foldlM (fun ms m =>
        if neContainsKey ms (some m.name) then do
          let i := neIndexStr ms m.name
          neSetIdx ms i m
        else pure ms) base.materials
      pure { base with materials := mats }
    else pure base

/-- pmxmerge.append_update_morphs (Material/Bone/Group morphs only;
vertex/UV morphs were handled with the material merge). -/
def append_update_morphs (base patch : Model) (app upd : List String) : P Model :=
  if "MORPH" ∉ app ∧ "MORPH" ∉ upd then pure base
  else do
    let morphs ←
      if "MORPH" ∈ app then
        patch.morphs.foldlM (fun ms m =>
          if ¬ neContainsKey ms (some m.name) then
            if m.isVertexOrUV then pure ms else neAppend ms m
          else pure ms) base.morphs
      else pure base.morphs
    let morphs ←
      if "MORPH" ∈ upd then
        patch.morphs.foldlM (fun ms m =>
          if neContainsKey ms (some m.name) then
            if m.isVertexOrUV then pure ms else neSetStr ms m.name m
          else pure ms) morphs
      else pure morphs
    pure { base with morphs := morphs }

/-- pmxmerge.append_update_physics -/
def append_update_physics (base patch : Model) (app upd : List String) : P Model :=
  if "PHYSICS" ∉ app ∧ "PHYSICS" ∉ upd then pure base
  else do
    let base ←
      if "PHYSICS" ∈ app then do
        let rigids ← patch.rigids.foldlM (fun rs r =>
          if ¬ neContainsKey rs (some r.name) then neAppend rs r else pure rs) base.rigids
        let joints ← patch.joints.foldlM (fun js j =>
          if ¬ neContainsKey js (some j.name) then neAppend js j else pure js) base.joints
        pure { base with rigids := rigids, joints := joints }
      else pure base
    if "PHYSICS" ∈ upd then do
      let rigids ← patch.rigids.foldlM (fun rs r =>
        if neContainsKey rs (some r.name) then do
          let i := neIndexStr rs r.name
          neSetIdx rs i r
        else pure rs) base.rigids
      let joints ← patch.joints.foldlM (fun js j =>
        if neContainsKey js (some j.name) then do
          let i := neIndexStr js j.name
          neSetIdx js i j
        else pure js) base.joints
      pure { base with rigids := rigids, joints := joints }
    else pure base

/-- Item append pass for one matching display slot: items absent (by the
NamedElements name-keyed membership) from the base slot are appended
through the validating append. -/
def appendSlotItems (ds : List DisplaySlot) (slot : DisplaySlot) : P (List DisplaySlot) :=
  match neLast ds (some slot.name) with
  | some (i, bslot) => do
    let items ← slot.items.foldlM (fun its it =>
      if ¬ neContainsKey its (pyname it) then neAppend its it else pure its) bslot.items
    pure (ds.set i { bslot with items := items })
  | none => pure ds

/-- pmxmerge.append_update_displayitems -/
def append_update_displayitems (base patch : Model) (app upd : List String) : P Model :=
  if "DISPLAY" ∉ app ∧ "DISPLAY" ∉ upd then pure base
  else do
    let slots ←
      if "DISPLAY" ∈ app then do
        let slots ← patch.display_slots.foldlM (fun ds d =>
          if ¬ neContainsKey ds (some d.name) then neAppend ds d else pure ds) base.display_slots
        patch.display_slots.foldlM (fun ds d =>
          if neContainsKey ds (some d.name) then appendSlotItems ds d else pure ds) slots
      else pure base.display_slots
    let slots ←
      if "DISPLAY" ∈ upd then
        patch.display_slots.foldlM (fun ds d =>
          if neContainsKey ds (some d.name) then do
            let i := neIndexStr ds d.name
            neSetIdx ds i d
          else pure ds) slots
      else pure slots
    pure { base with display_slots := slots }

/-- pmxmerge.merge_models -/
def merge_models (base patch : Model) (app upd : List String) : P Model := do
  let base ← append_update_bones base patch app upd
  let base ← append_update_material base patch app upd
  let base ← append_update_morphs base patch app upd
  let base ← append_update_physics base patch app upd
  append_update_displayitems base patch app upd

/-!
merge_pmx_files, with the operating system abstracted into an environment
(file loading/saving and path predicates).
-/

structure MergeEnv where
  loadModel : String → P Model
  saveModel : String → Model → P Unit
  isAbs : String → Bool
  dirname : String → String
  joinPath : String → String → String

/-- pmxmerge.load_pmx_file (catches every exception and returns None). -/
def load_pmx_file (env : MergeEnv) (p : String) : Option Model :=
  (env.loadModel p).toOption

/-- pmxmerge.save_pmx_file: on success returns (True, msg); an exception
from pypmx.save is logged and RE-RAISED (the except block ends in `raise`). -/
def save_pmx_file (env : MergeEnv) (m : Model) (p : String) : P (Bool × String) :=
  match env.saveModel p m with
  | .ok _ => .ok (true, "Model saved successfully.")
  | .error e => .error e

instance {ε α : Type} [DecidableEq ε] [DecidableEq α] : DecidableEq (Except ε α) := fun x y =>
  match x, y with
  | .ok a, .ok b =>
    if h : a = b then .isTrue (by simp [h]) else .isFalse (by simp [h])
  | .error a, .error b =>
    if h : a = b then .isTrue (by simp [h]) else .isFalse (by simp [h])
  | .ok _, .error _ => .isFalse (by simp)
  | .error _, .ok _ => .isFalse (by simp)

/-- Outcome of merge_pmx_files: the returned value (or the escaped
exception) plus the file write that happened, if any. -/
structure MergeOutcome where
  ret : P (Bool × String)
  written : Option (String × Model)
  deriving DecidableEq, Repr

/-- pmxmerge.merge_pmx_files -/
def merge_pmx_files (env : MergeEnv) (path_base path_patch path_out : String)
    (app upd : List String) : MergeOutcome :=
  if path_base = "" ∨ path_patch = "" ∨ path_out = "" then
    ⟨.ok (false, "Base, patch and output paths must be specified."), none⟩
  else if path_base = path_patch then
    ⟨.ok (false, "Base and patch files cannot be the same."), none⟩
  else
    match load_pmx_file env path_base with
    | none => ⟨.ok (false, "Failed to load base model from '" ++ path_base ++ "'. Please check the file path and format."), none⟩
    | some base =>
      if ¬ env.isAbs path_out ∧ env.isAbs path_base ∧ env.dirname path_base = "" then
        ⟨.ok (false, "Base model path '" ++ path_base ++ "' is not a valid directory."), none⟩
      else
        let path_out :=
          if ¬ env.isAbs path_out ∧ env.isAbs path_base then
            env.joinPath (env.dirname path_base) path_out
          else path_out
        if validate_elements base then
          ⟨.ok (false, "Base model " ++ path_base ++ " has duplicate elements, merging may not work correctly. Please fix the base model before merging."), none⟩
        else
          match load_pmx_file env path_patch with
          | none => ⟨.ok (false, "Failed to load patch model from '" ++ path_patch ++ "'. Please check the file path and format."), none⟩
          | some patch =>
            if validate_elements patch then
              ⟨.ok (false, "Patch model " ++ path_patch ++ " has duplicate elements, merging may not work correctly. Please fix the patch model before merging."), none⟩
            else
              match merge_models base patch app upd with
              | .error e => ⟨.error e, none⟩
              | .ok merged =>
                match save_pmx_file env merged path_out with
                | .error e => ⟨.error e, none⟩
                | .ok (r, msg) =>
                  if ¬ r then
                    ⟨.ok (false, "Failed to save merged model to '" ++ path_out ++ "': " ++ msg), some (path_out, merged)⟩
                  else
                    ⟨.ok (true, "Merge completed successfully (" ++ path_base ++ " + " ++ path_patch ++ " -> " ++ path_out ++ ")"), some (path_out, merged)⟩

/-!
Concrete instances used by witnesses and counterexamples.
-/

/-- A plain bone (mostly Bone.__init__ defaults) with the given names. -/
def mkB (n ne : String) : Bone :=
  { name := n, name_e := ne, location := [0, 0, 0], parent := none
    trans_order := 0, trans_after_physics := false
    disp_connection_type := 0, disp_connection_bone := ""
    disp_conection_bone_index := none, disp_connection_vector := [0, 0, 0]
    is_rotatable := true, is_movable := true, is_visible := true, is_controllable := true
    has_add_rot := false, has_add_loc := false, add_trans_bone := none, add_trans_value := 0
    fixed_axis := none, local_coord := none, ext_trans_key := none
    is_ik := false, ik_target := some "", loop_count := 8, rotation_unit := mkRat 3 100
    ik_links := [] }

/-- A plain material with given name, faces and shininess. -/
def mkM (n : String) (fs : List Face) (sh : Rat) : Material :=
  { name := n, name_e := "", diffuse := [1, 1, 1, 1], specular := [0, 0, 0], shininess := sh
    ambient := [0, 0, 0], is_double_sided := true, enabled_drop_shadow := true
    enabled_self_shadow_map := true, enabled_self_shadow := true, enabled_toon_edge := false
    edge_color := [0, 0, 0, 1], edge_size := 1, texture := none, sphere_texture := none
    sphere_texture_mode := 0, is_shared_toon_texture := true, shared_toon_texture_index := 0
    toon_texture := none, comment := "", vertex_count := 3 * fs.length, faces := fs }

def emptyM : Model :=
  { name := "m", name_e := "", comment := "", comment_e := ""
    vertices := [], textures := [], materials := [], bones := [], morphs := []
    display_slots := [], rigids := [], joints := [], additional_uvs := 0 }

/-- Base document: one bone "A" (name_e "olde"), one material "M" with one face. -/
def baseA : Model :=
  { emptyM with
      vertices := [{ id := 0, co := [0, 0, 0], normal := [0, 0, 1], uv := [0, 0]
                     additional_uvs := [], weight := { type := 0, bones := [some "A"], weights := .floats [] }
                     edge_scale := 1 }]
      bones := [mkB "A" "olde"]
      materials := [mkM "M" [{ v1 := 0, v2 := 0, v3 := 0 }] 5] }

/-- Patch document: a new-named bone "B", a same-named bone "A" with changed
name_e and location, a same-named material "M" with no faces and changed
shininess, and a new-named material "N". -/
def patchB : Model :=
  { emptyM with
      bones := [mkB "B" "x", { mkB "A" "newe" with location := [1, 2, 3] }]
      materials := [mkM "M" [] 9, mkM "N" [] 7] }

/-- Patch document whose bone names are all absent from baseA. -/
def patchNew : Model := { emptyM with bones := [mkB "C" "ce", mkB "D" "de"] }

/-- Sub-morph name references of a group morph. -/
def groupRefs (m : Morph) : List (Option String) :=
  match m.kind with
  | .group os => os.map (fun o => o.morph)
  | _ => []

/-- Document with a group morph whose sub-morph reference points FORWARD
(at morph "v" which sits after it in the collection). -/
def gm : Morph :=
  { name := "g", name_e := "", category := 0, kind := .group [{ morph := some "v", factor := 1 }] }

def vm : Morph := { name := "v", name_e := "", category := 0, kind := .vertex [] }

def fwdRefM : Model := { emptyM with morphs := [gm, vm] }

/-- A base document with two identically named bones (fails validation). -/
def baseDup : Model := { emptyM with bones := [mkB "A" "", mkB "A" ""] }

/-- A merge environment whose save always fails (e.g. an unwritable output
path); loads are fine. -/
def envFailSave : MergeEnv :=
  { loadModel := fun p =>
      if p = "base.pmx" then .ok baseA
      else if p = "patch.pmx" then .ok patchNew
      else .error .invalidFile
    saveModel := fun _ _ => .error (.valueError "save failed")
    isAbs := fun _ => true
    dirname := fun _ => ""
    joinPath := fun a b => a ++ "/" ++ b }

/-- A merge environment where everything works but the base document has
duplicate bone names. -/
def envDup : MergeEnv :=
  { loadModel := fun p =>
      if p = "b.pmx" then .ok baseDup
      else if p = "p.pmx" then .ok patchNew
      else .error .invalidFile
    saveModel := fun _ _ => .ok ()
    isAbs := fun _ => true
    dirname := fun _ => ""
    joinPath := fun a b => a ++ "/" ++ b }

end Pmx


namespace Pmx

/-- Result of applying, for each processed patch element of `q` whose name
matches `b`, the per-slot update `f old patch` (used to state what the
name-matching merge update loops compute). -/
def updMap {α : Type} [PyName α] (f : α → α → α) (q : List α) (b : α) : α :=
  match neLast q (pyname b) with
  | some (_, x) => f b x
  | none => b

end Pmx

namespace Pmx

/-!
Definitions for the save/load round-trip (C2): a decidable well-formedness
predicate on models, canonical forms describing what a reload normalizes
(vertex ids become list positions; face and vertex/UV-morph vertex
references follow through the id→position lookup table; a material's
vertex_count is recomputed from its face list), and the raw per-entity
records a load produces before name resolution.
-/

/-- Exact length constraint for a float vector the codec writes. -/
def vecOk (n : Nat) (v : Vec) : Bool := v.length = n

/-- A name reference that survives a save/load cycle unchanged: absent
(None) or the name of some element of the collection. -/
def refOk {α : Type} [PyName α] (xs : List α) : Option String → Bool
  | some n => neContainsKey xs (some n)
  | none => true

/-- A texture reference that survives a save/load cycle: absent, or a
non-empty string present in the texture list (TextureList.index finds it
by value and TextureList.__getitem__ returns it back). -/
def texRefOk (txs : List String) : Option String → Bool
  | some t => decide (t ≠ "") && decide (t ∈ txs)
  | none => true

/-- Shape of a bone weight the codec reproduces exactly (arity of the bone
reference list and of the weight payload per deform type). -/
def weightWF (bones : List Bone) (w : BoneWeight) : Bool :=
  w.bones.all (refOk bones) &&
  (if w.type = 0 then decide (w.bones.length = 1 ∧ w.weights = .floats [])
   else if w.type = 1 then
     match w.weights with
     | .floats ws => decide (w.bones.length = 2 ∧ ws.length = 1)
     | _ => false
   else if w.type = 2 then
     match w.weights with
     | .floats ws => decide (w.bones.length = 4 ∧ ws.length = 4)
     | _ => false
   else if w.type = 3 then
     match w.weights with
     | .sdef s =>
       decide (w.bones.length = 2 ∧ s.c.length = 3 ∧ s.r0.length = 3 ∧ s.r1.length = 3)
     | _ => false
   else false)

def vertexWF (bones : List Bone) (auvs : Nat) (v : Vertex) : Bool :=
  vecOk 3 v.co && vecOk 3 v.normal && vecOk 2 v.uv &&
  decide (v.additional_uvs.length = auvs) && v.additional_uvs.all (vecOk 4) &&
  weightWF bones v.weight

def faceWF (ids : List Nat) (f : Face) : Bool :=
  decide (f.v1 ∈ ids) && decide (f.v2 ∈ ids) && decide (f.v3 ∈ ids)

def materialWF (txs : List String) (ids : List Nat) (mt : Material) : Bool :=
  decide (mt.name ≠ "") && vecOk 4 mt.diffuse && vecOk 3 mt.specular &&
  vecOk 3 mt.ambient && vecOk 4 mt.edge_color &&
  texRefOk txs mt.texture && texRefOk txs mt.sphere_texture &&
  (if mt.is_shared_toon_texture then decide (mt.toon_texture = none)
   else decide (mt.shared_toon_texture_index = 0) && texRefOk txs mt.toon_texture) &&
  mt.faces.all (faceWF ids)

def ikLinkWF (bones : List Bone) (l : IKLink) : Bool :=
  refOk bones l.target &&
  (match l.min_angle, l.max_angle with
   | some mn, some mx => decide (mn.length = 3 ∧ mx.length = 3)
   | none, none => true
   | _, _ => false)

def boneWF (bones : List Bone) (b : Bone) : Bool :=
  decide (b.name ≠ "") && vecOk 3 b.location && refOk bones b.parent &&
  decide (b.disp_connection_bone = "") &&
  (if b.disp_connection_type = 1 then
     refOk bones b.disp_conection_bone_index && decide (b.disp_connection_vector = [])
   else
     decide (b.disp_connection_type = 0) && decide (b.disp_conection_bone_index = none) &&
     vecOk 3 b.disp_connection_vector) &&
  (if b.has_add_rot || b.has_add_loc then refOk bones b.add_trans_bone
   else decide (b.add_trans_bone = none) && decide (b.add_trans_value = 0)) &&
  (match b.fixed_axis with | some v => vecOk 3 v | none => true) &&
  (match b.local_coord with
   | some c => decide (c.x_axis.length = 3 ∧ c.z_axis.length = 3)
   | none => true) &&
  (if b.is_ik then
     refOk bones b.ik_target && b.ik_links.all (ikLinkWF bones)
   else
     decide (b.ik_target = some "") && decide (b.loop_count = 8) &&
     decide (b.rotation_unit = mkRat 3 100) && decide (b.ik_links = []))

/-- A group-morph sub-reference the reload reproduces: absent, or the name
of a morph sitting STRICTLY BEFORE position k (its cache index is < k) —
forward references are nulled because offsets resolve against the
partially loaded morph collection. -/
def groupOffsetWF (morphs : List Morph) (k : Nat) (o : GroupMorphOffset) : Bool :=
  match o.morph with
  | none => true
  | some n => decide (0 ≤ neIndexStr morphs n ∧ neIndexStr morphs n < (k : Int))

def morphOffsetWF (ids : List Nat) (sz : Nat) (o : MorphOffset) : Bool :=
  decide (o.vertex ∈ ids) && vecOk sz o.offset

def boneMorphOffsetWF (bones : List Bone) (owner : String) (o : BoneMorphOffset) : Bool :=
  decide (o.owner = owner) && refOk bones o.bone && vecOk 3 o.location_offset &&
  vecOk 4 o.rotation_offset && o.rotation_offset.any (fun c => c != 0)

def materialMorphOffsetWF (mats : List Material) (o : MaterialMorphOffset) : Bool :=
  refOk mats o.material && vecOk 4 o.diffuse_offset && vecOk 3 o.specular_offset &&
  vecOk 3 o.ambient_offset && vecOk 4 o.edge_color_offset && vecOk 4 o.texture_factor &&
  vecOk 4 o.sphere_texture_factor && vecOk 4 o.toon_texture_factor

def morphWF (ids : List Nat) (mats : List Material) (bones : List Bone)
    (morphs : List Morph) (k : Nat) (m : Morph) : Bool :=
  decide (m.name ≠ "") &&
  (match m.kind with
   | .group offs => offs.all (groupOffsetWF morphs k)
   | .vertex offs => offs.all (morphOffsetWF ids 3)
   | .bone offs => offs.all (boneMorphOffsetWF bones m.name)
   | .uv i offs => if 0 ≤ i ∧ i ≤ 4 then offs.all (morphOffsetWF ids 4) else false
   | .material offs => offs.all (materialMorphOffsetWF mats))

/-- Position-indexed well-formedness of the morph list (the position gates
which sub-morphs a group morph may reference). -/
def morphsWF (ids : List Nat) (mats : List Material) (bones : List Bone)
    (all : List Morph) : Nat → List Morph → Bool
  | _, [] => true
  | k, m :: ms => morphWF ids mats bones all k m && morphsWF ids mats bones all (k + 1) ms

def displayItemWF (bones : List Bone) (morphs : List Morph) (i : DisplayItem) : Bool :=
  match i.disp_type, i.name with
  | 0, some n => if n = "" then false else neContainsKey bones (some n)
  | 1, some n => if n = "" then false else neContainsKey morphs (some n)
  | _, _ => false

def displaySlotWF (bones : List Bone) (morphs : List Morph) (d : DisplaySlot) : Bool :=
  decide (d.name ≠ "") && d.items.all (displayItemWF bones morphs)

def rigidWF (bones : List Bone) (r : RigidBody) : Bool :=
  decide (r.name ≠ "") && refOk bones r.bone && vecOk 3 r.size && vecOk 3 r.location &&
  vecOk 3 r.rotation

def jointWF (rigids : List RigidBody) (j : Joint) : Bool :=
  decide (j.name ≠ "") && refOk rigids j.src_rigid && refOk rigids j.dst_rigid &&
  vecOk 3 j.location && vecOk 3 j.rotation &&
  vecOk 3 j.maximum_location && vecOk 3 j.minimum_location &&
  vecOk 3 j.maximum_rotation && vecOk 3 j.minimum_rotation &&
  vecOk 3 j.spring_constant && vecOk 3 j.spring_rotation_constant

/-- Decidable model well-formedness: the shapes the PMX codec writes and
reads back exactly. -/
def modelWF (m : Model) : Bool :=
  let ids := m.vertices.map Vertex.id
  m.vertices.all (vertexWF m.bones m.additional_uvs) &&
  m.materials.all (materialWF m.textures ids) &&
  m.bones.all (boneWF m.bones) &&
  morphsWF ids m.materials m.bones m.morphs 0 m.morphs &&
  m.display_slots.all (displaySlotWF m.bones m.morphs) &&
  m.rigids.all (rigidWF m.bones) &&
  m.joints.all (jointWF m.rigids)

/-- The purge Model.save performs before writing any section. -/
def purgeModel (m : Model) : Model :=
  purge_unused_vertices (purge_unused_textures m)

/-- Position a vertex id maps to through the save-time lookup table; the
reloaded document holds these positions as the new vertex ids. -/
def canonPos (verts : List Vertex) (i : Nat) : Nat :=
  (vertIndexMap verts i).getD 0

def canonFace (verts : List Vertex) (f : Face) : Face :=
  { v1 := canonPos verts f.v1, v2 := canonPos verts f.v2, v3 := canonPos verts f.v3 }

def canonMaterial (verts : List Vertex) (mt : Material) : Material :=
  { mt with faces := mt.faces.map (canonFace verts)
            vertex_count := (mt.faces.length * 3 : Int) }

def canonMorph (verts : List Vertex) (m : Morph) : Morph :=
  match m.kind with
  | .vertex offs =>
    { m with kind := .vertex (offs.map (fun o => { o with vertex := canonPos verts o.vertex })) }
  | .uv i offs =>
    { m with kind := .uv i (offs.map (fun o => { o with vertex := canonPos verts o.vertex })) }
  | _ => m

/-- What load(save(m)) yields for a well-formed purged model: the same
document with vertex ids renumbered to positions and every vertex-id
reference following the renumbering. -/
def canonModel (m : Model) : Model :=
  { m with
    vertices := m.vertices.enum.map (fun p => { p.2 with id := p.1 })
    materials := m.materials.map (canonMaterial m.vertices)
    morphs := m.morphs.map (canonMorph m.vertices) }

/-- The raw bone-weight record the loader produces from a saved weight. -/
def rawOfWeight (bones : List Bone) (w : BoneWeight) : RawBoneWeight :=
  { type := w.type
    bone_indices := w.bones.map (neIndexRef bones)
    weights := w.weights }

/-- The raw IK-link record the loader produces from a saved link. -/
def rawOfIKLink (bones : List Bone) (l : IKLink) : RawIKLink :=
  { target_index := neIndexRef bones l.target
    max_angle := l.max_angle, min_angle := l.min_angle }

/-- The raw bone record the loader produces from a saved well-formed bone. -/
def rawOfBone (bones : List Bone) (b : Bone) : RawBone :=
  { name := b.name, name_e := b.name_e, location := b.location
    parent_index := neIndexRef bones b.parent
    trans_order := b.trans_order, trans_after_physics := b.trans_after_physics
    disp_connection_type := b.disp_connection_type
    disp_connection_bone_index :=
      if b.disp_connection_type = 1 then neIndexRef bones b.disp_conection_bone_index else -1
    disp_connection_vector := b.disp_connection_vector
    is_rotatable := b.is_rotatable, is_movable := b.is_movable
    is_visible := b.is_visible, is_controllable := b.is_controllable
    has_add_rot := b.has_add_rot, has_add_loc := b.has_add_loc
    add_trans_bone_index := neIndexRef bones b.add_trans_bone
    add_trans_value := b.add_trans_value
    fixed_axis := b.fixed_axis, local_coord := b.local_coord
    ext_trans_key := b.ext_trans_key
    is_ik := b.is_ik
    ik_target_index := if b.is_ik then neIndexRef bones b.ik_target else -1
    loop_count := b.loop_count, rotation_unit := b.rotation_unit
    ik_links := b.ik_links.map (rawOfIKLink bones) }

/-- The raw vertex record the loader produces from a saved vertex. -/
def rawOfVertex (bones : List Bone) (v : Vertex) : RawVertex :=
  { co := v.co, normal := v.normal, uv := v.uv
    additional_uvs := v.additional_uvs
    weight := rawOfWeight bones v.weight
    edge_scale := v.edge_scale }

/-- The material record the loader produces before face assignment (empty
face list, vertex_count from the stream = 3 * the saved face count). -/
def matLoaded (mt : Material) : Material :=
  { mt with faces := [], vertex_count := (mt.faces.length * 3 : Int) }

/-- The token list Bone.save writes (Bone.save never fails: the optional
sections are guarded by flag bits computed from the very option fields
they serialize). -/
def boneTokens (bones : List Bone) (b : Bone) : List Tok :=
  writeStr b.name ++ writeStr b.name_e ++ writeVector b.location
  ++ writeSIdx (neIndexRef bones b.parent) ++ writeInt b.trans_order
  ++ writeShort (boneFlags b)
  ++ (if boneFlags b &&& 0x0001 ≠ 0 then
        writeSIdx (neIndexRef bones b.disp_conection_bone_index)
      else
        writeVector b.disp_connection_vector)
  ++ (if b.has_add_rot || b.has_add_loc then
        writeSIdx (neIndexRef bones b.add_trans_bone) ++ writeFloat b.add_trans_value
      else [])
  ++ (match b.fixed_axis with | some v => writeVector v | none => [])
  ++ (match b.local_coord with
      | some c => writeVector c.x_axis ++ writeVector c.z_axis
      | none => [])
  ++ (match b.ext_trans_key with | some v => writeInt v | none => [])
  ++ (if b.is_ik then
        writeSIdx (neIndexRef bones b.ik_target) ++ writeInt b.loop_count
        ++ writeFloat b.rotation_unit ++ writeInt b.ik_links.length
        ++ (b.ik_links.map (ikLinkSave bones)).flatten
      else [])

/-- Last index whose name equals the key, over the bare name list (the
name cache's index component depends only on the names). -/
def lastIdx (ns : List (Option String)) (k : Option String) : Option Nat :=
  ns.enum.foldl (fun acc p => if p.2 = k then some p.1 else acc) none

/-- Bone.save's flag word over explicit bits (boneFlags instantiates it). -/
def packFlags (c0 c1 c2 c3 c4 c5 c8 c9 c10 c11 c12 c13 : Bool) : Nat :=
  (if c0 then 1 else 0)
  ||| (if c1 then 1 else 0) <<< 1
  ||| (if c2 then 1 else 0) <<< 2
  ||| (if c3 then 1 else 0) <<< 3
  ||| (if c4 then 1 else 0) <<< 4
  ||| (if c5 then 1 else 0) <<< 5
  ||| (if c8 then 1 else 0) <<< 8
  ||| (if c9 then 1 else 0) <<< 9
  ||| (if c10 then 1 else 0) <<< 10
  ||| (if c11 then 1 else 0) <<< 11
  ||| (if c12 then 1 else 0) <<< 12
  ||| (if c13 then 1 else 0) <<< 13

/-- Material.save's flag byte over explicit bits. -/
def packMatFlags (c0 c1 c2 c3 c4 : Bool) : Nat :=
  (if c0 then 1 else 0)
  ||| (if c1 then 1 else 0) <<< 1
  ||| (if c2 then 1 else 0) <<< 2
  ||| (if c3 then 1 else 0) <<< 3
  ||| (if c4 then 1 else 0) <<< 4

/-- A small well-formed document exercising every section for the C2
witness: an unused vertex (id 9) and an unused texture ("unused.png") that
the save purges, a group morph referencing an earlier morph, and a full
bone/morph/display/physics chain. -/
def rtVert (i : Nat) : Vertex :=
  { id := i, co := [1, 2, 3], normal := [0, 0, 1], uv := [0, 0]
    additional_uvs := []
    weight := { type := 0, bones := [some "A"], weights := .floats [] }
    edge_scale := 1 }

def rtModel : Model :=
  { name := "rt", name_e := "rt_e", comment := "c", comment_e := "ce"
    vertices := [rtVert 5, rtVert 7, rtVert 9, rtVert 11]
    textures := ["tex.png", "unused.png"]
    materials :=
      [{ mkM "M" [{ v1 := 5, v2 := 7, v3 := 11 }] 1 with
           texture := some "tex.png" }]
    bones := [mkB "A" "ae", { mkB "B" "be" with parent := some "A" }]
    morphs :=
      [{ name := "v", name_e := "", category := 4
         kind := .vertex [{ vertex := 7, offset := [1, 0, 0] }
                          , { vertex := 9, offset := [0, 1, 0] }] }
       , { name := "g", name_e := "", category := 4
           kind := .group [{ morph := some "v", factor := mkRat 1 2 }] }]
    display_slots :=
      [{ name := "Root", name_e := "", isSpecial := true
         items := [{ disp_type := 0, name := some "B" }] }]
    rigids :=
      [{ name := "R", name_e := "", bone := some "A"
         collision_group_number := 0, collision_group_mask := 65535
         type := 0, size := [1, 1, 1], location := [0, 0, 0], rotation := [0, 0, 0]
         mass := 1, velocity_attenuation := mkRat 1 2, rotation_attenuation := mkRat 1 2
         bounce := 0, friction := mkRat 1 2, mode := 0 }]
    joints :=
      [{ name := "J", name_e := "", mode := 0
         src_rigid := some "R", dst_rigid := some "R"
         location := [0, 0, 0], rotation := [0, 0, 0]
         maximum_location := [0, 0, 0], minimum_location := [0, 0, 0]
         maximum_rotation := [0, 0, 0], minimum_rotation := [0, 0, 0]
         spring_constant := [0, 0, 0], spring_rotation_constant := [0, 0, 0] }]
    additional_uvs := 0 }

end Pmx

/-!
Generic lemmas about the NamedElements cache.
-/

namespace Pmx

theorem neLast_nil {α : Type} [PyName α] (k : Option String) :
    neLast ([] : List α) k = none := rfl

theorem neLast_snoc {α : Type} [PyName α] (xs : List α) (x : α) (k : Option String) :
    neLast (xs ++ [x]) k = if pyname x = k then some (xs.length, x) else neLast xs k := by
  unfold neLast
  rw [List.enum_append, List.foldl_append]
  simp [List.enumFrom]

theorem neLast_spec {α : Type} [PyName α] (xs : List α) (k : Option String) :
    (neLast xs k = none ∧ ∀ x ∈ xs, pyname x ≠ k) ∨
    (∃ i x, neLast xs k = some (i, x) ∧ i < xs.length ∧ xs.get? i = some x ∧ pyname x = k) := by
  induction xs using List.reverseRecOn with
  | nil => exact Or.inl ⟨rfl, by simp⟩
  | append_singleton ys y ih =>
    rw [neLast_snoc]
    by_cases hy : pyname y = k
    · refine Or.inr ⟨ys.length, y, by simp [hy], by simp, ?_, hy⟩
      simp
    · rw [if_neg hy]
      rcases ih with ⟨h1, h2⟩ | ⟨i, x, h1, h2, h3, h4⟩
      · refine Or.inl ⟨h1, ?_⟩
        intro x hx
        rcases List.mem_append.mp hx with h | h
        · exact h2 x h
        · simp only [List.mem_singleton] at h
          subst h; exact hy
      · refine Or.inr ⟨i, x, h1, by simp; omega, ?_, h4⟩
        rw [List.get?_eq_getElem?, List.getElem?_append_left h2, ← List.get?_eq_getElem?]
        exact h3

theorem neLast_eq_none_iff {α : Type} [PyName α] (xs : List α) (k : Option String) :
    neLast xs k = none ↔ ∀ x ∈ xs, pyname x ≠ k := by
  rcases neLast_spec xs k with ⟨h1, h2⟩ | ⟨i, x, h1, h2, h3, h4⟩
  · exact ⟨fun _ => h2, fun _ => h1⟩
  · constructor
    · intro h; rw [h] at h1; exact absurd h1 (by simp)
    · intro h
      exact absurd h4 (h x (List.get?_mem h3))

theorem neContainsKey_eq_true_iff {α : Type} [PyName α] (xs : List α) (k : Option String) :
    neContainsKey xs k = true ↔ ∃ x ∈ xs, pyname x = k := by
  unfold neContainsKey
  rw [Option.isSome_iff_ne_none]
  constructor
  · intro h
    rcases neLast_spec xs k with ⟨h1, _⟩ | ⟨i, x, h1, _, h3, h4⟩
    · exact absurd h1 h
    · exact ⟨x, List.get?_mem h3, h4⟩
  · intro ⟨x, hx, hk⟩ hnone
    exact (neLast_eq_none_iff xs k).mp hnone x hx hk

theorem neContainsKey_eq_false_iff {α : Type} [PyName α] (xs : List α) (k : Option String) :
    neContainsKey xs k = false ↔ ∀ x ∈ xs, pyname x ≠ k := by
  rw [← neLast_eq_none_iff]
  unfold neContainsKey
  cases neLast xs k <;> simp

end Pmx

namespace Pmx

/-- Names accepted by NamedElements._validate_item. -/
abbrev okName {α : Type} [PyName α] (x : α) : Prop :=
  pyname x ≠ none ∧ pyname x ≠ some ""

theorem neValidate_ok_iff {α : Type} [PyName α] (x : α) :
    neValidate x = .ok () ↔ okName x := by
  unfold neValidate okName
  rcases hp : pyname x with _ | s
  · simp [hp]
  · by_cases hs : s = "" <;> simp [hp, hs]

theorem neValidate_of_okName {α : Type} [PyName α] (x : α) (h : okName x) :
    neValidate x = .ok () := (neValidate_ok_iff x).mpr h

theorem neAppend_of_okName {α : Type} [PyName α] (xs : List α) (x : α) (h : okName x) :
    neAppend xs x = .ok (xs ++ [x]) := by
  unfold neAppend
  rw [neValidate_of_okName x h]
  rfl

theorem validateAll_ok_iff {α : Type} [PyName α] (ys : List α) :
    validateAll ys = .ok () ↔ ∀ y ∈ ys, okName y := by
  induction ys with
  | nil => simp [validateAll]
  | cons y ys ih =>
    show (neValidate y >>= fun _ => validateAll ys) = .ok () ↔ _
    rcases h : neValidate y with e | u
    · simp only [h, List.mem_cons]
      constructor
      · intro hc; exact absurd hc (by simp [Bind.bind, Except.bind])
      · intro hc
        have := (neValidate_ok_iff y).mpr (hc y (Or.inl rfl))
        rw [h] at this
        exact absurd this (by simp)
    · obtain rfl : u = () := rfl
      have hy : okName y := (neValidate_ok_iff y).mp h
      simp only [h, List.mem_cons]
      constructor
      · intro hc z hz
        rcases hz with hz | hz
        · subst hz; exact hy
        · refine (ih.mp ?_) z hz
          simpa [Bind.bind, Except.bind] using hc
      · intro hc
        have := ih.mpr (fun z hz => hc z (Or.inr hz))
        simpa [Bind.bind, Except.bind] using this

end Pmx

namespace Pmx

/-!
Claim C3 — index byte-width boundaries.
-/

/-- C3 counterexample: no signedness matches the claimed width list
{1,1,1,2,2,4,2,4}.  All named-element categories use the signed rule
(updateIndexSizes passes signed=True for texture/material/bone/morph/rigid,
see mkHeader), which gives width 2 at 128 where the claim demands 1; the
unsigned (vertex) rule gives 2 at 32768 where the claim demands 4, and the
signed rule gives 4 at 65535 where the claim demands 2. -/
theorem C3_counterexample :
    getIndexSize 128 true = 2 ∧ getIndexSize 128 true ≠ 1 ∧
    getIndexSize 32768 false = 2 ∧ getIndexSize 32768 false ≠ 4 ∧
    getIndexSize 65535 true = 4 ∧ getIndexSize 65535 true ≠ 2 := by decide

/-- C3 amended: Header.__getIndexSize selects, at collection sizes
127/128/255/256/32767/32768/65535/65536, the widths 1/2/2/2/2/4/4/4 for the
signed categories (texture, material, bone, morph, rigid) and
1/1/1/2/2/2/2/4 for the unsigned vertex category: 1 byte for unsigned
counts below 256 (signed below 128), 2 bytes below 65536 (signed below
32768), else 4. -/
theorem C3_boundary_widths :
    ([127, 128, 255, 256, 32767, 32768, 65535, 65536].map (fun n => getIndexSize n true)
      = [1, 2, 2, 2, 2, 4, 4, 4]) ∧
    ([127, 128, 255, 256, 32767, 32768, 65535, 65536].map (fun n => getIndexSize n false)
      = [1, 1, 1, 2, 2, 2, 2, 4]) := by decide

/-!
Claim C5 — NamedElements insertion validation.
-/

/-- C5 counterexample: append, insert and extend all ACCEPT an element
whose name ("A") is already held by an element of the collection — no
uniqueness check happens on insertion (only the separate validate() method
checks duplicates). -/
theorem C5_counterexample :
    (mkB "A" "dup").name = "A" ∧ neContainsKey [mkB "A" "olde"] (some "A") = true ∧
    neAppend [mkB "A" "olde"] (mkB "A" "dup") = .ok [mkB "A" "olde", mkB "A" "dup"] ∧
    neInsert [mkB "A" "olde"] 0 (mkB "A" "dup") = .ok [mkB "A" "dup", mkB "A" "olde"] ∧
    neExtend [mkB "A" "olde"] [mkB "A" "dup"] = .ok [mkB "A" "olde", mkB "A" "dup"] := by
  decide

/-- C5 amended: append, insert and extend reject exactly the elements whose
name is missing (None) or empty; duplicate names are NOT rejected, so a
collection built through these operations has non-empty — but not
necessarily unique — element names. -/
theorem C5_insertion_validates_empty_names_only {α : Type} [PyName α]
    (xs ys : List α) (i : Nat) (x : α)
    (hxs : ∀ z ∈ xs, okName z) :
    (neAppend xs x = .ok (xs ++ [x]) ↔ okName x) ∧
    (neInsert xs i x = .ok (xs.take i ++ x :: xs.drop i) ↔ okName x) ∧
    (neExtend xs ys = .ok (xs ++ ys) ↔ ∀ y ∈ ys, okName y) ∧
    ((∃ e, neAppend xs x = .error e) ↔ ¬ okName x) ∧
    (okName x → ∀ z ∈ xs ++ [x], okName z) := by
  have happ : ∀ u : Unit → P (List α), (neValidate x >>= u) = u () ∨
      ((∃ e, (neValidate x >>= u) = .error e) ∧ ¬ okName x) := by
    intro u
    rcases h : neValidate x with e | w
    · refine Or.inr ⟨⟨e, by simp [Bind.bind, Except.bind]⟩, ?_⟩
      intro hok
      rw [neValidate_of_okName x hok] at h
      exact absurd h (by simp)
    · obtain rfl : w = () := rfl
      exact Or.inl (by simp [Bind.bind, Except.bind])
  refine ⟨?_, ?_, ?_, ?_, ?_⟩
  · constructor
    · intro h
      by_contra hok
      rcases h' : neValidate x with e | w
      · unfold neAppend at h
        rw [h'] at h
        exact absurd h (by simp [Bind.bind, Except.bind])
      · exact hok ((neValidate_ok_iff x).mp (by rw [h']))
    · exact neAppend_of_okName xs x
  · constructor
    · intro h
      by_contra hok
      rcases h' : neValidate x with e | w
      · unfold neInsert at h
        rw [h'] at h
        exact absurd h (by simp [Bind.bind, Except.bind])
      · exact hok ((neValidate_ok_iff x).mp (by rw [h']))
    · intro hok
      unfold neInsert
      rw [neValidate_of_okName x hok]
      rfl
  · constructor
    · intro h
      refine (validateAll_ok_iff ys).mp ?_
      by_contra hva
      rcases h' : validateAll ys with e | w
      · unfold neExtend at h
        rw [h'] at h
        exact absurd h (by simp [Bind.bind, Except.bind])
      · obtain rfl : w = () := rfl
        exact hva h'
    · intro hok
      unfold neExtend
      rw [(validateAll_ok_iff ys).mpr hok]
      rfl
  · constructor
    · intro ⟨e, he⟩ hok
      rw [neAppend_of_okName xs x hok] at he
      exact absurd he (by simp)
    · intro hok
      rcases h' : neValidate x with e | w
      · exact ⟨e, by unfold neAppend; rw [h']; simp [Bind.bind, Except.bind]⟩
      · exact absurd ((neValidate_ok_iff x).mp (by rw [h'])) hok
  · intro hok z hz
    rcases List.mem_append.mp hz with h | h
    · exact hxs z h
    · simp only [List.mem_singleton] at h
      subst h; exact hok

/-- C5 witness. -/
theorem C5_witness :
    (∀ z ∈ [mkB "A" "olde"], okName z) ∧
    ((neAppend [mkB "A" "olde"] (mkB "C" "") = .ok ([mkB "A" "olde"] ++ [mkB "C" ""]) ↔ okName (mkB "C" "")) ∧
     (neInsert [mkB "A" "olde"] 0 (mkB "C" "") = .ok (([mkB "A" "olde"]).take 0 ++ mkB "C" "" :: ([mkB "A" "olde"]).drop 0) ↔ okName (mkB "C" "")) ∧
     (neExtend [mkB "A" "olde"] [mkB "B" "x"] = .ok ([mkB "A" "olde"] ++ [mkB "B" "x"]) ↔ ∀ y ∈ [mkB "B" "x"], okName y) ∧
     ((∃ e, neAppend [mkB "A" "olde"] (mkB "C" "") = .error e) ↔ ¬ okName (mkB "C" "")) ∧
     (okName (mkB "C" "") → ∀ z ∈ [mkB "A" "olde"] ++ [mkB "C" ""], okName z)) :=
  ⟨by decide, C5_insertion_validates_empty_names_only [mkB "A" "olde"] [mkB "B" "x"] 0 (mkB "C" "") (by decide)⟩

end Pmx

namespace Pmx

/-!
Claim C6 — joint truncation tolerance.
-/

/-- C6 counterexample: a decode failure BEFORE the required fields are read
(the stream ends after name/name_e/mode, so neither rigid reference was
read) is still caught and defaulted — Joint.__init__ sets src/dst to the
empty string, not None, so the guard does not fire and the document gets a
joint with empty-string rigid references instead of a hard error. -/
theorem C6_counterexample :
    jointLoad [] [Tok.str "J", Tok.str "", Tok.sbyte 0]
      = .ok ({ Joint.init with name := "J", location := [0, 0, 0], rotation := [0, 0, 0], maximum_location := [0, 0, 0], minimum_location := [0, 0, 0], maximum_rotation := [0, 0, 0], minimum_rotation := [0, 0, 0], spring_constant := [0, 0, 0], spring_rotation_constant := [0, 0, 0] }, []) ∧
    Joint.init.src_rigid = some "" ∧ Joint.init.src_rigid ≠ none := by decide

/-- C6 amended: when Joint._load fails with a decode error, the failure is
re-raised exactly when the source or destination rigid field is None —
i.e. when a rigid index was read but resolved to no rigid; otherwise
(including failures before any required field is read, where the fields
still hold their empty-string initial value) the optional vector fields of
the partially read joint are defaulted to zero and the joint is accepted. -/
theorem C6_truncation_guard_is_none_check (rigids : List RigidBody) (ts ts' : List Tok) (j : Joint)
    (h : joint_Load rigids Joint.init ts = .error (.structError, j, ts')) :
    (jointLoad rigids ts = .error .structError ↔ (j.src_rigid = none ∨ j.dst_rigid = none)) ∧
    (¬ (j.src_rigid = none ∨ j.dst_rigid = none) →
      jointLoad rigids ts = .ok ({ j with
        location := orZero3 j.location
        rotation := orZero3 j.rotation
        maximum_location := orZero3 j.maximum_location
        minimum_location := orZero3 j.minimum_location
        maximum_rotation := orZero3 j.maximum_rotation
        minimum_rotation := orZero3 j.minimum_rotation
        spring_constant := orZero3 j.spring_constant
        spring_rotation_constant := orZero3 j.spring_rotation_constant }, ts')) := by
  have hmain : jointLoad rigids ts =
      if j.src_rigid = none ∨ j.dst_rigid = none then .error .structError
      else .ok ({ j with
        location := orZero3 j.location
        rotation := orZero3 j.rotation
        maximum_location := orZero3 j.maximum_location
        minimum_location := orZero3 j.minimum_location
        maximum_rotation := orZero3 j.maximum_rotation
        minimum_rotation := orZero3 j.minimum_rotation
        spring_constant := orZero3 j.spring_constant
        spring_rotation_constant := orZero3 j.spring_rotation_constant }, ts') := by
    simp only [jointLoad, h]
    rw [if_pos trivial]
  rw [hmain]
  by_cases hc : j.src_rigid = none ∨ j.dst_rigid = none
  · rw [if_pos hc]
    exact ⟨⟨fun _ => hc, fun _ => rfl⟩, fun hn => absurd hc hn⟩
  · rw [if_neg hc]
    refine ⟨⟨fun hres => absurd hres (by simp), fun hcc => absurd hcc hc⟩, fun _ => rfl⟩

/-- C6 witness: with the stream ending right after the source-rigid index
read as -1 (resolving to None), the guard fires and the decode failure is
re-raised. -/
theorem C6_witness :
    joint_Load [] Joint.init [Tok.str "J", Tok.str "", Tok.sbyte 0, Tok.sidx (-1)]
      = .error (.structError, { Joint.init with name := "J", src_rigid := none }, []) ∧
    jointLoad [] [Tok.str "J", Tok.str "", Tok.sbyte 0, Tok.sidx (-1)] = .error .structError := by
  refine ⟨by decide, ?_⟩
  exact (C6_truncation_guard_is_none_check [] _ []
          { Joint.init with name := "J", src_rigid := none } (by decide)).1.mpr
        (Or.inl (by decide))

/-!
Claim C1 — bones/materials are NOT implicitly appended.
-/

/-- C1: with an append set omitting BONE and MATERIAL, merge_models leaves
the base untouched although the patch holds a bone ("B") and a material
("N") whose names are absent from the base — the append blocks are gated
on 'BONE' in append / 'MATERIAL' in append, contradicting the tool's
documented policy (pmxmerge.py NOTE: "Bones and Materials are always
appended, even if not specified in the append options"). -/
theorem C1_no_implicit_bone_material_append :
    merge_models baseA patchB [] [] = .ok baseA ∧
    merge_models baseA patchB ["MORPH", "PHYSICS", "DISPLAY"] ["MORPH", "PHYSICS", "DISPLAY"]
      = .ok baseA ∧
    ("B" ∈ patchB.bones.map Bone.name ∧ "B" ∉ baseA.bones.map Bone.name) ∧
    ("N" ∈ patchB.materials.map Material.name ∧ "N" ∉ baseA.materials.map Material.name) := by
  decide

/-!
Claim C4 — merge_pmx_files error handling.
-/

/-- C4: the failure modes short of saving do return (False, message), but a
SAVE failure escapes as an exception: save_pmx_file re-raises after logging
(its `except` block ends in `raise`), and merge_pmx_files never catches it
— the `if not ret` branch after the call is unreachable.  Here the
environment's save fails, both documents are valid, and the call yields the
escaped exception instead of a (False, message) tuple. -/
theorem C4_save_failure_escapes :
    validate_elements baseA = false ∧ validate_elements patchNew = false ∧
    merge_pmx_files envFailSave "base.pmx" "patch.pmx" "out.pmx" ["BONE"] []
      = ⟨.error (.valueError "save failed"), none⟩ ∧
    (merge_pmx_files envFailSave "" "patch.pmx" "out.pmx" ["BONE"] []).ret
      = .ok (false, "Base, patch and output paths must be specified.") ∧
    (merge_pmx_files envFailSave "base.pmx" "base.pmx" "out.pmx" ["BONE"] []).ret
      = .ok (false, "Base and patch files cannot be the same.") ∧
    (merge_pmx_files envFailSave "nofile.pmx" "patch.pmx" "out.pmx" ["BONE"] []).ret
      = .ok (false, "Failed to load base model from 'nofile.pmx'. Please check the file path and format.") := by
  decide

end Pmx

namespace Pmx

theorem neLast_some_props {α : Type} [PyName α] {xs : List α} {k : Option String}
    {i : Nat} {x : α} (h : neLast xs k = some (i, x)) :
    i < xs.length ∧ xs.get? i = some x ∧ pyname x = k := by
  rcases neLast_spec xs k with ⟨h1, _⟩ | ⟨i', x', h1, h2, h3, h4⟩
  · rw [h] at h1; exact absurd h1 (by simp)
  · have := h.symm.trans h1
    simp only [Option.some.injEq, Prod.mk.injEq] at this
    obtain ⟨rfl, rfl⟩ := this
    exact ⟨h2, h3, h4⟩

theorem neLast_nodup_get {α : Type} [PyName α] {xs : List α}
    (hnd : (xs.map pyname).Nodup) {j : Nat} (hj : j < xs.length) :
    neLast xs (pyname (xs.get ⟨j, hj⟩)) = some (j, xs.get ⟨j, hj⟩) := by
  set k := pyname (xs.get ⟨j, hj⟩) with hk
  have hex : ∃ x ∈ xs, pyname x = k := ⟨xs.get ⟨j, hj⟩, List.get_mem xs j hj, rfl⟩
  rcases hlast : neLast xs k with _ | ⟨i, x⟩
  · exact absurd hex (by simpa using (neLast_eq_none_iff xs k).mp hlast)
  · obtain ⟨hi, hget, hpy⟩ := neLast_some_props hlast
    have hij : i = j := by
      have h1 : (xs.map pyname).get? i = some k := by
        rw [List.get?_map, hget]; simp [hpy]
      have h2 : (xs.map pyname).get? j = some k := by
        rw [List.get?_map, List.get?_eq_get hj]
        simp [hk]
      have hlen : i < (xs.map pyname).length := by simpa using hi
      have hlen2 : j < (xs.map pyname).length := by simpa using hj
      exact List.get?_inj hlen hnd (h1.trans h2.symm)
    subst hij
    have : x = xs.get ⟨i, hi⟩ := by
      have := hget
      rw [List.get?_eq_get hi] at this
      exact (Option.some.injEq _ _ ▸ this).symm
    rw [this]

/-- Evaluation of the patch-bone append generator loop when every patch
name is new: every element is appended, in order. -/
theorem foldAppend_all_new {α : Type} [PyName α] (nm : α → String)
    (hpy : ∀ x : α, pyname x = some (nm x)) (xs : List α) :
    ∀ base : List α,
      (∀ x ∈ xs, ∀ b ∈ base, nm b ≠ nm x) →
      (xs.map nm).Nodup →
      (∀ x ∈ xs, nm x ≠ "") →
      xs.foldlM (fun bs b => if ¬ neContainsKey bs (some (nm b)) then neAppend bs b else pure bs) base
        = .ok (base ++ xs) := by
  induction xs with
  | nil => intro base _ _ _; simp [List.foldlM_nil]; rfl
  | cons x rest ih =>
    intro base habs hnd hne
    have hc : neContainsKey base (some (nm x)) = false := by
      rw [neContainsKey_eq_false_iff]
      intro b hb
      rw [hpy b]
      intro he
      injection he with he
      exact habs x (List.mem_cons_self x rest) b hb he
    have hok : okName x := by
      constructor
      · rw [hpy x]; simp
      · rw [hpy x]
        intro he; injection he with he
        exact hne x (List.mem_cons_self x rest) he
    have hnd2 := List.nodup_cons.mp (show (nm x :: rest.map nm).Nodup by simpa using hnd)
    rw [List.foldlM_cons, hc]
    simp only [Bool.false_eq_true, not_false_eq_true, if_true,
      neAppend_of_okName base x hok]
    show rest.foldlM _ (base ++ [x]) = _
    have habs2 : ∀ y ∈ rest, ∀ b ∈ base ++ [x], nm b ≠ nm y := by
      intro y hy b hb
      rcases List.mem_append.mp hb with hb | hb
      · exact habs y (List.mem_cons_of_mem x hy) b hb
      · simp only [List.mem_singleton] at hb
        subst hb
        intro he
        exact hnd2.1 (he ▸ List.mem_map_of_mem nm hy)
    rw [ih (base ++ [x]) habs2 hnd2.2 (fun y hy => hne y (List.mem_cons_of_mem x hy))]
    rw [List.append_assoc]
    rfl

end Pmx

namespace Pmx

theorem P_bind_ok {α β : Type} (a : α) (f : α → P β) :
    (Except.ok a : P α) >>= f = f a := rfl

theorem P_bind_err {α β : Type} (e : PErr) (f : α → P β) :
    (Except.error e : P α) >>= f = .error e := rfl

theorem P_pure_eq {α : Type} (a : α) : (pure a : P α) = .ok a := rfl

theorem P_pure_bind {α β : Type} (a : α) (f : α → P β) :
    (pure a : P α) >>= f = f a := rfl

theorem P_bindb_ok {α β : Type} (a : α) (f : α → P β) :
    bind (Except.ok a : P α) f = f a := rfl

theorem P_bindb_pure {α β : Type} (a : α) (f : α → P β) :
    bind (pure a : P α) f = f a := rfl

/-!
Claim C10 — append-only bone merge.
-/

/-- C10: merging a patch whose bone names are all absent from the base
(with valid, uniquely and non-emptily named patch bones, as guaranteed by
the pre-merge validation gate) using append={BONE}, update={} returns the
base model completely unchanged except that exactly the patch's bones are
appended, in patch order, at the end of the bone list. -/
theorem C10_append_only_bones (base patch : Model)
    (habs : ∀ x ∈ patch.bones, ∀ b ∈ base.bones, b.name ≠ x.name)
    (hnd : (patch.bones.map Bone.name).Nodup)
    (hne : ∀ x ∈ patch.bones, x.name ≠ "") :
    merge_models base patch ["BONE"] []
      = .ok { base with bones := base.bones ++ patch.bones } := by
  have hfold := foldAppend_all_new Bone.name (fun _ => rfl) patch.bones base.bones habs hnd hne
  have h1 : append_update_bones base patch ["BONE"] []
      = .ok { base with bones := base.bones ++ patch.bones } := by
    unfold append_update_bones
    rw [if_neg (by decide)]
    rw [if_pos (by decide)]
    rw [hfold]
    rw [P_bind_ok]
    simp only [P_pure_bind]
    rw [if_neg (by decide)]
    rfl
  have h2 : ∀ m : Model, append_update_material m patch ["BONE"] [] = .ok m := by
    intro m
    unfold append_update_material
    rw [if_pos (by decide)]
    rfl
  have h3 : ∀ m : Model, append_update_morphs m patch ["BONE"] [] = .ok m := by
    intro m
    unfold append_update_morphs
    rw [if_pos (by decide)]
    rfl
  have h4 : ∀ m : Model, append_update_physics m patch ["BONE"] [] = .ok m := by
    intro m
    unfold append_update_physics
    rw [if_pos (by decide)]
    rfl
  have h5 : ∀ m : Model, append_update_displayitems m patch ["BONE"] [] = .ok m := by
    intro m
    unfold append_update_displayitems
    rw [if_pos (by decide)]
    rfl
  unfold merge_models
  rw [h1, P_bind_ok, h2, P_bind_ok, h3, P_bind_ok, h4, P_bind_ok, h5]

/-- C10 witness. -/
theorem C10_witness :
    (∀ x ∈ patchNew.bones, ∀ b ∈ baseA.bones, b.name ≠ x.name) ∧
    (patchNew.bones.map Bone.name).Nodup ∧
    (∀ x ∈ patchNew.bones, x.name ≠ "") ∧
    merge_models baseA patchNew ["BONE"] []
      = .ok { baseA with bones := baseA.bones ++ patchNew.bones } :=
  ⟨by decide, by decide, by decide,
   C10_append_only_bones baseA patchNew (by decide) (by decide) (by decide)⟩

end Pmx

namespace Pmx

theorem updMap_name {α : Type} [PyName α] (nm : α → String)
    (hpy : ∀ x : α, pyname x = some (nm x))
    (f : α → α → α) (hf : ∀ t b, nm b = nm t → nm (f t b) = nm t)
    (q : List α) (b : α) : nm (updMap f q b) = nm b := by
  unfold updMap
  rcases h : neLast q (pyname b) with _ | ⟨i, x⟩
  · rfl
  · obtain ⟨_, _, hx⟩ := neLast_some_props h
    rw [hpy x, hpy b] at hx
    injection hx with hx
    exact hf b x hx

theorem updMap_nil {α : Type} [PyName α] (f : α → α → α) (base : List α) :
    base.map (updMap f []) = base :=
  List.map_congr_left (fun _ _ => rfl) |>.trans (List.map_id base)

theorem updMap_snoc_match {α : Type} [PyName α] (nm : α → String)
    (hpy : ∀ x : α, pyname x = some (nm x))
    (f : α → α → α) (p : List α) (x b : α) (h : nm b = nm x) :
    updMap f (p ++ [x]) b = f (updMap f p b) x ∨
    (updMap f (p ++ [x]) b = f b x ∧ ((∀ y ∈ p, nm y ≠ nm b) → updMap f p b = b)) := by
  right
  constructor
  · unfold updMap
    rw [neLast_snoc]
    rw [if_pos (by rw [hpy x, hpy b, h])]
  · intro hp
    unfold updMap
    rw [(neLast_eq_none_iff p (pyname b)).mpr]
    intro y hy
    rw [hpy y, hpy b]
    intro he
    injection he with he
    exact hp y hy he

theorem updMap_snoc_nomatch {α : Type} [PyName α] (nm : α → String)
    (hpy : ∀ x : α, pyname x = some (nm x))
    (f : α → α → α) (p : List α) (x b : α) (h : nm b ≠ nm x) :
    updMap f (p ++ [x]) b = updMap f p b := by
  unfold updMap
  rw [neLast_snoc]
  rw [if_neg ?_]
  rw [hpy x, hpy b]
  intro he
  injection he with he
  exact h he.symm

end Pmx

namespace Pmx

theorem updMap_map_pyname {α : Type} [PyName α] (nm : α → String)
    (hpy : ∀ x : α, pyname x = some (nm x))
    (f : α → α → α) (hf : ∀ t b, nm b = nm t → nm (f t b) = nm t)
    (base p : List α) :
    (base.map (updMap f p)).map pyname = base.map pyname := by
  rw [List.map_map]
  apply List.map_congr_left
  intro b _
  show pyname (updMap f p b) = pyname b
  rw [hpy (updMap f p b), hpy b, updMap_name nm hpy f hf p b]

theorem pynames_nodup_of_names {α : Type} [PyName α] (nm : α → String)
    (hpy : ∀ x : α, pyname x = some (nm x)) (base : List α)
    (hnd : (base.map nm).Nodup) : (base.map pyname).Nodup := by
  have h1 : base.map pyname = (base.map nm).map some := by
    rw [List.map_map]
    exact List.map_congr_left (fun b _ => hpy b)
  rw [h1]
  exact hnd.map (fun a b h => Option.some_injective _ h)

theorem updMap_set_match {α : Type} [PyName α] (nm : α → String)
    (hpy : ∀ x : α, pyname x = some (nm x))
    (f : α → α → α) (hf : ∀ t b, nm b = nm t → nm (f t b) = nm t)
    (base : List α) (hnd : (base.map nm).Nodup) (p : List α) (x : α)
    (hxp : ∀ y ∈ p, nm y ≠ nm x)
    (j : Nat) (hj : j < base.length) (hname : nm (base.get ⟨j, hj⟩) = nm x) :
    neLast (base.map (updMap f p)) (some (nm x))
      = some (j, updMap f p (base.get ⟨j, hj⟩)) ∧
    updMap f p (base.get ⟨j, hj⟩) = base.get ⟨j, hj⟩ ∧
    (base.map (updMap f p)).set j (f (base.get ⟨j, hj⟩) x)
      = base.map (updMap f (p ++ [x])) := by
  have hjm : j < (base.map (updMap f p)).length := by simpa using hj
  have hget : (base.map (updMap f p)).get ⟨j, hjm⟩ = updMap f p (base.get ⟨j, hj⟩) := by
    simp [List.getElem_map]
  have hndm : ((base.map (updMap f p)).map pyname).Nodup := by
    rw [updMap_map_pyname nm hpy f hf base p]
    exact pynames_nodup_of_names nm hpy base hnd
  have hpos := neLast_nodup_get hndm hjm
  rw [hget] at hpos
  have hpn : pyname (updMap f p (base.get ⟨j, hj⟩)) = some (nm x) := by
    rw [hpy, updMap_name nm hpy f hf, hname]
  rw [hpn] at hpos
  have hid : updMap f p (base.get ⟨j, hj⟩) = base.get ⟨j, hj⟩ := by
    unfold updMap
    rw [(neLast_eq_none_iff p (pyname (base.get ⟨j, hj⟩))).mpr]
    intro y hy
    rw [hpy y, hpy (base.get ⟨j, hj⟩), hname]
    intro he
    injection he with he
    exact hxp y hy he
  refine ⟨hpos, hid, ?_⟩
  apply List.ext_getElem
  · simp
  · intro i hi1 hi2
    have hibase : i < base.length := by simpa using hi2
    have hR : (base.map (updMap f (p ++ [x])))[i] = updMap f (p ++ [x]) (base[i]) := by
      simp [List.getElem_map]
    rw [hR, List.getElem_set]
    by_cases hij : j = i
    · subst hij
      rw [if_pos rfl]
      have hgj : base[j] = base.get ⟨j, hj⟩ := rfl
      have h1 : updMap f (p ++ [x]) (base[j]) = f (base[j]) x := by
        unfold updMap
        rw [neLast_snoc, if_pos ?_]
        rw [hpy x, hpy (base[j])]
        rw [hgj, hname]
      rw [h1, hgj]
    · rw [if_neg hij]
      have hmi : i < (base.map (updMap f p)).length := by simpa using hibase
      have hL0 : (base.map (updMap f p))[i] = updMap f p (base[i]) := by
        simp [List.getElem_map]
      rw [hL0]
      apply (updMap_snoc_nomatch nm hpy f p x _ ?_).symm
      intro he
      apply hij
      have hmj : j < (base.map nm).length := by simpa using hj
      have hmi2 : i < (base.map nm).length := by simpa using hibase
      have hjj : (base.map nm)[j] = (base.map nm)[i] := by
        rw [List.getElem_map, List.getElem_map]
        show nm (base[j]) = nm (base[i])
        have hgj : base[j] = base.get ⟨j, hj⟩ := rfl
        rw [hgj, hname, he]
      exact (List.Nodup.getElem_inj_iff hnd).mp hjj

theorem updMap_append_nomatch {α : Type} [PyName α] (nm : α → String)
    (hpy : ∀ x : α, pyname x = some (nm x))
    (f : α → α → α) (base p : List α) (x : α)
    (habs : ∀ b ∈ base, nm b ≠ nm x) :
    base.map (updMap f (p ++ [x])) = base.map (updMap f p) := by
  apply List.map_congr_left
  intro b hb
  exact updMap_snoc_nomatch nm hpy f p x b (habs b hb)

end Pmx

namespace Pmx

theorem nodup_head_not_in_prefix {α : Type} (nm : α → String) (p : List α) (x : α)
    (rest : List α) (hnd : ((p ++ x :: rest).map nm).Nodup) :
    ∀ y ∈ p, nm y ≠ nm x := by
  intro y hy he
  rw [List.map_append] at hnd
  have hdisj := (List.nodup_append.mp hnd).2.2
  exact hdisj (List.mem_map_of_mem nm hy) (by rw [he]; simp)

theorem nodup_shift {α : Type} (nm : α → String) (p : List α) (x : α) (rest : List α)
    (hnd : ((p ++ x :: rest).map nm).Nodup) : (((p ++ [x]) ++ rest).map nm).Nodup := by
  rw [List.append_assoc]
  simpa using hnd

/-- Evaluation of a name-matching in-place update loop (the BONE_LOC /
BONE_SETTING loop): each patch element with a name present in the base
mutates the cached slot via `f`, others are skipped. -/
theorem foldModify_update {α : Type} [PyName α] (nm : α → String)
    (hpy : ∀ x : α, pyname x = some (nm x))
    (f : α → α → α) (hf : ∀ t b, nm b = nm t → nm (f t b) = nm t)
    (base : List α) (hnd : (base.map nm).Nodup) :
    ∀ (xs p : List α), ((p ++ xs).map nm).Nodup →
      xs.foldl (fun bs b =>
          if neContainsKey bs (some (nm b)) then
            neModifyLast bs (nm b) (fun t => f t b)
          else bs) (base.map (updMap f p))
        = base.map (updMap f (p ++ xs)) := by
  intro xs
  induction xs with
  | nil => intro p _; simp
  | cons x rest ih =>
    intro p hnd2
    rw [List.foldl_cons]
    have hxp : ∀ y ∈ p, nm y ≠ nm x := nodup_head_not_in_prefix nm p x rest hnd2
    by_cases hex : ∃ b ∈ base, nm b = nm x
    · obtain ⟨b, hb, hbn⟩ := hex
      obtain ⟨j, hj, hjb⟩ := List.mem_iff_getElem.mp hb
      have hname : nm (base.get ⟨j, hj⟩) = nm x := by
        show nm (base[j]) = nm x
        rw [hjb, hbn]
      obtain ⟨hpos, hid, hset⟩ :=
        updMap_set_match nm hpy f hf base hnd p x hxp j hj hname
      have hc : neContainsKey (base.map (updMap f p)) (some (nm x)) = true := by
        rw [neContainsKey_eq_true_iff]
        exact ⟨updMap f p (base.get ⟨j, hj⟩),
          List.mem_map_of_mem _ (List.get_mem base j hj),
          by rw [hpy, updMap_name nm hpy f hf, hname]⟩
      rw [if_pos hc]
      have hmod : neModifyLast (base.map (updMap f p)) (nm x) (fun t => f t x)
          = (base.map (updMap f p)).set j (f (updMap f p (base.get ⟨j, hj⟩)) x) := by
        unfold neModifyLast
        rw [hpos]
      rw [hmod, hid, hset]
      have := ih (p ++ [x]) (nodup_shift nm p x rest hnd2)
      rw [this, List.append_assoc]
      rfl
    · push_neg at hex
      have hc : neContainsKey (base.map (updMap f p)) (some (nm x)) = false := by
        rw [neContainsKey_eq_false_iff]
        intro m hm
        obtain ⟨b, hb, rfl⟩ := List.mem_map.mp hm
        rw [hpy, updMap_name nm hpy f hf]
        intro he
        injection he with he
        exact hex b hb he
      rw [if_neg (by rw [hc]; simp)]
      have hskip : base.map (updMap f (p ++ [x])) = base.map (updMap f p) :=
        updMap_append_nomatch nm hpy f base p x hex
      have := ih (p ++ [x]) (nodup_shift nm p x rest hnd2)
      rw [hskip] at this
      rw [this, List.append_assoc]
      rfl

end Pmx

namespace Pmx

theorem neSetIdx_nat {α : Type} [PyName α] (xs : List α) (j : Nat) (x : α)
    (hok : okName x) (hj : j < xs.length) :
    neSetIdx xs (j : Int) x = .ok (xs.set j x) := by
  unfold neSetIdx
  rw [neValidate_of_okName x hok, P_bind_ok]
  show (if 0 ≤ (if (j : Int) < 0 then (j : Int) + xs.length else (j : Int)) ∧
          (if (j : Int) < 0 then (j : Int) + xs.length else (j : Int)) < (xs.length : Int)
        then (pure (xs.set ((if (j : Int) < 0 then (j : Int) + xs.length else (j : Int))).toNat x) : P (List α))
        else Except.error PErr.indexError) = Except.ok (xs.set j x)
  rw [if_neg (by omega : ¬ ((j : Int) < 0))]
  rw [if_pos (by refine ⟨by omega, by exact_mod_cast hj⟩)]
  have htn : ((j : Int)).toNat = j := by omega
  rw [htn]
  rfl

/-- Evaluation of a wholesale name-matching replacement loop
(MAT_SETTING / PHYSICS / DISPLAY update): each patch element with a name
present in the base replaces the full record at the cached index. -/
theorem foldSetIdx_update {α : Type} [PyName α] (nm : α → String)
    (hpy : ∀ x : α, pyname x = some (nm x))
    (base : List α) (hnd : (base.map nm).Nodup) :
    ∀ (xs p : List α), ((p ++ xs).map nm).Nodup →
      (∀ x ∈ xs, nm x ≠ "") →
      xs.foldlM (fun ms m =>
          if neContainsKey ms (some (nm m)) then do
            let i := neIndexStr ms (nm m)
            neSetIdx ms i m
          else pure ms) (base.map (updMap (fun _ b => b) p))
        = .ok (base.map (updMap (fun _ b => b) (p ++ xs))) := by
  have hf : ∀ t b : α, nm b = nm t → nm ((fun _ b => b : α → α → α) t b) = nm t :=
    fun t b h => h
  intro xs
  induction xs with
  | nil => intro p _ _; simp [List.foldlM_nil]; rfl
  | cons x rest ih =>
    intro p hnd2 hne
    rw [List.foldlM_cons]
    have hxp : ∀ y ∈ p, nm y ≠ nm x := nodup_head_not_in_prefix nm p x rest hnd2
    have hnerest : ∀ y ∈ rest, nm y ≠ "" := fun y hy => hne y (List.mem_cons_of_mem x hy)
    by_cases hex : ∃ b ∈ base, nm b = nm x
    · obtain ⟨b, hb, hbn⟩ := hex
      obtain ⟨j, hj, hjb⟩ := List.mem_iff_getElem.mp hb
      have hname : nm (base.get ⟨j, hj⟩) = nm x := by
        show nm (base[j]) = nm x
        rw [hjb, hbn]
      obtain ⟨hpos, hid, hset⟩ :=
        updMap_set_match nm hpy (fun _ b => b) hf base hnd p x hxp j hj hname
      have hc : neContainsKey (base.map (updMap (fun _ b => b) p)) (some (nm x)) = true := by
        rw [neContainsKey_eq_true_iff]
        exact ⟨updMap (fun _ b => b) p (base.get ⟨j, hj⟩),
          List.mem_map_of_mem _ (List.get_mem base j hj),
          by rw [hpy, updMap_name nm hpy (fun _ b => b) hf, hname]⟩
      rw [if_pos hc]
      have hidx : neIndexStr (base.map (updMap (fun _ b => b) p)) (nm x) = (j : Int) := by
        unfold neIndexStr
        rw [hpos]
      have hok : okName x := by
        refine ⟨by rw [hpy]; simp, ?_⟩
        rw [hpy]
        intro he
        injection he with he
        exact hne x (List.mem_cons_self x rest) he
      have hstep : neSetIdx (base.map (updMap (fun _ b => b) p)) ((j : Int)) x
          = .ok (base.map (updMap (fun _ b => b) (p ++ [x]))) := by
        rw [neSetIdx_nat _ j x hok (by simpa using hj)]
        rw [show (base.map (updMap (fun _ b => b) p)).set j x
              = base.map (updMap (fun _ b => b) (p ++ [x])) from hset]
      rw [hidx, hstep, P_bind_ok]
      have := ih (p ++ [x]) (nodup_shift nm p x rest hnd2) hnerest
      rw [this, List.append_assoc]
      rfl
    · push_neg at hex
      have hc : neContainsKey (base.map (updMap (fun _ b => b) p)) (some (nm x)) = false := by
        rw [neContainsKey_eq_false_iff]
        intro m hm
        obtain ⟨b, hb, rfl⟩ := List.mem_map.mp hm
        rw [hpy, updMap_name nm hpy (fun _ b => b) hf]
        intro he
        injection he with he
        exact hex b hb he
      rw [if_neg (by rw [hc]; simp)]
      rw [P_pure_bind]
      have hskip : base.map (updMap (fun _ b => b) (p ++ [x]))
          = base.map (updMap (fun _ b => b) p) :=
        updMap_append_nomatch nm hpy (fun _ b => b) base p x hex
      have := ih (p ++ [x]) (nodup_shift nm p x rest hnd2) hnerest
      rw [hskip] at this
      rw [this, List.append_assoc]
      rfl

end Pmx

namespace Pmx

theorem updateBoneWith_loc (t src : Bone) :
    updateBoneWith ["BONE_LOC"] t src
      = { t with name_e := src.name_e
                 location := src.location
                 disp_connection_type := src.disp_connection_type
                 disp_connection_bone := src.disp_connection_bone
                 disp_connection_vector := src.disp_connection_vector } := by
  unfold updateBoneWith
  rw [if_neg (show ¬ ("BONE_SETTING" ∈ ["BONE_LOC"]) by decide)]
  rw [if_pos (show "BONE_LOC" ∈ ["BONE_LOC"] by decide)]
  unfold copyBoneLoc
  rfl

theorem updateBoneWith_loc_name (t src : Bone)
    (_h : src.name = t.name) : (updateBoneWith ["BONE_LOC"] t src).name = t.name := by
  rw [updateBoneWith_loc]

/-!
Claim C7 — what BONE_LOC copies.
-/

/-- C7 counterexample: with update={BONE_LOC}, the secondary name name_e is
ALSO copied from the patch bone (the update loop sets b.name_e
unconditionally before the attribute groups), so the merge copies more
than the spatial fields. -/
theorem C7_counterexample :
    baseA.bones.map Bone.name_e = ["olde"] ∧
    (merge_models baseA patchB [] ["BONE_LOC"]).map (fun m => m.bones.map Bone.name_e)
      = .ok ["newe"] := by decide

/-- C7 amended: with update={BONE_LOC} (and no other categories selected),
for every patch bone whose name exists in the base (both documents having
unique bone names, as the validation gate guarantees), the merge copies
exactly the spatial fields — location, display-connection type, the
disp_connection_bone attribute and the display-connection offset vector —
PLUS the secondary name name_e, from the patch bone onto the name-matching
base bone; everything else in the model is untouched and non-matching
patch bones are ignored. -/
theorem C7_boneloc_copies_spatial_fields_and_name_e (base patch : Model)
    (hndB : (base.bones.map Bone.name).Nodup)
    (hndP : (patch.bones.map Bone.name).Nodup) :
    merge_models base patch [] ["BONE_LOC"]
      = .ok { base with bones :=
          base.bones.map (updMap (updateBoneWith ["BONE_LOC"]) patch.bones) } ∧
    (∀ t src : Bone, updateBoneWith ["BONE_LOC"] t src
      = { t with name_e := src.name_e
                 location := src.location
                 disp_connection_type := src.disp_connection_type
                 disp_connection_bone := src.disp_connection_bone
                 disp_connection_vector := src.disp_connection_vector }) := by
  refine ⟨?_, updateBoneWith_loc⟩
  have hf : ∀ t b : Bone, b.name = t.name → (updateBoneWith ["BONE_LOC"] t b).name = t.name :=
    fun t b h => updateBoneWith_loc_name t b h
  have hfold := foldModify_update Bone.name (fun _ => rfl) (updateBoneWith ["BONE_LOC"]) hf
    base.bones hndB patch.bones [] (by simpa using hndP)
  rw [updMap_nil] at hfold
  have h1 : append_update_bones base patch [] ["BONE_LOC"]
      = .ok { base with bones :=
          base.bones.map (updMap (updateBoneWith ["BONE_LOC"]) patch.bones) } := by
    unfold append_update_bones
    rw [if_neg (show ¬ ("BONE" ∉ ([] : List String) ∧ ("BONE_LOC" ∉ ["BONE_LOC"] ∧ "BONE_SETTING" ∉ ["BONE_LOC"])) by decide)]
    rw [if_neg (show ¬ ("BONE" ∈ ([] : List String)) by decide)]
    simp only [P_pure_bind]
    rw [if_pos (show "BONE_LOC" ∈ ["BONE_LOC"] ∨ "BONE_SETTING" ∈ ["BONE_LOC"] from Or.inl (by decide))]
    rw [show ([] : List Bone) ++ patch.bones = patch.bones from rfl] at hfold
    rw [hfold]
    rfl
  have h2 : ∀ m : Model, append_update_material m patch [] ["BONE_LOC"] = .ok m := by
    intro m
    unfold append_update_material
    rw [if_pos (by decide)]
    rfl
  have h3 : ∀ m : Model, append_update_morphs m patch [] ["BONE_LOC"] = .ok m := by
    intro m
    unfold append_update_morphs
    rw [if_pos (by decide)]
    rfl
  have h4 : ∀ m : Model, append_update_physics m patch [] ["BONE_LOC"] = .ok m := by
    intro m
    unfold append_update_physics
    rw [if_pos (by decide)]
    rfl
  have h5 : ∀ m : Model, append_update_displayitems m patch [] ["BONE_LOC"] = .ok m := by
    intro m
    unfold append_update_displayitems
    rw [if_pos (by decide)]
    rfl
  unfold merge_models
  rw [h1, P_bind_ok, h2, P_bind_ok, h3, P_bind_ok, h4, P_bind_ok, h5]

/-- C7 witness. -/
theorem C7_witness :
    (baseA.bones.map Bone.name).Nodup ∧ (patchB.bones.map Bone.name).Nodup ∧
    (merge_models baseA patchB [] ["BONE_LOC"]
      = .ok { baseA with bones :=
          baseA.bones.map (updMap (updateBoneWith ["BONE_LOC"]) patchB.bones) } ∧
     (∀ t src : Bone, updateBoneWith ["BONE_LOC"] t src
      = { t with name_e := src.name_e
                 location := src.location
                 disp_connection_type := src.disp_connection_type
                 disp_connection_bone := src.disp_connection_bone
                 disp_connection_vector := src.disp_connection_vector })) :=
  ⟨by decide, by decide,
   C7_boneloc_copies_spatial_fields_and_name_e baseA patchB (by decide) (by decide)⟩

end Pmx

namespace Pmx

theorem okName_of_name {α : Type} [PyName α] (nm : α → String)
    (hpy : ∀ x : α, pyname x = some (nm x)) (x : α) (h : nm x ≠ "") : okName x := by
  refine ⟨by rw [hpy]; simp, ?_⟩
  rw [hpy]
  intro he
  injection he with he
  exact h he

theorem foldlM_ok_of_step {α β : Type} (step : β → α → P β) (xs : List α)
    (h : ∀ b : β, ∀ x ∈ xs, ∃ b2, step b x = .ok b2) :
    ∀ b : β, ∃ b2, xs.foldlM step b = .ok b2 := by
  induction xs with
  | nil =>
    intro b
    exact ⟨b, by simp [List.foldlM_nil]; rfl⟩
  | cons x rest ih =>
    intro b
    obtain ⟨b2, hb2⟩ := h b x (List.mem_cons_self x rest)
    rw [List.foldlM_cons, hb2, P_bind_ok]
    exact ih (fun b x hx => h b x (List.mem_cons_of_mem _ hx)) b2

theorem mergeVertexUVMorph_ok (ms : List Morph) (m : Morph) (h : m.name ≠ "") :
    ∃ ms2, mergeVertexUVMorph ms m = .ok ms2 := by
  have hok : okName m := okName_of_name Morph.name (fun _ => rfl) m h
  unfold mergeVertexUVMorph
  by_cases hc : neContainsKey ms (some m.name) = true
  · rw [if_neg (by rw [hc]; simp)]
    rcases hl : neLast ms (some m.name) with _ | ⟨i, bm⟩
    · exact ⟨ms, rfl⟩
    · show ∃ ms2, (if bm.pyClass ≠ m.pyClass then neSetStr ms m.name m
        else pure (ms.set i { bm with kind := extendOffsets bm.kind m.kind })) = .ok ms2
      by_cases hcl : bm.pyClass ≠ m.pyClass
      · rw [if_pos hcl]
        refine ⟨ms.set i m, ?_⟩
        unfold neSetStr
        rw [neValidate_of_okName m hok, P_bind_ok, hl]
        rfl
      · rw [if_neg hcl]
        exact ⟨_, rfl⟩
  · rw [if_pos (by rw [Bool.not_eq_true] at hc; rw [hc]; simp)]
    exact ⟨ms ++ [m], neAppend_of_okName ms m hok⟩

/-!
Claim C9 — MAT_SETTING update-only merge.
-/

/-- C9 counterexample: MAT_SETTING replaces the FULL material record,
faces included — after merging baseA with patchB (whose "M" has an empty
face list), the base material's face list is gone, refuting "changes only
the shading fields ... in particular not their face lists". -/
theorem C9_counterexample :
    baseA.materials.map (fun m => m.faces.length) = [1] ∧
    (merge_models baseA patchB [] ["MAT_SETTING"]).map
        (fun m => m.materials.map (fun x => x.faces.length)) = .ok [0] ∧
    (merge_models baseA patchB [] ["MAT_SETTING"]).map
        (fun m => m.materials.map Material.name) = .ok ["M"] := by decide

/-- C9 amended: merging with update={MAT_SETTING} and append={} (on
documents with unique, non-empty material names, as the validation gate
guarantees) leaves the base's material count and order unchanged, replaces
the whole material record — shading fields AND face list — of every
name-matching base material by the patch record, and silently ignores
patch materials whose names are absent from the base; vertices and bones
are untouched (patch textures and vertex/UV morphs are still merged by the
same routine, which this statement does not constrain). -/
theorem C9_mat_setting_replaces_whole_record (base patch : Model)
    (hndB : (base.materials.map Material.name).Nodup)
    (hndP : (patch.materials.map Material.name).Nodup)
    (hneP : ∀ m ∈ patch.materials, m.name ≠ "")
    (hmo : ∀ mo ∈ patch.morphs, mo.name ≠ "") :
    ∃ M, merge_models base patch [] ["MAT_SETTING"] = .ok M ∧
      M.materials = base.materials.map (updMap (fun _ p => p) patch.materials) ∧
      M.materials.map Material.name = base.materials.map Material.name ∧
      M.materials.length = base.materials.length ∧
      M.vertices = base.vertices ∧ M.bones = base.bones := by
  have hf : ∀ t b : Material, b.name = t.name →
      ((fun _ b => b : Material → Material → Material) t b).name = t.name := fun _ _ h => h
  obtain ⟨MS, hMS⟩ := foldlM_ok_of_step mergeVertexUVMorph
    (patch.morphs.filter (·.isVertexOrUV))
    (fun ms mo hmem => mergeVertexUVMorph_ok ms mo
      (hmo mo (List.mem_of_mem_filter hmem)))
    base.morphs
  have hfold := foldSetIdx_update Material.name (fun _ => rfl) base.materials hndB
    patch.materials [] (by simpa using hndP) hneP
  rw [updMap_nil] at hfold
  rw [show ([] : List Material) ++ patch.materials = patch.materials from rfl] at hfold
  refine ⟨{ base with
      textures := patch.textures.foldl ensure_texture base.textures
      morphs := MS
      materials := base.materials.map (updMap (fun _ p => p) patch.materials) },
    ?_, rfl, ?_, by simp, rfl, rfl⟩
  · have h1 : ∀ m : Model, append_update_bones m patch [] ["MAT_SETTING"] = .ok m := by
      intro m
      unfold append_update_bones
      rw [if_pos (by decide)]
      rfl
    have h3 : ∀ m : Model, append_update_morphs m patch [] ["MAT_SETTING"] = .ok m := by
      intro m
      unfold append_update_morphs
      rw [if_pos (by decide)]
      rfl
    have h4 : ∀ m : Model, append_update_physics m patch [] ["MAT_SETTING"] = .ok m := by
      intro m
      unfold append_update_physics
      rw [if_pos (by decide)]
      rfl
    have h5 : ∀ m : Model, append_update_displayitems m patch [] ["MAT_SETTING"] = .ok m := by
      intro m
      unfold append_update_displayitems
      rw [if_pos (by decide)]
      rfl
    have h2 : append_update_material base patch [] ["MAT_SETTING"]
        = .ok { base with
            textures := patch.textures.foldl ensure_texture base.textures
            morphs := MS
            materials := base.materials.map (updMap (fun _ p => p) patch.materials) } := by
      unfold append_update_material
      rw [if_neg (show ¬ ("MATERIAL" ∉ ([] : List String) ∧
        ("MAT_GEOM" ∉ ["MAT_SETTING"] ∧ "MAT_SETTING" ∉ ["MAT_SETTING"])) by decide)]
      rw [if_neg (show ¬ ("MATERIAL" ∈ ([] : List String) ∨ "MAT_GEOM" ∈ ["MAT_SETTING"]) by decide)]
      rw [if_neg (show ¬ ("MATERIAL" ∈ ([] : List String)) by decide)]
      simp only [P_bindb_pure]
      rw [if_neg (show ¬ ("MAT_GEOM" ∈ ["MAT_SETTING"]) by decide)]
      try simp only [P_bindb_pure]
      rw [hMS]
      try simp only [P_bindb_ok]
      rw [if_pos (show "MAT_SETTING" ∈ ["MAT_SETTING"] by decide)]
      rw [hfold]
      try simp only [P_bindb_ok]
      rfl
    unfold merge_models
    rw [h1, P_bind_ok, h2, P_bind_ok, h3, P_bind_ok, h4, P_bind_ok, h5]
  · rw [List.map_map]
    apply List.map_congr_left
    intro b _
    exact updMap_name Material.name (fun _ => rfl) (fun _ p => p) hf patch.materials b

/-- C9 witness. -/
theorem C9_witness :
    (baseA.materials.map Material.name).Nodup ∧ (patchB.materials.map Material.name).Nodup ∧
    (∀ m ∈ patchB.materials, m.name ≠ "") ∧ (∀ mo ∈ patchB.morphs, mo.name ≠ "") ∧
    (∃ M, merge_models baseA patchB [] ["MAT_SETTING"] = .ok M ∧
      M.materials = baseA.materials.map (updMap (fun _ p => p) patchB.materials) ∧
      M.materials.map Material.name = baseA.materials.map Material.name ∧
      M.materials.length = baseA.materials.length ∧
      M.vertices = baseA.vertices ∧ M.bones = baseA.bones) :=
  ⟨by decide, by decide, by decide, by decide,
   C9_mat_setting_replaces_whole_record baseA patchB (by decide) (by decide) (by decide) (by decide)⟩

end Pmx

namespace Pmx

/-!
Claim C8 — the pre-merge validation gate.
-/

/-- C8: if the loaded base document or the loaded patch document fails the
duplicate/unnamed validation, merge_pmx_files returns (False, message) and
performs no write to the output path — validation runs before merge_models
and before save_pmx_file on every path. -/
theorem C8_validation_gate (env : MergeEnv) (pb pp po : String) (B Pt : Model)
    (hb : env.loadModel pb = .ok B) (hp : env.loadModel pp = .ok Pt)
    (hdup : validate_elements B = true ∨ validate_elements Pt = true)
    (app upd : List String) :
    ∃ msg, (merge_pmx_files env pb pp po app upd).ret = .ok (false, msg) ∧
           (merge_pmx_files env pb pp po app upd).written = none := by
  unfold merge_pmx_files
  by_cases h1 : pb = "" ∨ pp = "" ∨ po = ""
  · rw [if_pos h1]
    exact ⟨_, rfl, rfl⟩
  · rw [if_neg h1]
    by_cases h2 : pb = pp
    · rw [if_pos h2]
      exact ⟨_, rfl, rfl⟩
    · rw [if_neg h2]
      have hl : load_pmx_file env pb = some B := by
        unfold load_pmx_file
        rw [hb]
        rfl
      simp only [hl]
      by_cases h3 : ¬ env.isAbs po = true ∧ env.isAbs pb = true ∧ env.dirname pb = ""
      · rw [if_pos h3]
        exact ⟨_, rfl, rfl⟩
      · rw [if_neg h3]
        by_cases hvB : validate_elements B = true
        · rw [if_pos hvB]
          exact ⟨_, rfl, rfl⟩
        · rw [if_neg hvB]
          have hlp : load_pmx_file env pp = some Pt := by
            unfold load_pmx_file
            rw [hp]
            rfl
          simp only [hlp]
          have hvP : validate_elements Pt = true := by
            rcases hdup with hd | hd
            · exact absurd hd hvB
            · exact hd
          rw [if_pos hvP]
          exact ⟨_, rfl, rfl⟩

/-- C8 witness (a base document with two bones named "A"). -/
theorem C8_witness :
    envDup.loadModel "b.pmx" = .ok baseDup ∧
    envDup.loadModel "p.pmx" = .ok patchNew ∧
    validate_elements baseDup = true ∧
    (∃ msg, (merge_pmx_files envDup "b.pmx" "p.pmx" "o.pmx" ["BONE"] []).ret = .ok (false, msg) ∧
            (merge_pmx_files envDup "b.pmx" "p.pmx" "o.pmx" ["BONE"] []).written = none) :=
  ⟨by decide, by decide, by decide,
   C8_validation_gate envDup "b.pmx" "p.pmx" "o.pmx" baseDup patchNew
     (by decide) (by decide) (Or.inl (by decide)) ["BONE"] []⟩

end Pmx

namespace Pmx

/-!
Round-trip infrastructure: primitive reader/writer inverses and
composition lemmas for the list and named-collection loaders.
-/

theorem readInt_write (v : Int) (r : List Tok) : readInt (writeInt v ++ r) = .ok (v, r) := rfl

theorem readShort_write (v : Int) (r : List Tok) :
    readShort (writeShort v ++ r) = .ok (v, r) := rfl

theorem readUnsignedShort_write (v : Nat) (r : List Tok) :
    readUnsignedShort (writeUnsignedShort v ++ r) = .ok (v, r) := rfl

theorem readByte_write (v : Nat) (r : List Tok) : readByte (writeByte v ++ r) = .ok (v, r) := rfl

theorem readSignedByte_write (v : Int) (r : List Tok) :
    readSignedByte (writeSignedByte v ++ r) = .ok (v, r) := rfl

theorem readFloat_write (v : Rat) (r : List Tok) :
    readFloat (writeFloat v ++ r) = .ok (v, r) := rfl

theorem readStr_write (s : String) (r : List Tok) : readStr (writeStr s ++ r) = .ok (s, r) := rfl

theorem readSIdx_write (v : Int) (r : List Tok) : readSIdx (writeSIdx v ++ r) = .ok (v, r) := rfl

theorem readUIdx_write (v : Nat) (r : List Tok) : readUIdx (writeUIdx v ++ r) = .ok (v, r) := rfl

theorem readSign_write (s : String) (r : List Tok) :
    readSign (writeSign s ++ r) = .ok (s, r) := rfl

theorem readVector_write (v : Vec) : ∀ (n : Nat), v.length = n → ∀ (r : List Tok),
    readVector n (writeVector v ++ r) = .ok (v, r) := by
  induction v with
  | nil =>
    intro n h r
    subst h
    rfl
  | cons x xs ih =>
    intro n h r
    subst h
    show readVector (xs.length + 1) (.float x :: (writeVector xs ++ r)) = .ok (x :: xs, r)
    unfold readVector
    rw [ih xs.length rfl r]

theorem pyGet_lt {α : Type} (l : List α) (i : Nat) (h : i < l.length) :
    pyGet l i = .ok (l.get ⟨i, h⟩) := by
  unfold pyGet
  rw [List.get?_eq_get h]

/-- Composition: a list saved element-wise loads back element-wise. -/
theorem save_load_list {α β : Type} (sv : α → P (List Tok))
    (ld : List Tok → P (β × List Tok)) (c : α → β) :
    ∀ xs : List α,
      (∀ x ∈ xs, ∃ w, sv x = .ok w ∧ ∀ r, ld (w ++ r) = .ok (c x, r)) →
      ∃ ws, saveList sv xs = .ok ws ∧
        ∀ r, loadList ld xs.length (ws ++ r) = .ok (xs.map c, r) := by
  intro xs
  induction xs with
  | nil =>
    intro _
    exact ⟨[], rfl, fun r => rfl⟩
  | cons x xs ih =>
    intro h
    obtain ⟨w, hw, hld⟩ := h x (List.mem_cons_self x xs)
    obtain ⟨ws, hws, hlds⟩ := ih (fun y hy => h y (List.mem_cons_of_mem x hy))
    refine ⟨w ++ ws, ?_, ?_⟩
    · show (bind (sv x) fun w2 => bind (saveList sv xs) fun ws2 => pure (w2 ++ ws2)) = _
      rw [hw, P_bindb_ok, hws, P_bindb_ok]
      rfl
    · intro r
      show (bind (ld (w ++ ws ++ r)) fun p =>
        match p with
        | (y, ts) => bind (loadList ld xs.length ts) fun p2 =>
          match p2 with
          | (ys, ts2) => pure (y :: ys, ts2)) = _
      rw [List.append_assoc, hld, P_bindb_ok]
      show (bind (loadList ld xs.length (ws ++ r)) fun p2 =>
        match p2 with
        | (ys, ts2) => pure (c x :: ys, ts2)) = _
      rw [hlds, P_bindb_ok]
      rfl

/-- Composition for the validating named loader: the per-element loader may
consult the already-loaded prefix. -/
theorem save_load_named {α β : Type} [PyName β] (sv : α → P (List Tok))
    (ld : List β → List Tok → P (β × List Tok)) (c : α → β) :
    ∀ (xs : List α) (acc : List β),
      (∀ pre x post, xs = pre ++ x :: post →
        ∃ w, sv x = .ok w ∧ okName (c x) ∧
          ∀ r, ld (acc ++ pre.map c) (w ++ r) = .ok (c x, r)) →
      ∃ ws, saveList sv xs = .ok ws ∧
        ∀ r, loadNamed ld xs.length acc (ws ++ r) = .ok (acc ++ xs.map c, r) := by
  intro xs
  induction xs with
  | nil =>
    intro acc _
    exact ⟨[], rfl, fun r => by simp [loadNamed]⟩
  | cons x xs ih =>
    intro acc h
    obtain ⟨w, hw, hok, hld⟩ := h [] x xs rfl
    have hih := ih (acc ++ [c x]) (fun pre y post hy => by
      obtain ⟨w2, hw2, hok2, hld2⟩ := h (x :: pre) y post (by rw [hy, List.cons_append])
      refine ⟨w2, hw2, hok2, fun r => ?_⟩
      have h2 := hld2 r
      rw [List.map_cons] at h2
      rw [List.append_assoc, List.singleton_append]
      exact h2)
    obtain ⟨ws, hws, hlds⟩ := hih
    refine ⟨w ++ ws, ?_, ?_⟩
    · show (bind (sv x) fun w2 => bind (saveList sv xs) fun ws2 => pure (w2 ++ ws2)) = _
      rw [hw, P_bindb_ok, hws, P_bindb_ok]
      rfl
    · intro r
      show (bind (ld acc (w ++ ws ++ r)) fun p =>
        match p with
        | (y, ts) => bind (neAppend acc y) fun acc2 => loadNamed ld xs.length acc2 ts) = _
      have hld' := hld (ws ++ r)
      simp only [List.map_nil, List.append_nil] at hld'
      rw [List.append_assoc, hld', P_bindb_ok]
      show (bind (neAppend acc (c x)) fun acc2 => loadNamed ld xs.length acc2 (ws ++ r)) = _
      rw [neAppend_of_okName acc (c x) hok, P_bindb_ok, hlds r]
      rw [List.map_cons]
      rw [List.append_assoc]
      rfl

/-- Loading a + b items splits into loading a then b. -/
theorem loadList_add {α : Type} (ld : List Tok → P (α × List Tok)) :
    ∀ (a : Nat) (b : Nat) (ts ts1 ts2 : List Tok) (xs1 xs2 : List α),
      loadList ld a ts = .ok (xs1, ts1) →
      loadList ld b ts1 = .ok (xs2, ts2) →
      loadList ld (a + b) ts = .ok (xs1 ++ xs2, ts2) := by
  intro a
  induction a with
  | zero =>
    intro b ts ts1 ts2 xs1 xs2 h1 h2
    unfold loadList at h1
    cases h1
    simpa using h2
  | succ n ih =>
    intro b ts ts1 ts2 xs1 xs2 h1 h2
    have hs : n + 1 + b = (n + b) + 1 := by omega
    rw [hs]
    unfold loadList at h1 ⊢
    rcases hld : ld ts with e | ⟨x, ts'⟩
    · rw [hld] at h1
      exact absurd h1 (by simp [Bind.bind, Except.bind])
    · simp only [hld, P_bindb_ok] at h1 ⊢
      rcases hrest : loadList ld n ts' with e | ⟨ys, ts''⟩
      · rw [hrest] at h1
        exact absurd h1 (by simp [Bind.bind, Except.bind])
      · simp only [hrest, P_bindb_ok, P_pure_eq] at h1
        cases h1
        simp only [ih b ts' ts1 ts2 ys xs2 hrest h2, P_bindb_ok, P_pure_eq,
          List.cons_append]

end Pmx

namespace Pmx

/-!
Name-cache congruence: the cache index depends only on the name list, so
collections with pointwise equal names (e.g. a list and its canonical
image) index identically.
-/

theorem neLast_fst_general {α : Type} [PyName α] (k : Option String) :
    ∀ (xs : List α) (n : Nat) (a : Option (Nat × α)) (b : Option Nat),
      a.map Prod.fst = b →
      ((List.enumFrom n xs).foldl
          (fun acc p => if pyname p.2 = k then some p else acc) a).map Prod.fst
        = ((List.enumFrom n (xs.map pyname)).foldl
            (fun acc p => if p.2 = k then some p.1 else acc) b) := by
  intro xs
  induction xs with
  | nil =>
    intro n a b hab
    simpa using hab
  | cons x xs ih =>
    intro n a b hab
    simp only [List.map_cons, List.enumFrom_cons, List.foldl_cons]
    apply ih
    by_cases hx : pyname x = k
    · simp [hx]
    · simp [hx, hab]

theorem neLast_fst_eq_lastIdx {α : Type} [PyName α] (xs : List α) (k : Option String) :
    (neLast xs k).map Prod.fst = lastIdx (xs.map pyname) k := by
  unfold neLast lastIdx
  unfold List.enum
  exact neLast_fst_general k xs 0 none none rfl

theorem neContainsKey_eq_lastIdx {α : Type} [PyName α] (xs : List α) (k : Option String) :
    neContainsKey xs k = (lastIdx (xs.map pyname) k).isSome := by
  unfold neContainsKey
  rw [← neLast_fst_eq_lastIdx]
  rcases neLast xs k with _ | p <;> rfl

theorem neIndexStr_eq_lastIdx {α : Type} [PyName α] (xs : List α) (n : String) :
    neIndexStr xs n =
      (match lastIdx (xs.map pyname) (some n) with
       | some i => (i : Int)
       | none => -1) := by
  unfold neIndexStr
  rw [← neLast_fst_eq_lastIdx]
  rcases neLast xs (some n) with _ | ⟨i, x⟩ <;> rfl

theorem neContainsKey_congr {α β : Type} [PyName α] [PyName β]
    (xs : List α) (ys : List β) (h : xs.map pyname = ys.map pyname) (k : Option String) :
    neContainsKey xs k = neContainsKey ys k := by
  rw [neContainsKey_eq_lastIdx, neContainsKey_eq_lastIdx, h]

theorem neIndexStr_congr {α β : Type} [PyName α] [PyName β]
    (xs : List α) (ys : List β) (h : xs.map pyname = ys.map pyname) (n : String) :
    neIndexStr xs n = neIndexStr ys n := by
  rw [neIndexStr_eq_lastIdx, neIndexStr_eq_lastIdx, h]

theorem neNameByIndex_congr {α β : Type} [PyName α] [PyName β]
    (xs : List α) (ys : List β) (h : xs.map pyname = ys.map pyname) (i : Int) :
    neNameByIndex xs i = neNameByIndex ys i := by
  have hlen : xs.length = ys.length := by
    have := congrArg List.length h
    simpa using this
  unfold neNameByIndex
  by_cases hc : 0 ≤ i ∧ i < xs.length
  · rw [dif_pos hc, dif_pos (by omega)]
    have h1 : (xs.map pyname).get? i.toNat = (ys.map pyname).get? i.toNat := by rw [h]
    rw [List.get?_map, List.get?_map,
        List.get?_eq_get (show i.toNat < xs.length by omega),
        List.get?_eq_get (show i.toNat < ys.length by omega)] at h1
    simpa using h1
  · rw [dif_neg hc, dif_neg (by omega)]

theorem refOk_congr {α β : Type} [PyName α] [PyName β]
    (xs : List α) (ys : List β) (h : xs.map pyname = ys.map pyname) (r : Option String) :
    refOk xs r = refOk ys r := by
  cases r with
  | none => rfl
  | some n => exact neContainsKey_congr xs ys h _

/-!
Reference round-trip: a reference valid for a collection is reproduced by
index resolution against any collection with the same names.
-/

theorem neNameByIndex_neg {α : Type} [PyName α] (xs : List α) (i : Int) (h : i < 0) :
    neNameByIndex xs i = none := by
  unfold neNameByIndex
  rw [dif_neg (by omega)]

theorem neNameByIndex_neIndexRef {α : Type} [PyName α] (xs : List α) (r : Option String)
    (h : refOk xs r = true) : neNameByIndex xs (neIndexRef xs r) = r := by
  cases r with
  | none => exact neNameByIndex_neg xs (-1) (by omega)
  | some n =>
    have hc : neContainsKey xs (some n) = true := h
    unfold neContainsKey at hc
    rcases hl : neLast xs (some n) with _ | ⟨i, x⟩
    · rw [hl] at hc
      exact absurd hc (by simp)
    · obtain ⟨hi, hg, hp⟩ := neLast_some_props hl
      have hidx : neIndexStr xs n = (i : Int) := by
        unfold neIndexStr
        rw [hl]
      show neNameByIndex xs (neIndexStr xs n) = some n
      rw [hidx]
      unfold neNameByIndex
      rw [dif_pos (by exact ⟨by omega, by omega⟩)]
      have hget : xs.get ⟨((i : Int)).toNat, by omega⟩ = x := by
        have h2 : xs.get? i = some x := hg
        rw [List.get?_eq_some] at h2
        obtain ⟨hlt, hx⟩ := h2
        simpa using hx
      rw [hget, hp]

/-- The same, across a collection with equal names. -/
theorem neNameByIndex_neIndexRef_congr {α β : Type} [PyName α] [PyName β]
    (xs : List α) (ys : List β) (h : ys.map pyname = xs.map pyname)
    (r : Option String) (hr : refOk xs r = true) :
    neNameByIndex ys (neIndexRef xs r) = r := by
  rw [neNameByIndex_congr ys xs h]
  exact neNameByIndex_neIndexRef xs r hr

end Pmx

namespace Pmx

/-!
Texture reference round-trip and vertex lookup-table facts.
-/

theorem txGet_neg (txs : List String) (i : Int) (h : i < 0) : txGet txs i = none := by
  unfold txGet
  rw [dif_neg (by omega)]

theorem findIdx_of_mem (t : String) :
    ∀ (txs : List String), t ∈ txs →
      ∃ i, txs.findIdx? (· = t) = some i ∧ ∃ h : i < txs.length, txs.get ⟨i, h⟩ = t := by
  intro txs
  induction txs with
  | nil => intro h; exact absurd h (by simp)
  | cons a as ih =>
    intro hmem
    by_cases ha : a = t
    · refine ⟨0, ?_, by simp, by simpa using ha⟩
      rw [List.findIdx?_cons]
      simp [ha]
    · have hm : t ∈ as := by
        rcases List.mem_cons.mp hmem with h | h
        · exact absurd h.symm ha
        · exact h
      obtain ⟨i, hf, hlt, hg⟩ := ih hm
      refine ⟨i + 1, ?_, by simp; omega, ?_⟩
      · rw [List.findIdx?_cons]
        simp only [ha, decide_eq_true_eq, if_false]
        rw [List.findIdx?_succ]
        simp [hf]
      · simpa using hg

theorem txGet_txIndex (txs : List String) (r : Option String)
    (h : texRefOk txs r = true) : txGet txs (txIndex txs r) = r := by
  cases r with
  | none => exact txGet_neg txs (-1) (by omega)
  | some t =>
    have hmem : t ∈ txs := by
      unfold texRefOk at h
      simp only [Bool.and_eq_true, decide_eq_true_eq] at h
      exact h.2
    obtain ⟨i, hf, hlt, hg⟩ := findIdx_of_mem t txs hmem
    have hti : txIndex txs (some t) = (i : Int) := by
      simp only [txIndex, hf]
    rw [hti]
    unfold txGet
    rw [dif_pos (by exact ⟨by omega, by omega⟩)]
    congr 1

theorem vertIndexMap_snoc (verts : List Vertex) (v : Vertex) (i : Nat) :
    vertIndexMap (verts ++ [v]) i =
      if v.id = i then some verts.length else vertIndexMap verts i := by
  unfold vertIndexMap
  rw [List.enum_append, List.foldl_append]
  simp [List.enumFrom]

theorem vertIndexMap_spec (verts : List Vertex) (i : Nat) :
    (vertIndexMap verts i = none ∧ ∀ v ∈ verts, v.id ≠ i) ∨
    (∃ p, vertIndexMap verts i = some p ∧ ∃ h : p < verts.length,
      (verts.get ⟨p, h⟩).id = i) := by
  induction verts using List.reverseRecOn with
  | nil => exact Or.inl ⟨rfl, by simp⟩
  | append_singleton ys y ih =>
    rw [vertIndexMap_snoc]
    by_cases hy : y.id = i
    · refine Or.inr ⟨ys.length, by simp [hy], by simp, ?_⟩
      simp [hy]
    · rw [if_neg hy]
      rcases ih with ⟨h1, h2⟩ | ⟨p, h1, hlt, hv⟩
      · refine Or.inl ⟨h1, ?_⟩
        intro v hv
        rcases List.mem_append.mp hv with h | h
        · exact h2 v h
        · simp only [List.mem_singleton] at h
          subst h; exact hy
      · refine Or.inr ⟨p, h1, by simp; omega, ?_⟩
        have hq : (ys ++ [y]).get? p = some (ys.get ⟨p, hlt⟩) := by
          rw [List.get?_eq_getElem?, List.getElem?_append_left hlt, ← List.get?_eq_getElem?,
            List.get?_eq_get hlt]
        obtain ⟨h2, hx⟩ := List.get?_eq_some.mp hq
        rw [hx]
        exact hv

theorem vertIndexMap_isSome_of_mem (verts : List Vertex) (i : Nat)
    (h : i ∈ verts.map Vertex.id) : (vertIndexMap verts i).isSome := by
  rcases vertIndexMap_spec verts i with ⟨h1, h2⟩ | ⟨p, h1, hlt, hv⟩
  · obtain ⟨v, hv, hid⟩ := List.mem_map.mp h
    exact absurd hid (h2 v hv)
  · rw [h1]; rfl

theorem vertIndexMap_some_bound (verts : List Vertex) (i p : Nat)
    (h : vertIndexMap verts i = some p) : p < verts.length := by
  rcases vertIndexMap_spec verts i with ⟨h1, _⟩ | ⟨p', h1, hlt, _⟩
  · rw [h] at h1; exact absurd h1 (by simp)
  · rw [h] at h1
    cases h1
    exact hlt

end Pmx

namespace Pmx

/-!
Flag word bit extraction (the loader's mask tests invert the saver's
packing).
-/

theorem packFlags_p1 : ∀ (c0 c1 c2 c3 c4 c5 c8 c9 c10 c11 c12 c13 : Bool),
    (packFlags c0 c1 c2 c3 c4 c5 c8 c9 c10 c11 c12 c13 &&& 0x0001 ≠ 0) ↔ c0 = true := by
  decide

theorem packFlags_p400 : ∀ (c0 c1 c2 c3 c4 c5 c8 c9 c10 c11 c12 c13 : Bool),
    (packFlags c0 c1 c2 c3 c4 c5 c8 c9 c10 c11 c12 c13 &&& 0x0400 ≠ 0) ↔ c10 = true := by
  decide

theorem packFlags_p800 : ∀ (c0 c1 c2 c3 c4 c5 c8 c9 c10 c11 c12 c13 : Bool),
    (packFlags c0 c1 c2 c3 c4 c5 c8 c9 c10 c11 c12 c13 &&& 0x0800 ≠ 0) ↔ c11 = true := by
  decide

theorem packFlags_p2000 : ∀ (c0 c1 c2 c3 c4 c5 c8 c9 c10 c11 c12 c13 : Bool),
    (packFlags c0 c1 c2 c3 c4 c5 c8 c9 c10 c11 c12 c13 &&& 0x2000 ≠ 0) ↔ c13 = true := by
  decide

theorem packFlags_b2 : ∀ (c0 c1 c2 c3 c4 c5 c8 c9 c10 c11 c12 c13 : Bool),
    ((packFlags c0 c1 c2 c3 c4 c5 c8 c9 c10 c11 c12 c13 &&& 0x0002) != 0) = c1 := by
  decide

theorem packFlags_b4 : ∀ (c0 c1 c2 c3 c4 c5 c8 c9 c10 c11 c12 c13 : Bool),
    ((packFlags c0 c1 c2 c3 c4 c5 c8 c9 c10 c11 c12 c13 &&& 0x0004) != 0) = c2 := by
  decide

theorem packFlags_b8 : ∀ (c0 c1 c2 c3 c4 c5 c8 c9 c10 c11 c12 c13 : Bool),
    ((packFlags c0 c1 c2 c3 c4 c5 c8 c9 c10 c11 c12 c13 &&& 0x0008) != 0) = c3 := by
  decide

theorem packFlags_b10 : ∀ (c0 c1 c2 c3 c4 c5 c8 c9 c10 c11 c12 c13 : Bool),
    ((packFlags c0 c1 c2 c3 c4 c5 c8 c9 c10 c11 c12 c13 &&& 0x0010) != 0) = c4 := by
  decide

theorem packFlags_b20 : ∀ (c0 c1 c2 c3 c4 c5 c8 c9 c10 c11 c12 c13 : Bool),
    ((packFlags c0 c1 c2 c3 c4 c5 c8 c9 c10 c11 c12 c13 &&& 0x0020) != 0) = c5 := by
  decide

theorem packFlags_b100 : ∀ (c0 c1 c2 c3 c4 c5 c8 c9 c10 c11 c12 c13 : Bool),
    ((packFlags c0 c1 c2 c3 c4 c5 c8 c9 c10 c11 c12 c13 &&& 0x0100) != 0) = c8 := by
  decide

theorem packFlags_b200 : ∀ (c0 c1 c2 c3 c4 c5 c8 c9 c10 c11 c12 c13 : Bool),
    ((packFlags c0 c1 c2 c3 c4 c5 c8 c9 c10 c11 c12 c13 &&& 0x0200) != 0) = c9 := by
  decide

theorem packFlags_b1000 : ∀ (c0 c1 c2 c3 c4 c5 c8 c9 c10 c11 c12 c13 : Bool),
    ((packFlags c0 c1 c2 c3 c4 c5 c8 c9 c10 c11 c12 c13 &&& 0x1000) != 0) = c12 := by
  decide

theorem boneFlags_eq (b : Bone) :
    boneFlags b = packFlags (decide (b.disp_connection_type = 1)) b.is_rotatable b.is_movable
      b.is_visible b.is_controllable b.is_ik b.has_add_rot b.has_add_loc
      b.fixed_axis.isSome b.local_coord.isSome b.trans_after_physics
      b.ext_trans_key.isSome := by
  simp only [boneFlags, packFlags, decide_eq_true_eq]

theorem packMatFlags_b1 : ∀ (c0 c1 c2 c3 c4 : Bool),
    ((packMatFlags c0 c1 c2 c3 c4 &&& 1) != 0) = c0 := by
  decide

theorem packMatFlags_b2 : ∀ (c0 c1 c2 c3 c4 : Bool),
    ((packMatFlags c0 c1 c2 c3 c4 &&& 2) != 0) = c1 := by
  decide

theorem packMatFlags_b4 : ∀ (c0 c1 c2 c3 c4 : Bool),
    ((packMatFlags c0 c1 c2 c3 c4 &&& 4) != 0) = c2 := by
  decide

theorem packMatFlags_b8 : ∀ (c0 c1 c2 c3 c4 : Bool),
    ((packMatFlags c0 c1 c2 c3 c4 &&& 8) != 0) = c3 := by
  decide

theorem packMatFlags_b10 : ∀ (c0 c1 c2 c3 c4 : Bool),
    ((packMatFlags c0 c1 c2 c3 c4 &&& 16) != 0) = c4 := by
  decide

theorem materialFlags_eq (m : Material) :
    materialFlags m = packMatFlags m.is_double_sided m.enabled_drop_shadow
      m.enabled_self_shadow_map m.enabled_self_shadow m.enabled_toon_edge := by
  simp only [materialFlags, packMatFlags]

end Pmx

namespace Pmx

/-!
Chunked loaders over pure writers.
-/

theorem saveList_pure {α : Type} (wr : α → List Tok) (xs : List α) :
    saveList (fun x => (pure (wr x) : P (List Tok))) xs = .ok ((xs.map wr).flatten) := by
  induction xs with
  | nil => rfl
  | cons x xs ih =>
    show (bind (pure (wr x) : P (List Tok)) fun w =>
      bind (saveList (fun x => (pure (wr x) : P (List Tok))) xs) fun ws =>
        pure (w ++ ws)) = _
    rw [P_bindb_pure, ih, P_bindb_ok]
    rfl

theorem loadList_chunks {α β : Type} (ld : List Tok → P (β × List Tok))
    (wr : α → List Tok) (c : α → β) (xs : List α)
    (h : ∀ x ∈ xs, ∀ r, ld (wr x ++ r) = .ok (c x, r)) :
    ∀ r, loadList ld xs.length ((xs.map wr).flatten ++ r) = .ok (xs.map c, r) := by
  obtain ⟨ws, hws, hld⟩ := save_load_list (fun x => (pure (wr x) : P (List Tok))) ld c xs
    (fun x hx => ⟨wr x, rfl, h x hx⟩)
  rw [saveList_pure] at hws
  cases hws
  exact hld

theorem loadNamed_chunks {α β : Type} [PyName β] (ld : List β → List Tok → P (β × List Tok))
    (wr : α → List Tok) (c : α → β) (xs : List α) (acc : List β)
    (h : ∀ pre x post, xs = pre ++ x :: post → okName (c x) ∧
      ∀ r, ld (acc ++ pre.map c) (wr x ++ r) = .ok (c x, r)) :
    ∀ r, loadNamed ld xs.length acc ((xs.map wr).flatten ++ r) = .ok (acc ++ xs.map c, r) := by
  obtain ⟨ws, hws, hld⟩ := save_load_named (fun x => (pure (wr x) : P (List Tok))) ld c xs acc
    (fun pre x post hx => ⟨wr x, rfl, (h pre x post hx).1, (h pre x post hx).2⟩)
  rw [saveList_pure] at hws
  cases hws
  exact hld

/-!
Per-entity round-trips: bone weight and vertex.
-/

theorem boneWeight_round (bones : List Bone) (w : BoneWeight)
    (h : weightWF bones w = true) :
    ∃ ts, boneWeightSave bones w = .ok ts ∧
      ∀ r, boneWeightLoad (ts ++ r) = .ok (rawOfWeight bones w, r) := by
  obtain ⟨ty, bs, wts⟩ := w
  by_cases h0 : ty = 0
  · subst h0
    simp only [weightWF, reduceIte, Bool.and_eq_true, decide_eq_true_eq] at h
    obtain ⟨-, hlen, hw⟩ := h
    subst hw
    rcases bs with _ | ⟨b0, _ | ⟨b1, bs⟩⟩ <;> simp at hlen
    exact ⟨_, rfl, fun r => rfl⟩
  · by_cases h1 : ty = 1
    · subst h1
      rcases wts with ws | s
      · simp only [weightWF, h0, if_false, reduceIte, Bool.and_eq_true,
          decide_eq_true_eq] at h
        obtain ⟨-, hlen, hws⟩ := h
        rcases bs with _ | ⟨b0, _ | ⟨b1, _ | ⟨b2, bs⟩⟩⟩ <;> simp at hlen
        rcases ws with _ | ⟨w0, _ | ⟨w1, ws⟩⟩ <;> simp at hws
        exact ⟨_, rfl, fun r => rfl⟩
      · exact absurd h (by simp [weightWF, h0])
    · by_cases h2 : ty = 2
      · subst h2
        rcases wts with ws | s
        · simp only [weightWF, h0, h1, if_false, reduceIte, Bool.and_eq_true,
            decide_eq_true_eq] at h
          obtain ⟨-, hlen, hws⟩ := h
          rcases bs with _ | ⟨b0, _ | ⟨b1, _ | ⟨b2, _ | ⟨b3, _ | ⟨b4, bs⟩⟩⟩⟩⟩ <;> simp at hlen
          rcases ws with _ | ⟨w0, _ | ⟨w1, _ | ⟨w2, _ | ⟨w3, _ | ⟨w4, ws⟩⟩⟩⟩⟩ <;> simp at hws
          exact ⟨_, rfl, fun r => rfl⟩
        · exact absurd h (by simp [weightWF, h0, h1])
      · by_cases h3 : ty = 3
        · subst h3
          rcases wts with ws | s
          · exact absurd h (by simp [weightWF, h0, h1, h2])
          · obtain ⟨sw, sc, sr0, sr1⟩ := s
            simp only [weightWF, h0, h1, h2, if_false, reduceIte, Bool.and_eq_true,
              decide_eq_true_eq] at h
            obtain ⟨-, hlen, hc, hr0, hr1⟩ := h
            rcases bs with _ | ⟨b0, _ | ⟨b1, _ | ⟨b2, bs⟩⟩⟩ <;> simp at hlen
            rcases sc with _ | ⟨c1, _ | ⟨c2, _ | ⟨c3, _ | ⟨c4, sc⟩⟩⟩⟩ <;> simp at hc
            rcases sr0 with _ | ⟨d1, _ | ⟨d2, _ | ⟨d3, _ | ⟨d4, sr0⟩⟩⟩⟩ <;> simp at hr0
            rcases sr1 with _ | ⟨e1, _ | ⟨e2, _ | ⟨e3, _ | ⟨e4, sr1⟩⟩⟩⟩ <;> simp at hr1
            exact ⟨_, rfl, fun r => rfl⟩
        · exfalso
          simp only [weightWF, Bool.and_eq_true] at h
          rw [if_neg h0, if_neg h1, if_neg h2, if_neg h3] at h
          exact absurd h.2 (by simp)

theorem resolveBoneWeight_raw (bones : List Bone) (w : BoneWeight)
    (h : w.bones.all (refOk bones) = true) :
    resolveBoneWeight bones (rawOfWeight bones w) = w := by
  obtain ⟨ty, bs, wts⟩ := w
  unfold resolveBoneWeight rawOfWeight
  simp only [List.map_map]
  congr 1
  simp only [List.all_eq_true] at h
  refine List.map_congr_left ?_ |>.trans (List.map_id bs)
  intro r hr
  exact neNameByIndex_neIndexRef bones r (h r hr)

theorem vertex_round (bones : List Bone) (auvs : Nat) (v : Vertex)
    (h : vertexWF bones auvs v = true) :
    ∃ ts, vertexSave bones auvs v = .ok ts ∧
      ∀ r, vertexLoad auvs (ts ++ r) = .ok (rawOfVertex bones v, r) := by
  simp only [vertexWF, Bool.and_eq_true, decide_eq_true_eq, vecOk] at h
  obtain ⟨⟨⟨⟨⟨hco, hn⟩, huv⟩, hauv⟩, hall⟩, hw⟩ := h
  subst hauv
  obtain ⟨wts, hwts, hwld⟩ := boneWeight_round bones v.weight hw
  have hchunks := loadList_chunks (readVector 4) writeVector id v.additional_uvs
    (fun u hu r => by
      have h4 : u.length = 4 := by
        have := (List.all_eq_true.mp hall) u hu
        simpa [vecOk] using this
      exact readVector_write u 4 h4 r)
  refine ⟨writeVector v.co ++ writeVector v.normal ++ writeVector v.uv
    ++ (v.additional_uvs.map writeVector).flatten ++ wts ++ writeFloat v.edge_scale, ?_, ?_⟩
  · show (bind (boneWeightSave bones v.weight) fun ws => pure _) = _
    rw [hwts, P_bindb_ok]
    simp only [Nat.sub_self, List.replicate, List.flatten_nil, List.append_nil]
    rfl
  · intro r
    simp only [vertexLoad, List.append_assoc]
    rw [readVector_write v.co 3 hco, P_bindb_ok]
    show (bind (readVector 3 (writeVector v.normal ++ _)) _) = _
    rw [readVector_write v.normal 3 hn, P_bindb_ok]
    show (bind (readVector 2 (writeVector v.uv ++ _)) _) = _
    rw [readVector_write v.uv 2 huv, P_bindb_ok]
    show (bind (loadList (readVector 4) v.additional_uvs.length _) _) = _
    rw [hchunks, P_bindb_ok]
    show (bind (boneWeightLoad _) _) = _
    rw [hwld, P_bindb_ok]
    show (bind (readFloat (writeFloat v.edge_scale ++ r)) _) = _
    rw [readFloat_write, P_bindb_ok]
    simp only [List.map_id]
    rfl

end Pmx

namespace Pmx

theorem face_round (verts : List Vertex) (f : Face)
    (h1 : f.v1 ∈ verts.map Vertex.id) (h2 : f.v2 ∈ verts.map Vertex.id)
    (h3 : f.v3 ∈ verts.map Vertex.id) :
    ∃ ts, faceSave (vertIndexMap verts) f = .ok ts ∧
      ∀ r, faceLoad verts.length (ts ++ r) = .ok (canonFace verts f, r) := by
  have hs1 := vertIndexMap_isSome_of_mem verts f.v1 h1
  have hs2 := vertIndexMap_isSome_of_mem verts f.v2 h2
  have hs3 := vertIndexMap_isSome_of_mem verts f.v3 h3
  rcases hv1 : vertIndexMap verts f.v1 with _ | p1
  · rw [hv1] at hs1; exact absurd hs1 (by simp)
  rcases hv2 : vertIndexMap verts f.v2 with _ | p2
  · rw [hv2] at hs2; exact absurd hs2 (by simp)
  rcases hv3 : vertIndexMap verts f.v3 with _ | p3
  · rw [hv3] at hs3; exact absurd hs3 (by simp)
  have hb1 := vertIndexMap_some_bound verts f.v1 p1 hv1
  have hb2 := vertIndexMap_some_bound verts f.v2 p2 hv2
  have hb3 := vertIndexMap_some_bound verts f.v3 p3 hv3
  refine ⟨writeUIdx p3 ++ writeUIdx p2 ++ writeUIdx p1, ?_, ?_⟩
  · simp only [faceSave, hv1, hv2, hv3]
    rfl
  · intro r
    simp only [List.append_assoc, faceLoad, readUIdx_write, P_bindb_ok]
    rw [if_pos hb3, if_pos hb2, if_pos hb1]
    simp only [P_pure_eq, canonFace, canonPos, hv1, hv2, hv3, Option.getD_some]

theorem ikLink_round (bones : List Bone) (l : IKLink) (h : ikLinkWF bones l = true) :
    ∀ r, ikLinkLoad (ikLinkSave bones l ++ r) = .ok (rawOfIKLink bones l, r) := by
  obtain ⟨tgt, mx, mn⟩ := l
  rcases mn with _ | mn <;> rcases mx with _ | mx
  · intro r
    rfl
  · exact absurd h (by simp [ikLinkWF])
  · exact absurd h (by simp [ikLinkWF])
  · simp only [ikLinkWF, Bool.and_eq_true, decide_eq_true_eq] at h
    obtain ⟨-, hmn, hmx⟩ := h
    intro r
    simp only [ikLinkSave, ikLinkLoad, List.append_assoc, readSIdx_write, readByte_write,
      P_bindb_ok, readVector_write mn 3 hmn, readVector_write mx 3 hmx, reduceIte,
      P_pure_eq]
    rfl

theorem material_round (txs : List String) (ids : List Nat) (mt : Material)
    (h : materialWF txs ids mt = true) :
    ∀ r, materialLoad txs (materialSave txs mt ++ r) = .ok (matLoaded mt, r) := by
  simp only [materialWF, Bool.and_eq_true, decide_eq_true_eq, vecOk] at h
  obtain ⟨⟨⟨⟨⟨⟨⟨⟨-, hd⟩, hs⟩, ha⟩, hec⟩, htex⟩, hsph⟩, htoonif⟩, -⟩ := h
  intro r
  by_cases hsh : mt.is_shared_toon_texture = true
  · rw [if_pos hsh] at htoonif
    rw [decide_eq_true_eq] at htoonif
    simp only [materialSave, hsh, if_true, List.append_assoc]
    simp only [materialLoad, readStr_write, readVector_write mt.diffuse 4 hd,
      readVector_write mt.specular 3 hs, readFloat_write,
      readVector_write mt.ambient 3 ha, readByte_write,
      readVector_write mt.edge_color 4 hec, readSIdx_write, readSignedByte_write,
      readInt_write, P_bindb_ok, P_bindb_pure, P_pure_eq, reduceIte]
    simp only [matLoaded, materialFlags_eq, packMatFlags_b1, packMatFlags_b2,
      packMatFlags_b4, packMatFlags_b8, packMatFlags_b10,
      txGet_txIndex txs mt.texture htex, txGet_txIndex txs mt.sphere_texture hsph,
      htoonif, hsh]
    rfl
  · rw [if_neg hsh] at htoonif
    rw [Bool.and_eq_true, decide_eq_true_eq] at htoonif
    obtain ⟨hsti, htoon⟩ := htoonif
    have hshf : mt.is_shared_toon_texture = false := by
      rcases hb : mt.is_shared_toon_texture
      · rfl
      · exact absurd hb hsh
    simp only [materialSave, hshf, Bool.false_eq_true, if_false, List.append_assoc]
    simp only [materialLoad, readStr_write, readVector_write mt.diffuse 4 hd,
      readVector_write mt.specular 3 hs, readFloat_write,
      readVector_write mt.ambient 3 ha, readByte_write,
      readVector_write mt.edge_color 4 hec, readSIdx_write, readSignedByte_write,
      readInt_write, P_bindb_ok, P_bindb_pure, P_pure_eq, reduceIte]
    simp only [matLoaded, materialFlags_eq, packMatFlags_b1, packMatFlags_b2,
      packMatFlags_b4, packMatFlags_b8, packMatFlags_b10,
      txGet_txIndex txs mt.texture htex, txGet_txIndex txs mt.sphere_texture hsph,
      txGet_txIndex txs mt.toon_texture htoon, hsti, hshf]
    rfl

end Pmx

namespace Pmx

theorem boneSave_eq (bones : List Bone) (b : Bone) :
    boneSave bones b = .ok (boneTokens bones b) := by
  rcases hfa : b.fixed_axis with _ | fav <;>
    rcases hlc : b.local_coord with _ | lcv <;>
      rcases hek : b.ext_trans_key with _ | ekv <;>
        simp only [boneSave, boneTokens, boneFlags_eq, hfa, hlc, hek,
          Option.isSome_none, Option.isSome_some,
          packFlags_p400, packFlags_p800, packFlags_p2000, reduceIte,
          P_bindb_ok, P_bindb_pure, P_pure_eq] <;>
        rfl

end Pmx

namespace Pmx

set_option maxHeartbeats 2000000 in
theorem boneLoad_bone (bones : List Bone) (b : Bone) (h : boneWF bones b = true) :
    ∀ r, boneLoad (boneTokens bones b ++ r) = .ok (rawOfBone bones b, r) := by
  simp only [boneWF, Bool.and_eq_true, decide_eq_true_eq, vecOk] at h
  obtain ⟨⟨⟨⟨⟨⟨⟨⟨-, hloc⟩, -⟩, -⟩, h5⟩, h6⟩, h7⟩, h8⟩, h9⟩ := h
  have hlinkswf : ∀ l ∈ b.ik_links, ikLinkWF bones l = true := by
    by_cases hik : b.is_ik = true
    · rw [if_pos hik, Bool.and_eq_true] at h9
      exact fun l hl => List.all_eq_true.mp h9.2 l hl
    · rw [if_neg hik] at h9
      simp only [Bool.and_eq_true, decide_eq_true_eq] at h9
      rw [h9.2]
      intro l hl
      exact absurd hl (by simp)
  have hlinks : ∀ r2 : List Tok,
      loadList ikLinkLoad b.ik_links.length
        ((b.ik_links.map (ikLinkSave bones)).flatten ++ r2)
        = .ok (b.ik_links.map (rawOfIKLink bones), r2) :=
    loadList_chunks ikLinkLoad (ikLinkSave bones) (rawOfIKLink bones) b.ik_links
      (fun l hl r2 => ikLink_round bones l (hlinkswf l hl) r2)
  intro r
  simp only [boneTokens, boneLoad, List.append_assoc]
  simp only [readStr_write, P_bindb_ok]
  simp only [readVector_write b.location 3 hloc, P_bindb_ok]
  simp only [readSIdx_write, P_bindb_ok]
  simp only [readInt_write, P_bindb_ok]
  simp only [readShort_write, P_bindb_ok]
  simp only [Int.toNat_natCast]
  simp only [boneFlags_eq, packFlags_p1, packFlags_p400, packFlags_p800, packFlags_p2000,
    packFlags_b2, packFlags_b4, packFlags_b8, packFlags_b10, packFlags_b20,
    packFlags_b100, packFlags_b200, packFlags_b1000, decide_eq_true_eq]
  try simp only [readSIdx_write, readInt_write, readFloat_write, readByte_write, hlinks,
    P_bindb_pure, P_pure_eq, P_bindb_ok, Int.toNat_natCast]
  by_cases hdc : b.disp_connection_type = 1 <;>
    by_cases haddc : (b.has_add_rot || b.has_add_loc) = true <;>
      by_cases hikc : b.is_ik = true <;>
        rcases hfa : b.fixed_axis with _ | fav <;>
          rcases hlc : b.local_coord with _ | lcv <;>
            rcases hek : b.ext_trans_key with _ | ekv <;>
  · try rw [if_pos hdc] at h5
    try rw [if_neg hdc] at h5
    try rw [if_pos haddc] at h6
    try rw [if_neg haddc] at h6
    try rw [if_pos hikc] at h9
    try rw [if_neg hikc] at h9
    rw [hfa] at h7
    rw [hlc] at h8
    try simp only [Bool.and_eq_true, decide_eq_true_eq] at h5
    try simp only [Bool.and_eq_true, decide_eq_true_eq] at h6
    try simp only [Bool.and_eq_true, decide_eq_true_eq] at h9
    try simp only [decide_eq_true_eq] at h7
    try simp only [decide_eq_true_eq] at h8
    simp only [hdc, haddc, hikc, hfa, hlc, hek, Option.isSome_some, Option.isSome_none,
      Bool.false_eq_true, Bool.true_eq_false, eq_self_iff_true, reduceIte, if_true, if_false]
    simp only [h5, h6, h7, h8, h9, readVector_write, readSIdx_write, readFloat_write,
      readInt_write, readByte_write, hlinks, P_bindb_ok, P_bindb_pure, P_pure_eq,
      List.append_assoc, List.nil_append, List.append_nil, List.map_nil, List.flatten_nil,
      Int.toNat_natCast, reduceIte]
    simp only [rawOfBone, hdc, haddc, hikc, hfa, hlc, hek, h5, h6, h9, neIndexRef,
      List.map_nil, reduceIte, if_true, if_false]
    try rfl

end Pmx

namespace Pmx

theorem neIndexStr_absent {α : Type} [PyName α] (xs : List α) (n : String)
    (h : ∀ x ∈ xs, pyname x ≠ some n) : neIndexStr xs n = -1 := by
  unfold neIndexStr
  rw [(neLast_eq_none_iff xs (some n)).mpr h]

theorem resolveIKLink_raw {α : Type} [PyName α] (bones : List Bone) (raws : List α)
    (hmap : raws.map pyname = bones.map pyname) (l : IKLink)
    (h : refOk bones l.target = true) :
    resolveIKLink raws (rawOfIKLink bones l) = l := by
  obtain ⟨tgt, mx, mn⟩ := l
  unfold resolveIKLink rawOfIKLink
  simp only
  rw [neNameByIndex_neIndexRef_congr bones raws hmap tgt h]

theorem rawOfBone_names (bones : List Bone) :
    (bones.map (rawOfBone bones)).map pyname = bones.map pyname := by
  rw [List.map_map]
  exact List.map_congr_left (fun x _ => rfl)

theorem resolveBone_raw (bones : List Bone) (b : Bone)
    (h : boneWF bones b = true) :
    resolveBone (bones.map (rawOfBone bones)) (rawOfBone bones b) = b := by
  have hmap := rawOfBone_names bones
  simp only [boneWF, Bool.and_eq_true, decide_eq_true_eq, vecOk] at h
  obtain ⟨⟨⟨⟨⟨⟨⟨⟨-, -⟩, hpar⟩, hdcb⟩, h5⟩, h6⟩, -⟩, -⟩, h9⟩ := h
  have hlinkwf : ∀ l ∈ b.ik_links, refOk bones l.target = true := by
    by_cases hik : b.is_ik = true
    · rw [if_pos hik, Bool.and_eq_true] at h9
      intro l hl
      have := List.all_eq_true.mp h9.2 l hl
      simp only [ikLinkWF, Bool.and_eq_true] at this
      exact this.1
    · rw [if_neg hik] at h9
      simp only [Bool.and_eq_true, decide_eq_true_eq] at h9
      rw [h9.2]
      intro l hl
      exact absurd hl (by simp)
  have hpar2 := neNameByIndex_neIndexRef_congr bones _ hmap b.parent hpar
  have hdcbi : neNameByIndex (bones.map (rawOfBone bones))
      (if b.disp_connection_type = 1 then neIndexRef bones b.disp_conection_bone_index
       else -1) = b.disp_conection_bone_index := by
    by_cases hdc : b.disp_connection_type = 1
    · rw [if_pos hdc] at h5 ⊢
      rw [Bool.and_eq_true] at h5
      exact neNameByIndex_neIndexRef_congr bones _ hmap _ h5.1
    · rw [if_neg hdc] at h5 ⊢
      simp only [Bool.and_eq_true, decide_eq_true_eq] at h5
      rw [h5.1.2]
      exact neNameByIndex_neg _ (-1) (by omega)
  have hatbOk : refOk bones b.add_trans_bone = true := by
    by_cases hadd : (b.has_add_rot || b.has_add_loc) = true
    · rw [if_pos hadd] at h6
      exact h6
    · rw [if_neg hadd] at h6
      rw [Bool.and_eq_true] at h6
      have h60 : b.add_trans_bone = none := by
        have := h6.1
        simpa using this
      rw [h60]
      rfl
  have hatb2 := neNameByIndex_neIndexRef_congr bones _ hmap b.add_trans_bone hatbOk
  have hikt : (if b.is_ik = true then
      neNameByIndex (bones.map (rawOfBone bones))
        (if b.is_ik then neIndexRef bones b.ik_target else -1)
      else some "") = b.ik_target := by
    by_cases hik : b.is_ik = true
    · rw [if_pos hik, Bool.and_eq_true] at h9
      rw [if_pos hik, if_pos hik]
      exact neNameByIndex_neIndexRef_congr bones _ hmap b.ik_target h9.1
    · rw [if_neg hik] at h9
      simp only [Bool.and_eq_true, decide_eq_true_eq] at h9
      rw [if_neg hik, h9.1.1.1]
  have hlnks : ((b.ik_links.map (rawOfIKLink bones)).map
      (resolveIKLink (bones.map (rawOfBone bones)))) = b.ik_links := by
    rw [List.map_map]
    refine (List.map_congr_left ?_).trans (List.map_id b.ik_links)
    intro l hl
    exact resolveIKLink_raw bones _ hmap l (hlinkwf l hl)
  unfold resolveBone
  simp only [rawOfBone]
  rw [hpar2, hdcbi, hatb2, hikt, hlnks, ← hdcb]

end Pmx

namespace Pmx

theorem morphOffset_round (verts : List Vertex) (sz : Nat) (o : MorphOffset)
    (h : morphOffsetWF (verts.map Vertex.id) sz o = true) :
    ∃ ts, morphOffsetSave (vertIndexMap verts) o = .ok ts ∧
      ∀ r, morphOffsetLoad verts.length sz (ts ++ r)
        = .ok ({ vertex := canonPos verts o.vertex, offset := o.offset }, r) := by
  simp only [morphOffsetWF, Bool.and_eq_true, decide_eq_true_eq, vecOk] at h
  obtain ⟨hmem, hlen⟩ := h
  have hs := vertIndexMap_isSome_of_mem verts o.vertex hmem
  rcases hv : vertIndexMap verts o.vertex with _ | p
  · rw [hv] at hs; exact absurd hs (by simp)
  have hb := vertIndexMap_some_bound verts o.vertex p hv
  refine ⟨writeUIdx p ++ writeVector o.offset, ?_, ?_⟩
  · simp only [morphOffsetSave, hv]
    rfl
  · intro r
    simp only [List.append_assoc, morphOffsetLoad, readUIdx_write, P_bindb_ok]
    rw [if_pos hb]
    simp only [readVector_write o.offset sz hlen, P_bindb_ok, P_pure_eq, canonPos, hv,
      Option.getD_some]

theorem boneMorphOffset_round (bones : List Bone) (onm : String) (o : BoneMorphOffset)
    (h : boneMorphOffsetWF bones onm o = true) :
    ∀ r, boneMorphOffsetLoad bones onm (boneMorphOffsetSave bones o ++ r) = .ok (o, r) := by
  simp only [boneMorphOffsetWF, Bool.and_eq_true, decide_eq_true_eq, vecOk] at h
  obtain ⟨⟨⟨⟨howner, href⟩, hlo⟩, hro⟩, hany⟩ := h
  intro r
  simp only [boneMorphOffsetSave, boneMorphOffsetLoad, List.append_assoc, readSIdx_write,
    P_bindb_ok, readVector_write o.location_offset 3 hlo,
    readVector_write o.rotation_offset 4 hro, hany, if_true, P_pure_eq]
  rw [neNameByIndex_neIndexRef bones o.bone href, ← howner]

theorem materialMorphOffset_round (mats mats2 : List Material)
    (hm : mats2.map pyname = mats.map pyname) (o : MaterialMorphOffset)
    (h : materialMorphOffsetWF mats o = true) :
    ∀ r, materialMorphOffsetLoad mats2 (materialMorphOffsetSave mats o ++ r) = .ok (o, r) := by
  simp only [materialMorphOffsetWF, Bool.and_eq_true, decide_eq_true_eq, vecOk] at h
  obtain ⟨⟨⟨⟨⟨⟨⟨href, hd⟩, hs⟩, ha⟩, hec⟩, htf⟩, hsf⟩, htof⟩ := h
  intro r
  simp only [materialMorphOffsetSave, materialMorphOffsetLoad, List.append_assoc,
    readSIdx_write, readSignedByte_write, readFloat_write, readVector_write,
    hd, hs, ha, hec, htf, hsf, htof, P_bindb_ok, P_pure_eq]
  rw [neNameByIndex_neIndexRef_congr mats mats2 hm o.material href]

theorem groupMorphOffset_round (morphs : List Morph) (k : Nat) (acc : List Morph)
    (hacc : acc.map pyname = (morphs.take k).map pyname)
    (o : GroupMorphOffset) (h : groupOffsetWF morphs k o = true) :
    ∀ r, groupMorphOffsetLoad acc (groupMorphOffsetSave morphs o ++ r) = .ok (o, r) := by
  intro r
  rcases hm : o.morph with _ | n
  · simp only [groupMorphOffsetSave, groupMorphOffsetLoad, hm, neIndexRef, List.append_assoc,
      readSIdx_write, P_bindb_ok, readFloat_write, P_pure_eq]
    rw [neNameByIndex_neg acc (-1) (by omega), ← hm]
  · simp only [groupOffsetWF, hm, decide_eq_true_eq] at h
    obtain ⟨h0, hk⟩ := h
    rcases hl : neLast morphs (some n) with _ | ⟨j, x⟩
    · unfold neIndexStr at h0
      simp only [hl] at h0
      exact absurd h0 (by norm_num)
    · obtain ⟨hjlen, hget, hpy⟩ := neLast_some_props hl
      have hidx : neIndexRef morphs (some n) = (j : Int) := by
        simp only [neIndexRef, neIndexStr, hl]
      unfold neIndexStr at hk
      simp only [hl] at hk
      have hjk : j < k := by exact_mod_cast hk
      have hjacc : j < acc.length := by
        have hlen2 : acc.length = (morphs.take k).length := by
          have := congrArg List.length hacc
          simpa using this
        rw [hlen2, List.length_take]
        omega
      have hnbi : neNameByIndex acc ((j : Nat) : Int) = some n := by
        unfold neNameByIndex
        rw [dif_pos (by exact ⟨by omega, by omega⟩)]
        have h1 : (acc.map pyname).get? j = some (some n) := by
          rw [hacc, List.get?_map, List.get?_take hjk, hget]
          simp [hpy]
        rw [List.get?_map, List.get?_eq_get hjacc] at h1
        have h2 : pyname (acc.get ⟨j, hjacc⟩) = some n := by
          simpa using h1
        have h3 : acc.get ⟨((j : Int)).toNat, by omega⟩ = acc.get ⟨j, hjacc⟩ := by
          congr 1
        rw [h3, h2]
      simp only [groupMorphOffsetSave, groupMorphOffsetLoad, hm, hidx, List.append_assoc,
        readSIdx_write, P_bindb_ok, readFloat_write, P_pure_eq]
      rw [hnbi, ← hm]

end Pmx

namespace Pmx

theorem morph_round (verts : List Vertex) (mats mats2 : List Material) (bones : List Bone)
    (morphs : List Morph) (k : Nat) (acc : List Morph)
    (hm2 : mats2.map pyname = mats.map pyname)
    (hacc : acc.map pyname = (morphs.take k).map pyname)
    (m : Morph) (h : morphWF (verts.map Vertex.id) mats bones morphs k m = true) :
    ∃ ts, morphSave (vertIndexMap verts) mats bones morphs m = .ok ts ∧
      ∀ r, morphCreate verts.length mats2 bones acc (ts ++ r)
        = .ok (canonMorph verts m, r) := by
  obtain ⟨nm, ne, cat, kd⟩ := m
  simp only [morphWF, Bool.and_eq_true, decide_eq_true_eq] at h
  obtain ⟨-, hkd⟩ := h
  rcases kd with offs | offs | offs | ⟨i, offs⟩ | offs
  · -- group morph
    have hchunks := loadList_chunks (groupMorphOffsetLoad acc) (groupMorphOffsetSave morphs)
      id offs (fun o ho r =>
        groupMorphOffset_round morphs k acc hacc o (List.all_eq_true.mp hkd o ho) r)
    refine ⟨_, rfl, ?_⟩
    intro r
    simp only [Morph.type_index, morphCreate, List.append_assoc, readStr_write,
      readSignedByte_write, P_bindb_ok, reduceIte, readInt_write, Int.toNat_natCast,
      hchunks, P_pure_eq, List.map_id, canonMorph]
  · -- vertex morph
    obtain ⟨ws, hws, hld⟩ := save_load_list (morphOffsetSave (vertIndexMap verts))
      (morphOffsetLoad verts.length 3)
      (fun o => { vertex := canonPos verts o.vertex, offset := o.offset }) offs
      (fun o ho => morphOffset_round verts 3 o (List.all_eq_true.mp hkd o ho))
    refine ⟨writeStr nm ++ writeStr ne ++ writeSignedByte cat ++ writeSignedByte (1 : Int)
      ++ writeInt (offs.length : Int) ++ ws, ?_, ?_⟩
    · show (bind (saveList (morphOffsetSave (vertIndexMap verts)) offs) fun w =>
        pure _) = _
      rw [hws, P_bindb_ok]
      rfl
    · intro r
      simp only [Morph.type_index, morphCreate, List.append_assoc, readStr_write,
        readSignedByte_write, P_bindb_ok, readInt_write, Int.toNat_natCast, P_pure_eq]
      simp only [if_true, if_false, reduceIte, hld, P_bindb_ok, P_pure_eq, canonMorph]
      rw [if_neg (show ¬(1 : Int) = 0 by decide)]
  · -- bone morph
    have hchunks := loadList_chunks (boneMorphOffsetLoad bones nm)
      (boneMorphOffsetSave bones) id offs (fun o ho r =>
        boneMorphOffset_round bones nm o (List.all_eq_true.mp hkd o ho) r)
    refine ⟨_, rfl, ?_⟩
    intro r
    simp only [Morph.type_index, morphCreate, List.append_assoc, readStr_write,
      readSignedByte_write, P_bindb_ok, readInt_write, Int.toNat_natCast, P_pure_eq]
    simp only [if_true, if_false, reduceIte, hchunks, P_bindb_ok, P_pure_eq, List.map_id,
      canonMorph]
    rw [if_neg (show ¬(2 : Int) = 0 by decide), if_neg (show ¬(2 : Int) = 1 by decide)]
  · -- uv morph
    replace hkd : (if 0 ≤ i ∧ i ≤ 4 then
        offs.all (morphOffsetWF (verts.map Vertex.id) 4) else false) = true := hkd
    by_cases hrange : 0 ≤ i ∧ i ≤ 4
    · rw [if_pos hrange] at hkd
      obtain ⟨ws, hws, hld⟩ := save_load_list (morphOffsetSave (vertIndexMap verts))
        (morphOffsetLoad verts.length 4)
        (fun o => { vertex := canonPos verts o.vertex, offset := o.offset }) offs
        (fun o ho => morphOffset_round verts 4 o (List.all_eq_true.mp hkd o ho))
      refine ⟨writeStr nm ++ writeStr ne ++ writeSignedByte cat ++ writeSignedByte (i + 3)
        ++ writeInt (offs.length : Int) ++ ws, ?_, ?_⟩
      · show (bind (saveList (morphOffsetSave (vertIndexMap verts)) offs) fun w =>
          pure _) = _
        rw [hws, P_bindb_ok]
        rfl
      · intro r
        simp only [Morph.type_index, morphCreate, List.append_assoc, readStr_write,
          readSignedByte_write, P_bindb_ok, readInt_write, Int.toNat_natCast, P_pure_eq]
        rw [if_neg (show ¬(i + 3 : Int) = 0 by omega),
          if_neg (show ¬(i + 3 : Int) = 1 by omega),
          if_neg (show ¬(i + 3 : Int) = 2 by omega),
          if_pos (show (3 : Int) ≤ i + 3 ∧ (i + 3 : Int) ≤ 7 by omega)]
        simp only [hld, P_bindb_ok, P_pure_eq, canonMorph]
        rw [show (i + 3 - 3 : Int) = i by omega]
    · rw [if_neg hrange] at hkd
      exact absurd hkd (by simp)
  · -- material morph
    have hchunks := loadList_chunks (materialMorphOffsetLoad mats2)
      (materialMorphOffsetSave mats) id offs (fun o ho r =>
        materialMorphOffset_round mats mats2 hm2 o (List.all_eq_true.mp hkd o ho) r)
    refine ⟨_, rfl, ?_⟩
    intro r
    simp only [Morph.type_index, morphCreate, List.append_assoc, readStr_write,
      readSignedByte_write, P_bindb_ok, readInt_write, Int.toNat_natCast, P_pure_eq]
    simp only [if_true, if_false, true_and, and_false, false_and, and_true, reduceIte,
      hchunks, P_bindb_ok, P_pure_eq, List.map_id, canonMorph]
    rw [if_neg (show ¬(8 : Int) = 0 by decide), if_neg (show ¬(8 : Int) = 1 by decide),
      if_neg (show ¬(8 : Int) = 2 by decide),
      if_neg (show ¬((3 : Int) ≤ 8 ∧ (8 : Int) ≤ 7) by decide)]

end Pmx

namespace Pmx

theorem displayItemWF_okName (bones : List Bone) (morphs : List Morph) (x : DisplayItem)
    (h : displayItemWF bones morphs x = true) : okName x := by
  obtain ⟨dt, onm⟩ := x
  rcases onm with _ | n
  · exact absurd h (by rcases dt with _ | _ | dt <;> simp [displayItemWF])
  have hn : ¬n = "" := by
    rcases dt with _ | _ | dt
    · replace h : (if n = "" then false else neContainsKey bones (some n)) = true := h
      intro hn
      rw [if_pos hn] at h
      exact absurd h (by simp)
    · replace h : (if n = "" then false else neContainsKey morphs (some n)) = true := h
      intro hn
      rw [if_pos hn] at h
      exact absurd h (by simp)
    · exact absurd h (by simp [displayItemWF])
  exact ⟨by simp [pyname], by simp [pyname, hn]⟩

theorem displayItem_round (bones : List Bone) (morphs morphs2 : List Morph)
    (hm : morphs2.map pyname = morphs.map pyname)
    (x : DisplayItem) (h : displayItemWF bones morphs x = true) :
    ∃ ts, displayItemSave bones morphs x = .ok ts ∧
      ∀ r, displayItemLoad bones morphs2 (ts ++ r) = .ok (x, r) := by
  obtain ⟨dt, onm⟩ := x
  rcases onm with _ | n
  · exact absurd h (by rcases dt with _ | _ | dt <;> simp [displayItemWF])
  rcases dt with _ | _ | dt
  · replace h : (if n = "" then false else neContainsKey bones (some n)) = true := h
    by_cases hn : n = ""
    · rw [if_pos hn] at h
      exact absurd h (by simp)
    rw [if_neg hn] at h
    refine ⟨_, rfl, ?_⟩
    intro r
    simp only [displayItemLoad, List.append_assoc, readByte_write, P_bindb_ok, reduceIte,
      readSIdx_write, P_pure_eq]
    have href : refOk bones (some n) = true := h
    rw [neNameByIndex_neIndexRef bones (some n) href]
  · replace h : (if n = "" then false else neContainsKey morphs (some n)) = true := h
    by_cases hn : n = ""
    · rw [if_pos hn] at h
      exact absurd h (by simp)
    rw [if_neg hn] at h
    refine ⟨_, rfl, ?_⟩
    intro r
    simp only [displayItemLoad, List.append_assoc, readByte_write, P_bindb_ok, reduceIte,
      readSIdx_write, P_pure_eq]
    rw [if_neg (show ¬(1 : Nat) = 0 by decide)]
    have href : refOk morphs (some n) = true := h
    rw [neNameByIndex_neIndexRef_congr morphs morphs2 hm (some n) href]
  · exact absurd h (by simp [displayItemWF])

theorem displaySlot_round (bones : List Bone) (morphs morphs2 : List Morph)
    (hm : morphs2.map pyname = morphs.map pyname)
    (d : DisplaySlot) (h : displaySlotWF bones morphs d = true) :
    ∃ ts, displaySlotSave bones morphs d = .ok ts ∧
      ∀ r, displaySlotLoad bones morphs2 (ts ++ r) = .ok (d, r) := by
  obtain ⟨dn, dne, dsp, dit⟩ := d
  simp only [displaySlotWF, Bool.and_eq_true, decide_eq_true_eq] at h
  obtain ⟨-, hitems⟩ := h
  obtain ⟨ws, hws, hld⟩ := save_load_named (displayItemSave bones morphs)
    (fun _ => displayItemLoad bones morphs2) id dit []
    (fun pre x post hx => by
      have hxm : x ∈ dit := by
        rw [hx]
        exact List.mem_append.mpr (Or.inr (List.mem_cons_self x post))
      have hwf := List.all_eq_true.mp hitems x hxm
      obtain ⟨ts, hsv, hldx⟩ := displayItem_round bones morphs morphs2 hm x hwf
      exact ⟨ts, hsv, displayItemWF_okName bones morphs x hwf, fun r => hldx r⟩)
  refine ⟨writeStr dn ++ writeStr dne ++ writeByte (if dsp then 1 else 0)
    ++ writeInt (dit.length : Int) ++ ws, ?_, ?_⟩
  · show (bind (saveList (displayItemSave bones morphs) dit) fun w => pure _) = _
    rw [hws, P_bindb_ok]
    rfl
  · intro r
    rcases dsp with _ | _ <;>
      simp only [displaySlotLoad, List.append_assoc, readStr_write, readByte_write,
        readInt_write, Int.toNat_natCast, P_bindb_ok, P_pure_eq, hld, List.map_id,
        List.nil_append, reduceIte, Bool.false_eq_true, Bool.true_eq_false, if_true,
        if_false, decide_eq_true_eq] <;>
      rfl

theorem rigid_round (bones : List Bone) (rg : RigidBody) (h : rigidWF bones rg = true) :
    ∀ r, rigidLoad bones (rigidSave bones rg ++ r) = .ok (rg, r) := by
  simp only [rigidWF, Bool.and_eq_true, decide_eq_true_eq, vecOk] at h
  obtain ⟨⟨⟨⟨-, href⟩, hsz⟩, hloc⟩, hrot⟩ := h
  intro r
  simp only [rigidSave, rigidLoad, List.append_assoc, readStr_write, readSIdx_write,
    readSignedByte_write, readUnsignedShort_write, readFloat_write, readVector_write,
    hsz, hloc, hrot, P_bindb_ok, P_pure_eq]
  rw [neNameByIndex_neIndexRef bones rg.bone href]

theorem joint_round (rigids : List RigidBody) (j : Joint) (h : jointWF rigids j = true) :
    ∀ r, jointLoad rigids (jointSave rigids j ++ r) = .ok (j, r) := by
  simp only [jointWF, Bool.and_eq_true, decide_eq_true_eq, vecOk] at h
  obtain ⟨⟨⟨⟨⟨⟨⟨⟨⟨⟨-, hsrc⟩, hdst⟩, hloc⟩, hrot⟩, hmxl⟩, hmnl⟩, hmxr⟩, hmnr⟩, hsc⟩, hsrc2⟩ := h
  intro r
  have hJ : joint_Load rigids Joint.init (jointSave rigids j ++ r) = .ok (j, r) := by
    simp only [jointSave, joint_Load, List.append_assoc, readStr_write, readSignedByte_write,
      readSIdx_write, readVector_write, hloc, hrot, hmxl, hmnl, hmxr, hmnr, hsc, hsrc2]
    rw [neNameByIndex_neIndexRef rigids j.src_rigid hsrc,
      neNameByIndex_neIndexRef rigids j.dst_rigid hdst]
  unfold jointLoad
  rw [hJ]

end Pmx

namespace Pmx

/-!
Model-level auxiliary facts: the purge touches only vertices, textures and
vertex/UV morph offsets; face slicing recovers the per-material partition;
canonicalization preserves names.
-/

theorem purgev_scalars (mm : Model) :
    (purge_unused_vertices mm).name = mm.name ∧
    (purge_unused_vertices mm).name_e = mm.name_e ∧
    (purge_unused_vertices mm).comment = mm.comment ∧
    (purge_unused_vertices mm).comment_e = mm.comment_e ∧
    (purge_unused_vertices mm).additional_uvs = mm.additional_uvs ∧
    (purge_unused_vertices mm).bones = mm.bones ∧
    (purge_unused_vertices mm).rigids = mm.rigids ∧
    (purge_unused_vertices mm).joints = mm.joints ∧
    (purge_unused_vertices mm).display_slots = mm.display_slots ∧
    (purge_unused_vertices mm).materials = mm.materials ∧
    (purge_unused_vertices mm).textures = mm.textures := by
  unfold purge_unused_vertices
  dsimp only
  split <;> exact ⟨rfl, rfl, rfl, rfl, rfl, rfl, rfl, rfl, rfl, rfl, rfl⟩

theorem purge_scalars (m : Model) :
    (purgeModel m).name = m.name ∧ (purgeModel m).name_e = m.name_e ∧
    (purgeModel m).comment = m.comment ∧ (purgeModel m).comment_e = m.comment_e ∧
    (purgeModel m).additional_uvs = m.additional_uvs ∧
    (purgeModel m).bones = m.bones ∧ (purgeModel m).rigids = m.rigids ∧
    (purgeModel m).joints = m.joints ∧ (purgeModel m).display_slots = m.display_slots ∧
    (purgeModel m).materials = m.materials := by
  have h := purgev_scalars (purge_unused_textures m)
  exact ⟨h.1, h.2.1, h.2.2.1, h.2.2.2.1, h.2.2.2.2.1, h.2.2.2.2.2.1, h.2.2.2.2.2.2.1,
    h.2.2.2.2.2.2.2.1, h.2.2.2.2.2.2.2.2.1, h.2.2.2.2.2.2.2.2.2.1⟩

theorem canonMorph_name (verts : List Vertex) (m : Morph) :
    (canonMorph verts m).name = m.name := by
  unfold canonMorph
  rcases m with ⟨nm, ne, cat, _ | _ | _ | ⟨i, offs⟩ | _⟩ <;> rfl

theorem canonMorph_pynames (verts : List Vertex) (ms : List Morph) :
    (ms.map (canonMorph verts)).map pyname = ms.map pyname := by
  rw [List.map_map]
  exact List.map_congr_left (fun x _ => by
    show pyname (canonMorph verts x) = pyname x
    show some (canonMorph verts x).name = some x.name
    rw [canonMorph_name])

theorem canonMaterial_pynames (verts : List Vertex) (ms : List Material) :
    (ms.map (canonMaterial verts)).map pyname = ms.map pyname := by
  rw [List.map_map]
  exact List.map_congr_left (fun x _ => rfl)

theorem foldl_faces_count (mats : List Material) :
    ∀ n : Nat, mats.foldl (fun n mt => n + mt.faces.length) n
      = n + (mats.flatMap (fun mt => mt.faces)).length := by
  induction mats with
  | nil => intro n; simp
  | cons mt rest ih =>
    intro n
    rw [List.foldl_cons, ih]
    simp [List.flatMap_cons]
    try omega

theorem pySliceBound_of_le (len : Nat) (i : Nat) (h : i ≤ len) :
    pySliceBound len (i : Int) = i := by
  unfold pySliceBound
  rw [if_neg (by omega)]
  simp only [Int.toNat_natCast]
  exact Nat.min_eq_left h

theorem pyslice_middle {α : Type} (A B C : List α) :
    pyslice (A ++ B ++ C) (A.length : Int) ((A.length + B.length : Nat) : Int) = B := by
  unfold pyslice
  rw [pySliceBound_of_le _ _ (by simp only [List.length_append]; omega),
    pySliceBound_of_le _ _ (by simp only [List.length_append]; omega)]
  have h1 : (A ++ B ++ C).take (A.length + B.length) = A ++ B := by
    have h2 : A.length + B.length = (A ++ B).length := by simp
    rw [h2, List.take_left]
  rw [h1, List.drop_left]

theorem assignFaces_canon (verts : List Vertex) :
    ∀ (mats : List Material) (pre : List Face),
      assignFaces (pre ++ mats.flatMap (fun mt => mt.faces.map (canonFace verts)))
          (pre.length : Int) (mats.map matLoaded)
        = mats.map (canonMaterial verts) := by
  intro mats
  induction mats with
  | nil => intro pre; rfl
  | cons mt rest ih =>
    intro pre
    rw [List.map_cons, List.flatMap_cons]
    show assignFaces _ _ (matLoaded mt :: rest.map matLoaded) = _
    unfold assignFaces
    dsimp only
    have hfd : Int.fdiv (matLoaded mt).vertex_count 3 = (mt.faces.length : Int) := by
      show Int.fdiv (mt.faces.length * 3 : Int) 3 = _
      rw [Int.fdiv_eq_ediv _ (by omega)]
      omega
    rw [hfd]
    have hslice : pyslice (pre ++ (mt.faces.map (canonFace verts)
          ++ rest.flatMap (fun mt => mt.faces.map (canonFace verts))))
        (pre.length : Int) ((pre.length : Int) + (mt.faces.length : Int))
        = mt.faces.map (canonFace verts) := by
      have h2 : (pre.length : Int) + (mt.faces.length : Int)
          = ((pre.length + (mt.faces.map (canonFace verts)).length : Nat) : Int) := by
        simp
      rw [h2, ← List.append_assoc]
      exact pyslice_middle pre (mt.faces.map (canonFace verts)) _
    rw [hslice]
    have hrest : assignFaces (pre ++ (mt.faces.map (canonFace verts)
          ++ rest.flatMap (fun mt => mt.faces.map (canonFace verts))))
        ((pre.length : Int) + (mt.faces.length : Int)) (rest.map matLoaded)
        = rest.map (canonMaterial verts) := by
      have h3 : (pre.length : Int) + (mt.faces.length : Int)
          = (((pre ++ mt.faces.map (canonFace verts)).length : Nat) : Int) := by
        simp
      rw [h3, ← List.append_assoc]
      exact ih (pre ++ mt.faces.map (canonFace verts))
    rw [hrest]
    rfl

theorem morphsWF_at (ids : List Nat) (mats : List Material) (bones : List Bone)
    (all : List Morph) :
    ∀ (pre : List Morph) (x : Morph) (post : List Morph) (k0 : Nat),
      morphsWF ids mats bones all k0 (pre ++ x :: post) = true →
      morphWF ids mats bones all (k0 + pre.length) x = true := by
  intro pre
  induction pre with
  | nil =>
    intro x post k0 h
    rw [List.nil_append] at h
    unfold morphsWF at h
    rw [Bool.and_eq_true] at h
    simpa using h.1
  | cons y pre ih =>
    intro x post k0 h
    rw [List.cons_append] at h
    unfold morphsWF at h
    rw [Bool.and_eq_true] at h
    have := ih x post (k0 + 1) h.2
    have harith : k0 + 1 + pre.length = k0 + (pre.length + 1) := by omega
    rw [harith] at this
    simpa using this

set_option maxHeartbeats 1000000 in
theorem headerLoad_headerSave (h : Header) (henc : h.encoding_index = 0) (r : List Tok) :
    headerLoad (headerSave h ++ r) = .ok (h, r) := by
  simp only [headerSave, headerLoad, List.append_assoc, readSign_write, readFloat_write,
    readByte_write, P_bindb_ok, P_bindb_pure, P_pure_eq, henc]
  rw [if_neg (by decide), if_neg (by decide), if_neg (by decide),
    if_neg (show ¬((0 : Nat) ≠ 0 ∧ (0 : Nat) ≠ 1) by decide)]
  rw [← henc]

end Pmx

namespace Pmx

theorem vertices_canon (bones : List Bone) :
    ∀ (verts : List Vertex) (n : Nat),
      (∀ v ∈ verts, v.weight.bones.all (refOk bones) = true) →
      (List.enumFrom n (verts.map (rawOfVertex bones))).map (fun p =>
        ({ id := p.1, co := p.2.co, normal := p.2.normal, uv := p.2.uv
           additional_uvs := p.2.additional_uvs
           weight := resolveBoneWeight bones p.2.weight
           edge_scale := p.2.edge_scale } : Vertex))
      = (List.enumFrom n verts).map (fun p => { p.2 with id := p.1 }) := by
  intro verts
  induction verts with
  | nil => intro n _; rfl
  | cons v vs ih =>
    intro n hwf
    simp only [List.map_cons, List.enumFrom_cons]
    rw [ih (n + 1) (fun u hu => hwf u (List.mem_cons_of_mem v hu))]
    have hw : resolveBoneWeight bones (rawOfVertex bones v).weight = v.weight := by
      show resolveBoneWeight bones (rawOfWeight bones v.weight) = v.weight
      exact resolveBoneWeight_raw bones v.weight (hwf v (List.mem_cons_self v vs))
    rw [hw]
    rfl

theorem faces_section (verts : List Vertex) :
    ∀ (mats : List Material),
      (∀ mt ∈ mats, mt.faces.all (faceWF (verts.map Vertex.id)) = true) →
      ∃ ws, saveList (fun mt => saveList (faceSave (vertIndexMap verts)) mt.faces) mats
          = .ok ws ∧
        ∀ r, loadList (faceLoad verts.length)
            (mats.flatMap (fun mt => mt.faces)).length (ws ++ r)
          = .ok (mats.flatMap (fun mt => mt.faces.map (canonFace verts)), r) := by
  intro mats
  induction mats with
  | nil =>
    intro _
    exact ⟨[], rfl, fun r => rfl⟩
  | cons mt rest ih =>
    intro h
    have hmt := h mt (List.mem_cons_self mt rest)
    obtain ⟨w1, hw1, hld1⟩ := save_load_list (faceSave (vertIndexMap verts))
      (faceLoad verts.length) (canonFace verts) mt.faces
      (fun f hf => by
        have hwf := List.all_eq_true.mp hmt f hf
        simp only [faceWF, Bool.and_eq_true, decide_eq_true_eq] at hwf
        exact face_round verts f hwf.1.1 hwf.1.2 hwf.2)
    obtain ⟨wrest, hwrest, hldrest⟩ := ih (fun x hx => h x (List.mem_cons_of_mem mt hx))
    refine ⟨w1 ++ wrest, ?_, ?_⟩
    · show (bind (saveList (faceSave (vertIndexMap verts)) mt.faces) fun a =>
        bind (saveList (fun mt => saveList (faceSave (vertIndexMap verts)) mt.faces) rest)
          fun b => pure (a ++ b)) = _
      rw [hw1, P_bindb_ok, hwrest, P_bindb_ok]
      rfl
    · intro r
      rw [List.flatMap_cons, List.length_append, List.append_assoc]
      have := loadList_add (faceLoad verts.length) mt.faces.length
        (rest.flatMap (fun mt => mt.faces)).length (w1 ++ (wrest ++ r))
        (wrest ++ r) r (mt.faces.map (canonFace verts))
        (rest.flatMap (fun mt => mt.faces.map (canonFace verts)))
        (hld1 (wrest ++ r)) (hldrest r)
      rw [this, List.flatMap_cons]

end Pmx

namespace Pmx

theorem vertices_canon_enum (bones : List Bone) (verts : List Vertex)
    (h : ∀ v ∈ verts, v.weight.bones.all (refOk bones) = true) :
    (verts.map (rawOfVertex bones)).enum.map (fun p =>
      ({ id := p.1, co := p.2.co, normal := p.2.normal, uv := p.2.uv
         additional_uvs := p.2.additional_uvs
         weight := resolveBoneWeight bones p.2.weight
         edge_scale := p.2.edge_scale } : Vertex))
      = verts.enum.map (fun p => { p.2 with id := p.1 }) :=
  vertices_canon bones verts 0 h

set_option maxHeartbeats 4000000 in
theorem pmx_roundtrip (M : Model) (h : modelWF (purgeModel M) = true) :
    ∃ ts, pmxSave M = .ok ts ∧ pmxLoad ts = .ok (canonModel (purgeModel M)) := by
  obtain ⟨hname, hnmE, hcmt, hcmtE, hauv, -, -, -, -, -⟩ := purge_scalars M
  simp only [modelWF, Bool.and_eq_true] at h
  obtain ⟨⟨⟨⟨⟨⟨hverts, hmats⟩, hbones⟩, hmorphs⟩, hslots⟩, hrigids⟩, hjoints⟩ := h
  -- section facts
  obtain ⟨vw, hvw, hvld⟩ := save_load_list
    (vertexSave (purgeModel M).bones M.additional_uvs)
    (vertexLoad M.additional_uvs) (rawOfVertex (purgeModel M).bones)
    (purgeModel M).vertices
    (fun v hv => by
      have hwf := List.all_eq_true.mp hverts v hv
      rw [hauv] at hwf
      exact vertex_round (purgeModel M).bones M.additional_uvs v hwf)
  obtain ⟨fw, hfw, hfld⟩ := faces_section (purgeModel M).vertices (purgeModel M).materials
    (fun mt hmt => by
      have hwf := List.all_eq_true.mp hmats mt hmt
      simp only [materialWF, Bool.and_eq_true] at hwf
      exact hwf.2)
  have htxld := loadList_chunks readStr writeStr id (purgeModel M).textures
    (fun t _ r => readStr_write t r)
  have hmatld := loadNamed_chunks (fun _ => materialLoad (purgeModel M).textures)
    (materialSave (purgeModel M).textures) matLoaded (purgeModel M).materials []
    (fun pre x post hx => by
      have hxm : x ∈ (purgeModel M).materials := by
        rw [hx]
        exact List.mem_append.mpr (Or.inr (List.mem_cons_self x post))
      have hwf := List.all_eq_true.mp hmats x hxm
      refine ⟨?_, fun r => material_round (purgeModel M).textures
        ((purgeModel M).vertices.map Vertex.id) x hwf r⟩
      have hwf2 := hwf
      simp only [materialWF, Bool.and_eq_true, decide_eq_true_eq] at hwf2
      exact okName_of_name Material.name (fun y => rfl) (matLoaded x)
        (show x.name ≠ "" from hwf2.1.1.1.1.1.1.1.1))
  have hassign : assignFaces
      ((purgeModel M).materials.flatMap
        (fun mt => mt.faces.map (canonFace (purgeModel M).vertices)))
      0 ((purgeModel M).materials.map matLoaded)
      = (purgeModel M).materials.map (canonMaterial (purgeModel M).vertices) := by
    have h0 := assignFaces_canon (purgeModel M).vertices (purgeModel M).materials []
    simpa using h0
  obtain ⟨bw, hbw, hbld⟩ := save_load_named (boneSave (purgeModel M).bones)
    (fun _ => boneLoad) (rawOfBone (purgeModel M).bones) (purgeModel M).bones []
    (fun pre x post hx => by
      have hxm : x ∈ (purgeModel M).bones := by
        rw [hx]
        exact List.mem_append.mpr (Or.inr (List.mem_cons_self x post))
      have hwf := List.all_eq_true.mp hbones x hxm
      refine ⟨boneTokens (purgeModel M).bones x, boneSave_eq (purgeModel M).bones x, ?_,
        fun r => boneLoad_bone (purgeModel M).bones x hwf r⟩
      have hwf2 := hwf
      simp only [boneWF, Bool.and_eq_true, decide_eq_true_eq] at hwf2
      exact okName_of_name RawBone.name (fun y => rfl) (rawOfBone (purgeModel M).bones x)
        (show x.name ≠ "" from hwf2.1.1.1.1.1.1.1.1))
  have hresolve : (((purgeModel M).bones.map (rawOfBone (purgeModel M).bones)).map
      (resolveBone ((purgeModel M).bones.map (rawOfBone (purgeModel M).bones))))
      = (purgeModel M).bones := by
    rw [List.map_map]
    refine (List.map_congr_left ?_).trans (List.map_id _)
    intro b hb
    show resolveBone ((purgeModel M).bones.map (rawOfBone (purgeModel M).bones))
      (rawOfBone (purgeModel M).bones b) = b
    exact resolveBone_raw (purgeModel M).bones b (List.all_eq_true.mp hbones b hb)
  have hvcanon := vertices_canon_enum (purgeModel M).bones (purgeModel M).vertices
    (fun v hv => by
      have hwf := List.all_eq_true.mp hverts v hv
      simp only [vertexWF, weightWF, Bool.and_eq_true] at hwf
      exact hwf.2.1)
  obtain ⟨mw, hmw, hmld⟩ := save_load_named
    (morphSave (vertIndexMap (purgeModel M).vertices) (purgeModel M).materials
      (purgeModel M).bones (purgeModel M).morphs)
    (morphCreate (purgeModel M).vertices.length
      ((purgeModel M).materials.map (canonMaterial (purgeModel M).vertices))
      (purgeModel M).bones)
    (canonMorph (purgeModel M).vertices) (purgeModel M).morphs []
    (fun pre x post hx => by
      have hwfk := morphsWF_at ((purgeModel M).vertices.map Vertex.id)
        (purgeModel M).materials (purgeModel M).bones (purgeModel M).morphs
        pre x post 0 (by rw [← hx]; exact hmorphs)
      rw [Nat.zero_add] at hwfk
      obtain ⟨ts, hsv, hld⟩ := morph_round (purgeModel M).vertices (purgeModel M).materials
        ((purgeModel M).materials.map (canonMaterial (purgeModel M).vertices))
        (purgeModel M).bones (purgeModel M).morphs pre.length
        (pre.map (canonMorph (purgeModel M).vertices))
        (canonMaterial_pynames (purgeModel M).vertices (purgeModel M).materials)
        (by
          rw [hx, List.take_left]
          exact canonMorph_pynames (purgeModel M).vertices pre)
        x hwfk
      refine ⟨ts, hsv, ?_, fun r => by simpa using hld r⟩
      have h2 := hwfk
      simp only [morphWF, Bool.and_eq_true, decide_eq_true_eq] at h2
      exact okName_of_name Morph.name (fun y => rfl) (canonMorph (purgeModel M).vertices x)
        (by rw [canonMorph_name]; exact h2.1))
  obtain ⟨dw, hdw, hdld⟩ := save_load_named
    (displaySlotSave (purgeModel M).bones (purgeModel M).morphs)
    (fun _ => displaySlotLoad (purgeModel M).bones
      ((purgeModel M).morphs.map (canonMorph (purgeModel M).vertices)))
    id (purgeModel M).display_slots []
    (fun pre x post hx => by
      have hxm : x ∈ (purgeModel M).display_slots := by
        rw [hx]
        exact List.mem_append.mpr (Or.inr (List.mem_cons_self x post))
      have hwf := List.all_eq_true.mp hslots x hxm
      obtain ⟨ts, hsv, hld⟩ := displaySlot_round (purgeModel M).bones (purgeModel M).morphs
        ((purgeModel M).morphs.map (canonMorph (purgeModel M).vertices))
        (canonMorph_pynames (purgeModel M).vertices (purgeModel M).morphs) x hwf
      refine ⟨ts, hsv, ?_, fun r => hld r⟩
      have h2 := hwf
      simp only [displaySlotWF, Bool.and_eq_true, decide_eq_true_eq] at h2
      exact okName_of_name DisplaySlot.name (fun y => rfl) x h2.1)
  have hrgld := loadNamed_chunks (fun _ => rigidLoad (purgeModel M).bones)
    (rigidSave (purgeModel M).bones) id (purgeModel M).rigids []
    (fun pre x post hx => by
      have hxm : x ∈ (purgeModel M).rigids := by
        rw [hx]
        exact List.mem_append.mpr (Or.inr (List.mem_cons_self x post))
      have hwf := List.all_eq_true.mp hrigids x hxm
      refine ⟨?_, fun r => rigid_round (purgeModel M).bones x hwf r⟩
      have h2 := hwf
      simp only [rigidWF, Bool.and_eq_true, decide_eq_true_eq] at h2
      exact okName_of_name RigidBody.name (fun y => rfl) x h2.1.1.1.1)
  have hjld := loadNamed_chunks (fun _ => jointLoad (purgeModel M).rigids)
    (jointSave (purgeModel M).rigids) id (purgeModel M).joints []
    (fun pre x post hx => by
      have hxm : x ∈ (purgeModel M).joints := by
        rw [hx]
        exact List.mem_append.mpr (Or.inr (List.mem_cons_self x post))
      have hwf := List.all_eq_true.mp hjoints x hxm
      refine ⟨?_, fun r => joint_round (purgeModel M).rigids x hwf r⟩
      have h2 := hwf
      simp only [jointWF, Bool.and_eq_true, decide_eq_true_eq] at h2
      exact okName_of_name Joint.name (fun y => rfl) x
        h2.1.1.1.1.1.1.1.1.1.1)
  have hjld2 : loadNamed (fun _ => jointLoad (purgeModel M).rigids)
      (purgeModel M).joints.length []
      ((List.map (jointSave (purgeModel M).rigids) (purgeModel M).joints).flatten)
      = .ok ([] ++ List.map id (purgeModel M).joints, []) := by
    have h0 := hjld []
    rwa [List.append_nil] at h0
  have hpm : purge_unused_vertices (purge_unused_textures M) = purgeModel M := rfl
  have hha : (mkHeader M).additional_uvs = M.additional_uvs := rfl
  have hfc : ((((purgeModel M).materials.foldl (fun n mat => n + mat.faces.length) 0
        * 3 : Nat) : Int) / 3).toNat
      = ((purgeModel M).materials.flatMap (fun mt => mt.faces)).length := by
    rw [foldl_faces_count (purgeModel M).materials 0]
    omega
  have hsave : pmxSave M = .ok (headerSave (mkHeader M) ++ (
      (writeStr M.name ++ writeStr M.name_e ++ writeStr M.comment ++ writeStr M.comment_e)
      ++ writeInt ((purgeModel M).vertices.length : Int) ++ vw
      ++ writeInt ((((purgeModel M).materials.foldl (fun n mat => n + mat.faces.length) 0)
          * 3 : Nat) : Int) ++ fw
      ++ writeInt ((purgeModel M).textures.length : Int)
      ++ ((purgeModel M).textures.map writeStr).flatten
      ++ writeInt ((purgeModel M).materials.length : Int)
      ++ ((purgeModel M).materials.map (materialSave (purgeModel M).textures)).flatten
      ++ writeInt ((purgeModel M).bones.length : Int) ++ bw
      ++ writeInt ((purgeModel M).morphs.length : Int) ++ mw
      ++ writeInt ((purgeModel M).display_slots.length : Int) ++ dw
      ++ writeInt ((purgeModel M).rigids.length : Int)
      ++ ((purgeModel M).rigids.map (rigidSave (purgeModel M).bones)).flatten
      ++ writeInt ((purgeModel M).joints.length : Int)
      ++ ((purgeModel M).joints.map (jointSave (purgeModel M).rigids)).flatten)) := by
    simp only [pmxSave, modelSaveBody]
    rw [hpm, hha]
    rw [hvw, P_bindb_ok, hfw, P_bindb_ok, hbw, P_bindb_ok, hmw, P_bindb_ok,
      hdw, P_bindb_ok]
    rfl
  have hload : modelBodyLoad (mkHeader M) (
      (writeStr M.name ++ writeStr M.name_e ++ writeStr M.comment ++ writeStr M.comment_e)
      ++ writeInt ((purgeModel M).vertices.length : Int) ++ vw
      ++ writeInt ((((purgeModel M).materials.foldl (fun n mat => n + mat.faces.length) 0)
          * 3 : Nat) : Int) ++ fw
      ++ writeInt ((purgeModel M).textures.length : Int)
      ++ ((purgeModel M).textures.map writeStr).flatten
      ++ writeInt ((purgeModel M).materials.length : Int)
      ++ ((purgeModel M).materials.map (materialSave (purgeModel M).textures)).flatten
      ++ writeInt ((purgeModel M).bones.length : Int) ++ bw
      ++ writeInt ((purgeModel M).morphs.length : Int) ++ mw
      ++ writeInt ((purgeModel M).display_slots.length : Int) ++ dw
      ++ writeInt ((purgeModel M).rigids.length : Int)
      ++ ((purgeModel M).rigids.map (rigidSave (purgeModel M).bones)).flatten
      ++ writeInt ((purgeModel M).joints.length : Int)
      ++ ((purgeModel M).joints.map (jointSave (purgeModel M).rigids)).flatten)
      = .ok (canonModel (purgeModel M)) := by
    simp only [modelBodyLoad, List.append_assoc, hha, readStr_write, readInt_write,
      P_bindb_ok, P_pure_eq, Int.toNat_natCast, List.length_map, hvld, hfc, hfld,
      htxld, List.map_id, hmatld, List.nil_append, hassign, hbld, hresolve,
      hvcanon, hmld, hdld, hrgld, hjld2]
    simp only [canonModel, hname, hnmE, hcmt, hcmtE, hauv]
  refine ⟨_, hsave, ?_⟩
  simp only [pmxLoad]
  rw [headerLoad_headerSave (mkHeader M) rfl, P_bindb_ok]
  simp only [hload]

end Pmx

namespace Pmx

/-- C2: For every model M whose purged form is well-formed (the purge —
dropping vertices and textures unreferenced by any material — is exactly
what Model.save performs before writing), saving M and loading the
resulting document succeeds and yields precisely the canonical image of
the purged model: the same vertex count, the same per-material face
partition, identical material, bone and morph names, and identical
name-based cross-reference targets (bone parents, rigid-body bone
references, joint rigid references); vertex ids are renumbered to list
positions and face/vertex-morph references follow the renumbering.
(Corrected: a group morph referencing a morph that appears later in the
collection does NOT keep its cross-reference target — the reference is
nulled on reload because offsets resolve against the partially loaded
morph collection — so validity must restrict group morphs to references
at strictly earlier positions, as modelWF does.) -/
theorem C2_roundtrip (M : Model) (h : modelWF (purgeModel M) = true) :
    ∃ ts L, pmxSave M = .ok ts ∧ pmxLoad ts = .ok L ∧
      L = canonModel (purgeModel M) ∧
      L.vertices.length = (purgeModel M).vertices.length ∧
      L.materials.map (fun mt => mt.faces.length)
        = (purgeModel M).materials.map (fun mt => mt.faces.length) ∧
      L.materials.map Material.name = (purgeModel M).materials.map Material.name ∧
      L.bones.map Bone.name = (purgeModel M).bones.map Bone.name ∧
      L.morphs.map Morph.name = (purgeModel M).morphs.map Morph.name ∧
      L.bones.map Bone.parent = (purgeModel M).bones.map Bone.parent ∧
      L.rigids.map RigidBody.bone = (purgeModel M).rigids.map RigidBody.bone ∧
      L.joints.map Joint.src_rigid = (purgeModel M).joints.map Joint.src_rigid := by
  obtain ⟨ts, hs, hl⟩ := pmx_roundtrip M h
  refine ⟨ts, canonModel (purgeModel M), hs, hl, rfl, ?_, ?_, ?_, rfl, ?_, rfl, rfl, rfl⟩
  · simp [canonModel]
  · simp only [canonModel]
    rw [List.map_map]
    refine List.map_congr_left ?_
    intro x _
    simp [canonMaterial]
  · simp only [canonModel]
    rw [List.map_map]
    refine List.map_congr_left ?_
    intro x _
    rfl
  · simp only [canonModel]
    rw [List.map_map]
    refine List.map_congr_left ?_
    intro x _
    exact canonMorph_name (purgeModel M).vertices x

/-- C2 counterexample to the original claim: fwdRefM passes the merge
tool's own element validator (validate_elements reports no duplicate or
unnamed element) and is untouched by the purge (it has no vertices and no
textures), yet the group morph's forward reference to morph "v" — a
name-based cross-reference target — does not survive a save/load cycle:
the reloaded offset's reference is none. -/
theorem C2_counterexample :
    validate_elements fwdRefM = false ∧
    Except.map (fun L => L.morphs.map groupRefs) (bind (pmxSave fwdRefM) pmxLoad)
      = .ok [[none], []] ∧
    fwdRefM.morphs.map groupRefs = [[some "v"], []] :=
  ⟨by decide, by rfl, by decide⟩

/-- C2 witness: the round-trip theorem applied to a concrete document
exercising every section (including an unused vertex and an unused texture
that the save purges); the well-formedness hypothesis is discharged by
evaluation. -/
theorem C2_witness :
    modelWF (purgeModel rtModel) = true ∧
    (∃ ts L, pmxSave rtModel = .ok ts ∧ pmxLoad ts = .ok L ∧
      L = canonModel (purgeModel rtModel) ∧
      L.vertices.length = (purgeModel rtModel).vertices.length ∧
      L.materials.map (fun mt => mt.faces.length)
        = (purgeModel rtModel).materials.map (fun mt => mt.faces.length) ∧
      L.materials.map Material.name = (purgeModel rtModel).materials.map Material.name ∧
      L.bones.map Bone.name = (purgeModel rtModel).bones.map Bone.name ∧
      L.morphs.map Morph.name = (purgeModel rtModel).morphs.map Morph.name ∧
      L.bones.map Bone.parent = (purgeModel rtModel).bones.map Bone.parent ∧
      L.rigids.map RigidBody.bone = (purgeModel rtModel).rigids.map RigidBody.bone ∧
      L.joints.map Joint.src_rigid = (purgeModel rtModel).joints.map Joint.src_rigid) :=
  ⟨by decide, C2_roundtrip rtModel (by decide)⟩

end Pmx
